import Mathlib

/-!
# Painter: operation queue, execution loop, operation model and command parser

A shallow embedding of `painter/op.go`, `painter/loop.go` and
`painter/lang/parser.go`, followed by theorems about them.

Conventions of the embedding:

* Go `int` is the 64-bit two's-complement integer; it is an `Int` here and every
  addition and subtraction of the source goes through `wrap64`.
* Go `float64` is `F64`: NaN, the two infinities, and finite values
  `(-1)^neg * m * 2^e`. Arithmetic rounds to nearest, ties to even.
* Go strings are `String`s (sequences of Unicode code points).
* `screen.Texture` and `Receiver` are interfaces implemented outside the
  package; they are modelled as recorders of the calls made on them.
-/

namespace Painter

/-! ## Machine integers -/

/-- Two's-complement wrap-around of a mathematical integer into the range of Go's
64-bit `int`. -/
def wrap64 (x : Int) : Int := (x + 2 ^ 63) % 2 ^ 64 - 2 ^ 63

/-- Go `a + b` on `int`. -/
def add64 (a b : Int) : Int := wrap64 (a + b)

/-- Go `a - b` on `int`. -/
def sub64 (a b : Int) : Int := wrap64 (a - b)

/-! ## float64 -/

/-- The values of Go's `float64` (IEEE-754 binary64). A finite value is
`(-1)^neg * m * 2^e`; the values produced by `F64.round` have `m < 2^53` and
`-1074 ≤ e ≤ 971`, and their zeros are `fin neg 0 0`. -/
inductive F64 where
  | nan : F64
  | inf (neg : Bool) : F64
  | fin (neg : Bool) (m : Nat) (e : Int) : F64
deriving DecidableEq

namespace F64

/-- The integer `(-1)^neg * m * 2^(e - k)`, for `k ≤ e`. -/
def scaled (neg : Bool) (m : Nat) (e k : Int) : Int :=
  let v : Int := (m : Int) * 2 ^ (e - k).toNat
  if neg then -v else v

/-- Go `a < b` on `float64`: false as soon as one side is NaN; `-0` and `+0`
are equal. -/
def lt : F64 → F64 → Bool
  | nan, _ => false
  | _, nan => false
  | inf n1, inf n2 => n1 && !n2
  | inf n1, fin _ _ _ => n1
  | fin _ _ _, inf n2 => !n2
  | fin n1 m1 e1, fin n2 m2 e2 =>
    decide (scaled n1 m1 e1 (min e1 e2) < scaled n2 m2 e2 (min e1 e2))

/-- Go `a > b` on `float64`. -/
def gt (a b : F64) : Bool := lt b a

/-- Go `a <= b` on `float64`: false as soon as one side is NaN. -/
def le : F64 → F64 → Bool
  | nan, _ => false
  | _, nan => false
  | inf n1, inf n2 => n1 || !n2
  | inf n1, fin _ _ _ => n1
  | fin _ _ _, inf n2 => !n2
  | fin n1 m1 e1, fin n2 m2 e2 =>
    decide (scaled n1 m1 e1 (min e1 e2) ≤ scaled n2 m2 e2 (min e1 e2))

/-- The quotient `n / d` rounded to the nearest integer, ties to the even one. -/
def roundHalfEven (n d : Nat) : Nat :=
  let q := n / d
  let r := n % d
  if 2 * r < d then q
  else if d < 2 * r then q + 1
  else if q % 2 = 0 then q else q + 1

/-- The number of times `n` can be halved before it falls below 2, counted up
to `fuel`. -/
def log2Fuel : Nat → Nat → Nat
  | 0, _ => 0
  | fuel + 1, n => if 2 ≤ n then log2Fuel fuel (n / 2) + 1 else 0

/-- The position of the leading bit of `n`: `2^(log2 n) ≤ n < 2^(log2 n + 1)`
for `n > 0`. -/
def log2 (n : Nat) : Nat := log2Fuel n n

/-- True when `2^k ≤ n / d`. -/
def geTwoPow (n d : Nat) (k : Int) : Bool :=
  if 0 ≤ k then decide (d * 2 ^ k.toNat ≤ n) else decide (d ≤ n * 2 ^ (-k).toNat)

/-- The binary64 value nearest to `(-1)^neg * n / d` (for `d > 0`), ties to even;
magnitudes that round beyond the largest finite value give an infinity. -/
def round (neg : Bool) (n d : Nat) : F64 :=
  if n = 0 then fin neg 0 0
  else
    let k0 : Int := (log2 n : Int) - (log2 d : Int)
    -- `2^k ≤ n / d < 2^(k+1)`
    let k : Int := if geTwoPow n d k0 then k0 else k0 - 1
    let e : Int := max (k - 52) (-1074)
    let m : Nat :=
      if 0 ≤ e then roundHalfEven n (d * 2 ^ e.toNat)
      else roundHalfEven (n * 2 ^ (-e).toNat) d
    let m1 : Nat := if m = 2 ^ 53 then 2 ^ 52 else m
    let e1 : Int := if m = 2 ^ 53 then e + 1 else e
    if 971 < e1 then inf neg else if m1 = 0 then fin neg 0 0 else fin neg m1 e1

/-- Go `float64(i)` for an `int` i. -/
def ofInt (i : Int) : F64 := round (decide (i < 0)) i.natAbs 1

/-- Go `a * b` on `float64`. -/
def mul : F64 → F64 → F64
  | nan, _ => nan
  | _, nan => nan
  | inf n1, inf n2 => inf (xor n1 n2)
  | inf n1, fin n2 m _ => if m = 0 then nan else inf (xor n1 n2)
  | fin n1 m _, inf n2 => if m = 0 then nan else inf (xor n1 n2)
  | fin n1 m1 e1, fin n2 m2 e2 =>
    if 0 ≤ e1 + e2 then round (xor n1 n2) (m1 * m2 * 2 ^ (e1 + e2).toNat) 1
    else round (xor n1 n2) (m1 * m2) (2 ^ (-(e1 + e2)).toNat)

/-- Go `int(f)`: truncation toward zero. For NaN, the infinities and values
outside the `int` range the language leaves the result to the implementation;
the value taken here is the one amd64 produces, the smallest `int`. -/
def toInt : F64 → Int
  | fin neg m e =>
    let t : Int := if 0 ≤ e then (m : Int) * 2 ^ e.toNat else (m : Int) / 2 ^ (-e).toNat
    let v : Int := if neg then -t else t
    if -2 ^ 63 ≤ v ∧ v < 2 ^ 63 then v else -2 ^ 63
  | _ => -2 ^ 63

/-- The rational number a finite value stands for; 0 for NaN and the
infinities. -/
def toRat : F64 → ℚ
  | fin neg m e => (if neg then -1 else 1) * (m : ℚ) * (2 : ℚ) ^ e
  | _ => 0

/-- The constant `0`. -/
def zero : F64 := fin false 0 0

/-- The constant `1`. -/
def one : F64 := fin false (2 ^ 52) (-52)

end F64

/-! ## Geometry and colours (packages `image` and `image/color`) -/

/-- Go `image.Point`. -/
structure Point where
  X : Int
  Y : Int
deriving DecidableEq

/-- Go `Point.Add`. -/
def Point.Add (p q : Point) : Point := ⟨add64 p.X q.X, add64 p.Y q.Y⟩

/-- Go `image.Rectangle`. -/
structure Rectangle where
  Min : Point
  Max : Point
deriving DecidableEq

/-- Go `image.Rect`: the rectangle with the given corners, reordered so that
`Min ≤ Max` on both axes. -/
def Rect (x0 y0 x1 y1 : Int) : Rectangle :=
  let xa := if x0 > x1 then x1 else x0
  let xb := if x0 > x1 then x0 else x1
  let ya := if y0 > y1 then y1 else y0
  let yb := if y0 > y1 then y0 else y1
  ⟨⟨xa, ya⟩, ⟨xb, yb⟩⟩

/-- Go `Rectangle.Dx`. -/
def Rectangle.Dx (r : Rectangle) : Int := sub64 r.Max.X r.Min.X

/-- Go `Rectangle.Dy`. -/
def Rectangle.Dy (r : Rectangle) : Int := sub64 r.Max.Y r.Min.Y

/-- Go `Rectangle.Empty`. -/
def Rectangle.Empty (r : Rectangle) : Bool :=
  decide (r.Min.X ≥ r.Max.X) || decide (r.Min.Y ≥ r.Max.Y)

/-- Go `Rectangle.Intersect`; the empty intersection is the zero rectangle. -/
def Rectangle.Intersect (r s : Rectangle) : Rectangle :=
  let minX := if r.Min.X < s.Min.X then s.Min.X else r.Min.X
  let minY := if r.Min.Y < s.Min.Y then s.Min.Y else r.Min.Y
  let maxX := if r.Max.X > s.Max.X then s.Max.X else r.Max.X
  let maxY := if r.Max.Y > s.Max.Y then s.Max.Y else r.Max.Y
  let r1 : Rectangle := ⟨⟨minX, minY⟩, ⟨maxX, maxY⟩⟩
  if r1.Empty then ⟨⟨0, 0⟩, ⟨0, 0⟩⟩ else r1

/-- The colour values the package uses: `color.Gray16` (of which `color.White`
and `color.Black` are instances) and `color.NRGBA`. -/
inductive Color where
  | Gray16 (Y : Nat) : Color
  | NRGBA (R G B A : Nat) : Color
deriving DecidableEq

/-- Go `color.White`. -/
def Color.White : Color := .Gray16 0xffff

/-- Go `color.Black`. -/
def Color.Black : Color := .Gray16 0

/-- The literal `color.NRGBA{G: 0xff, A: 0xff}`. -/
def Color.Green : Color := .NRGBA 0 0xff 0 0xff

/-- The literal `color.NRGBA{R: 0xff, G: 0xff, A: 0xff}`. -/
def Color.Yellow : Color := .NRGBA 0xff 0xff 0 0xff

/-! ## Texture and receiver -/

/-- A `screen.Texture`, as the loop sees it: its size, the `Fill` calls made on
it so far (oldest first) and whether `Release` has been called. -/
structure Texture where
  size : Point
  fills : List (Rectangle × Color)
  released : Bool
deriving DecidableEq

/-- Go `Texture.Bounds`. -/
def Texture.Bounds (t : Texture) : Rectangle := ⟨⟨0, 0⟩, t.size⟩

/-- Go `Texture.Fill(dr, src, screen.Src)`. -/
def Texture.Fill (t : Texture) (dr : Rectangle) (src : Color) : Texture :=
  { t with fills := t.fills ++ [(dr, src)] }

/-- Go `Texture.Release`. -/
def Texture.Release (t : Texture) : Texture := { t with released := true }

/-- A `Receiver`: the textures passed to `Update`, one entry per call, oldest
first. -/
structure Receiver where
  updates : List Texture
deriving DecidableEq

/-- Go `Receiver.Update`. -/
def Receiver.Update (r : Receiver) (t : Texture) : Receiver :=
  { updates := r.updates ++ [t] }

/-! ## State and operations (`painter/op.go`) -/

/-- Go `FigureVariant`, an `int`. -/
abbrev FigureVariant := Int

/-- Go constant `T0`. -/
def T0 : FigureVariant := 0

/-- Go constant `T90`. -/
def T90 : FigureVariant := 1

/-- Go constant `T180`. -/
def T180 : FigureVariant := 2

/-- Go constant `T270`. -/
def T270 : FigureVariant := 3

/-- Go constant `Cross`. -/
def Cross : FigureVariant := 4

/-- Go `FigureOp`: one figure of the state. -/
structure FigureOp where
  X : Int
  Y : Int
  Variant : FigureVariant
  Color : Color
deriving DecidableEq

/-- Go `BgRectOp`: the background rectangle of the state. -/
structure BgRectOp where
  X1 : Int
  Y1 : Int
  X2 : Int
  Y2 : Int
deriving DecidableEq

/-- Go `State`; `BgRect = none` is the nil pointer. -/
structure State where
  BgColor : Color
  BgRect : Option BgRectOp
  Figures : List FigureOp
  MoveOffset : Point
  WindowWidth : Int
  WindowHeight : Int
deriving DecidableEq

/-- The result of a `Do` call: the returned flag, and the state and the texture
as the call leaves them. -/
abbrev DoResult := Bool × State × Texture

/-- Go `min` of op.go. -/
def min (a b : Int) : Int := if a < b then a else b

/-- The rectangles `drawFigure` collects for a variant, in the order of the
`append` calls; `none` is the `default` branch, which returns without drawing. -/
def figureRects (cx cy : Int) (variant : FigureVariant) (baseSize : Int) :
    Option (List Rectangle) :=
  let barWidth := baseSize
  let barHeight := Int.tdiv baseSize 3
  let stemWidth := Int.tdiv baseSize 3
  let stemHeight := sub64 baseSize barHeight
  let totalHeight := baseSize
  let crossSize := baseSize
  let armThickness := Int.tdiv baseSize 3
  if variant = T0 then
    let hbX1 := sub64 cx (Int.tdiv barWidth 2)
    let hbY1 := sub64 cy (Int.tdiv totalHeight 2)
    let hbX2 := add64 cx (Int.tdiv barWidth 2)
    let hbY2 := add64 (sub64 cy (Int.tdiv totalHeight 2)) barHeight
    let vsX1 := sub64 cx (Int.tdiv stemWidth 2)
    let vsY1 := hbY2
    let vsX2 := add64 cx (Int.tdiv stemWidth 2)
    let vsY2 := add64 vsY1 stemHeight
    some [Rect hbX1 hbY1 hbX2 hbY2, Rect vsX1 vsY1 vsX2 vsY2]
  else if variant = T90 then
    let vbX1 := sub64 (add64 cx (Int.tdiv totalHeight 2)) barHeight
    let vbY1 := sub64 cy (Int.tdiv barWidth 2)
    let vbX2 := add64 cx (Int.tdiv totalHeight 2)
    let vbY2 := add64 cy (Int.tdiv barWidth 2)
    let hsX1 := sub64 vbX1 stemHeight
    let hsY1 := sub64 cy (Int.tdiv stemWidth 2)
    let hsX2 := vbX1
    let hsY2 := add64 cy (Int.tdiv stemWidth 2)
    some [Rect vbX1 vbY1 vbX2 vbY2, Rect hsX1 hsY1 hsX2 hsY2]
  else if variant = T180 then
    let hbX1 := sub64 cx (Int.tdiv barWidth 2)
    let hbY1 := sub64 (add64 cy (Int.tdiv totalHeight 2)) barHeight
    let hbX2 := add64 cx (Int.tdiv barWidth 2)
    let hbY2 := add64 cy (Int.tdiv totalHeight 2)
    let vsX1 := sub64 cx (Int.tdiv stemWidth 2)
    let vsY1 := sub64 hbY1 stemHeight
    let vsX2 := add64 cx (Int.tdiv stemWidth 2)
    let vsY2 := hbY1
    some [Rect hbX1 hbY1 hbX2 hbY2, Rect vsX1 vsY1 vsX2 vsY2]
  else if variant = T270 then
    let vbX1 := sub64 cx (Int.tdiv totalHeight 2)
    let vbY1 := sub64 cy (Int.tdiv barWidth 2)
    let vbX2 := add64 (sub64 cx (Int.tdiv totalHeight 2)) barHeight
    let vbY2 := add64 cy (Int.tdiv barWidth 2)
    let hsX1 := vbX2
    let hsY1 := sub64 cy (Int.tdiv stemWidth 2)
    let hsX2 := add64 hsX1 stemHeight
    let hsY2 := add64 cy (Int.tdiv stemWidth 2)
    some [Rect vbX1 vbY1 vbX2 vbY2, Rect hsX1 hsY1 hsX2 hsY2]
  else if variant = Cross then
    let hbX1 := sub64 cx (Int.tdiv crossSize 2)
    let hbY1 := sub64 cy (Int.tdiv armThickness 2)
    let hbX2 := add64 cx (Int.tdiv crossSize 2)
    let hbY2 := add64 cy (Int.tdiv armThickness 2)
    let vbX1 := sub64 cx (Int.tdiv armThickness 2)
    let vbY1 := sub64 cy (Int.tdiv crossSize 2)
    let vbX2 := add64 cx (Int.tdiv armThickness 2)
    let vbY2 := add64 cy (Int.tdiv crossSize 2)
    some [Rect hbX1 hbY1 hbX2 hbY2, Rect vbX1 vbY1 vbX2 hbY1, Rect vbX1 hbY2 vbX2 vbY2]
  else none

/-- The base size `drawFigure` computes: 30% of the smaller window side, at
least 20. -/
def figureBaseSize (winWidth winHeight : Int) : Int :=
  let baseSize := (F64.mul (F64.ofInt (min winWidth winHeight)) (F64.round false 3 10)).toInt
  if baseSize < 20 then 20 else baseSize

/-- The final loop of `drawFigure`: every rectangle is clipped to the texture
bounds and filled when the clipped rectangle is not empty. -/
def fillClipped (t : Texture) (figureColor : Color) : List Rectangle → Texture
  | [] => t
  | r :: rects =>
    let clippedRect := r.Intersect t.Bounds
    if !clippedRect.Empty then fillClipped (t.Fill clippedRect figureColor) figureColor rects
    else fillClipped t figureColor rects

/-- Go `drawFigure`. -/
def drawFigure (t : Texture) (cx cy : Int) (variant : FigureVariant) (figureColor : Color)
    (winWidth winHeight : Int) : Texture :=
  match figureRects cx cy variant (figureBaseSize winWidth winHeight) with
  | none => t
  | some rects => fillClipped t figureColor rects

/-- The `Fill` calls that `drawFigure` makes for a figure, on a texture of the
given size. -/
def glyphFills (size : Point) (cx cy : Int) (variant : FigureVariant) (figureColor : Color)
    (winWidth winHeight : Int) : List (Rectangle × Color) :=
  (drawFigure ⟨size, [], false⟩ cx cy variant figureColor winWidth winHeight).fills

/-- Step 2 of `UpdateOp.Do`: the background rectangle, black with a green frame
one pixel wide. -/
def drawBgRect (b : BgRectOp) (t : Texture) : Texture :=
  let rect := Rect b.X1 b.Y1 b.X2 b.Y2
  let t := t.Fill rect Color.Black
  if rect.Dx > 0 ∧ rect.Dy > 0 then
    let t := t.Fill ((Rect rect.Min.X rect.Min.Y rect.Max.X (add64 rect.Min.Y 1)).Intersect rect)
      Color.Green
    let t := if rect.Dy > 1 then
        t.Fill ((Rect rect.Min.X (sub64 rect.Max.Y 1) rect.Max.X rect.Max.Y).Intersect rect)
          Color.Green
      else t
    if rect.Dx > 1 then
      let t := t.Fill
        ((Rect rect.Min.X (add64 rect.Min.Y 1) (add64 rect.Min.X 1) (sub64 rect.Max.Y 1)).Intersect
          rect) Color.Green
      t.Fill
        ((Rect (sub64 rect.Max.X 1) (add64 rect.Min.Y 1) rect.Max.X (sub64 rect.Max.Y 1)).Intersect
          rect) Color.Green
    else t
  else if rect.Dx > 0 then t.Fill rect Color.Green
  else if rect.Dy > 0 then t.Fill rect Color.Green
  else t

/-- Step 3 of `UpdateOp.Do`: the figures, in the order of the slice, each at its
position shifted by the move offset. -/
def drawFigures (s : State) (t : Texture) : List FigureOp → Texture
  | [] => t
  | fig :: figs =>
    let centerX := add64 fig.X s.MoveOffset.X
    let centerY := add64 fig.Y s.MoveOffset.Y
    drawFigures s (drawFigure t centerX centerY fig.Variant fig.Color s.WindowWidth s.WindowHeight)
      figs

/-- Go `UpdateOp.Do`. -/
def UpdateOp.Do (s : State) (t : Texture) : DoResult :=
  let t := t.Fill t.Bounds s.BgColor
  let t := match s.BgRect with
    | some b => drawBgRect b t
    | none => t
  let t := drawFigures s t s.Figures
  (true, s, t)

/-- Go `WhiteBg.Do`. -/
def WhiteBg.Do (s : State) (t : Texture) : DoResult :=
  (false, { s with BgColor := Color.White }, t)

/-- Go `GreenBg.Do`. -/
def GreenBg.Do (s : State) (t : Texture) : DoResult :=
  (false, { s with BgColor := Color.Green }, t)

/-- Go `Figure.Do`: always appends a yellow T180 figure. -/
def Figure.Do (X Y : F64) (s : State) (t : Texture) : DoResult :=
  let pixelX := (F64.mul X (F64.ofInt s.WindowWidth)).toInt
  let pixelY := (F64.mul Y (F64.ofInt s.WindowHeight)).toInt
  let newFig : FigureOp := { X := pixelX, Y := pixelY, Variant := T180, Color := Color.Yellow }
  (false, { s with Figures := s.Figures ++ [newFig] }, t)

/-- Go `BgRect.Do`. -/
def BgRect.Do (X1 Y1 X2 Y2 : F64) (s : State) (t : Texture) : DoResult :=
  let px1 := (F64.mul X1 (F64.ofInt s.WindowWidth)).toInt
  let py1 := (F64.mul Y1 (F64.ofInt s.WindowHeight)).toInt
  let px2 := (F64.mul X2 (F64.ofInt s.WindowWidth)).toInt
  let py2 := (F64.mul Y2 (F64.ofInt s.WindowHeight)).toInt
  let qx1 := if px1 > px2 then px2 else px1
  let qx2 := if px1 > px2 then px1 else px2
  let qy1 := if py1 > py2 then py2 else py1
  let qy2 := if py1 > py2 then py1 else py2
  (false, { s with BgRect := some { X1 := qx1, Y1 := qy1, X2 := qx2, Y2 := qy2 } }, t)

/-- Go `Move.Do`. -/
def Move.Do (X Y : F64) (s : State) (t : Texture) : DoResult :=
  let offsetX := (F64.mul X (F64.ofInt s.WindowWidth)).toInt
  let offsetY := (F64.mul Y (F64.ofInt s.WindowHeight)).toInt
  (false, { s with MoveOffset := s.MoveOffset.Add ⟨offsetX, offsetY⟩ }, t)

/-- Go `Reset.Do`. -/
def Reset.Do (s : State) (t : Texture) : DoResult :=
  (true, { s with BgColor := Color.Black, BgRect := none, Figures := [], MoveOffset := ⟨0, 0⟩ }, t)

/-- Go interface `Operation` with the implementations of op.go. `Func` stands
for any other implementation (such as `OperationFunc` of loop_test.go): a
function of the state and the texture. -/
inductive Operation where
  | UpdateOp : Operation
  | WhiteBg : Operation
  | GreenBg : Operation
  | Figure (X Y : F64) : Operation
  | BgRect (X1 Y1 X2 Y2 : F64) : Operation
  | Move (X Y : F64) : Operation
  | Reset : Operation
  | OperationList (ol : List Operation) : Operation
  | Func (f : State → Texture → DoResult) : Operation

mutual
/-- The method `Do` of an `Operation`. -/
def Operation.Do : Operation → State → Texture → DoResult
  | .UpdateOp, s, t => UpdateOp.Do s t
  | .WhiteBg, s, t => WhiteBg.Do s t
  | .GreenBg, s, t => GreenBg.Do s t
  | .Figure X Y, s, t => Figure.Do X Y s t
  | .BgRect X1 Y1 X2 Y2, s, t => BgRect.Do X1 Y1 X2 Y2 s t
  | .Move X Y, s, t => Move.Do X Y s t
  | .Reset, s, t => Reset.Do s t
  | .OperationList ol, s, t => OperationList.Do ol false s t
  | .Func f, s, t => f s t
/-- Go `OperationList.Do`: the `range` loop over the list, `updated` being the
named result, false on entry. -/
def OperationList.Do : List Operation → Bool → State → Texture → DoResult
  | [], updated, s, t => (updated, s, t)
  | o :: ol, updated, s, t =>
    let r := o.Do s t
    OperationList.Do ol (if r.1 then true else updated) r.2.1 r.2.2
end

/-- The pixel delta of a move by `(X, Y)` in state `s`:
`(int(X * float64(s.WindowWidth)), int(Y * float64(s.WindowHeight)))`. -/
def pixelDelta (X Y : F64) (s : State) : Point :=
  ⟨(F64.mul X (F64.ofInt s.WindowWidth)).toInt, (F64.mul Y (F64.ofInt s.WindowHeight)).toInt⟩

mutual
/-- True for the operations of op.go: the seven kinds, and the lists made of
them. -/
def Operation.builtin : Operation → Bool
  | .OperationList ol => Operation.builtinList ol
  | .Func _ => false
  | _ => true
/-- True when every member of the list is an operation of op.go. -/
def Operation.builtinList : List Operation → Bool
  | [] => true
  | o :: ol => o.builtin && Operation.builtinList ol
end

/-- True for the five kinds that only record a change in the state: `WhiteBg`,
`GreenBg`, `BgRect`, `Figure` and `Move`. -/
def Operation.recordsOnly : Operation → Bool
  | .WhiteBg => true
  | .GreenBg => true
  | .BgRect _ _ _ _ => true
  | .Figure _ _ => true
  | .Move _ _ => true
  | _ => false

/-- The states reached from `s0` by applying operations of op.go one after
another, each on any texture. -/
inductive State.Reachable (s0 : State) : State → Prop
  | init : State.Reachable s0 s0
  | step (s : State) (op : Operation) (t : Texture) :
      State.Reachable s0 s → op.builtin = true → State.Reachable s0 (op.Do s t).2.1

/-- The background rectangle is absent, or its corners are in order on both
axes. -/
def State.rectNormalized (s : State) : Prop :=
  match s.BgRect with
  | none => True
  | some b => b.X1 ≤ b.X2 ∧ b.Y1 ≤ b.Y2

/-! ## Message queue and loop (`painter/loop.go`) -/

/-- A buffered `chan struct{}`: the number of signals it holds and its capacity. -/
structure Chan where
  len : Nat
  cap : Nat
deriving DecidableEq

/-- Go `MessageQueue`; the mutex is represented by the atomicity of the
functions below. -/
structure MessageQueue where
  ops : List Operation
  ch : Chan

/-- Go `NewMessageQueue`: no operations, a channel of capacity 1. -/
def NewMessageQueue : MessageQueue := { ops := [], ch := { len := 0, cap := 1 } }

/-- The critical section of `Push`: `mq.ops = append(mq.ops, op)`. -/
def MessageQueue.append (mq : MessageQueue) (op : Operation) : MessageQueue :=
  { mq with ops := mq.ops ++ [op] }

/-- The `select` of `Push`: a send that is dropped when the channel is full. -/
def MessageQueue.signal (mq : MessageQueue) : MessageQueue :=
  if mq.ch.len < mq.ch.cap then { mq with ch := { mq.ch with len := mq.ch.len + 1 } } else mq

/-- Go `MessageQueue.Push`. -/
def MessageQueue.Push (mq : MessageQueue) (op : Operation) : MessageQueue :=
  (mq.append op).signal

/-- Go `MessageQueue.Pull`: the operations taken, and the queue left behind. -/
def MessageQueue.Pull (mq : MessageQueue) : List Operation × MessageQueue :=
  (mq.ops, { mq with ops := [] })

/-- A receive `<-mq.Wait()`: `none` while the channel is empty (the receiver
blocks), otherwise the queue with one signal taken. -/
def MessageQueue.recv (mq : MessageQueue) : Option MessageQueue :=
  if 0 < mq.ch.len then some { mq with ch := { mq.ch with len := mq.ch.len - 1 } } else none

/-- Go `Loop`; `Receiver = none` is the nil interface, `stop` and `stopped` tell
whether the channel of that name has been closed. -/
structure Loop where
  Receiver : Option Receiver
  Mq : MessageQueue
  state : State
  stop : Bool
  stopped : Bool

/-- Go `NewLoop`. -/
def NewLoop (r : Option Receiver) (width height : Int) : Loop :=
  { Receiver := r
    Mq := NewMessageQueue
    state :=
      { BgColor := Color.White, Figures := [], BgRect := none, MoveOffset := ⟨0, 0⟩
        WindowWidth := width, WindowHeight := height }
    stop := false
    stopped := false }

/-- Go `Loop.Post` (the queue of a loop made by `NewLoop` is never nil). -/
def Loop.Post (l : Loop) (op : Operation) : Loop := { l with Mq := l.Mq.Push op }

/-- The `for _, op := range ops` loop of the goroutine of `Loop.Start`;
the flag is `needsVisualUpdate`. -/
def Loop.applyOps : List Operation → Bool → State → Texture → DoResult
  | [], needsVisualUpdate, s, t => (needsVisualUpdate, s, t)
  | op :: ops, needsVisualUpdate, s, t =>
    let r := op.Do s t
    Loop.applyOps ops (if r.1 then true else needsVisualUpdate) r.2.1 r.2.2

/-- The body of the case `<-l.Mq.Wait()` of the goroutine of `Loop.Start`, after the
signal has been received: pull everything, apply it, update the receiver. -/
def Loop.batchStep (l : Loop) (currentTexture : Texture) : Loop × Texture :=
  let pulled := l.Mq.Pull
  let ops := pulled.1
  let l1 : Loop := { l with Mq := pulled.2 }
  if ops.length > 0 then
    let r := Loop.applyOps ops false l1.state currentTexture
    let l2 : Loop := { l1 with state := r.2.1 }
    if r.1 then
      match l2.Receiver with
      | some rcv => ({ l2 with Receiver := some (rcv.Update r.2.2) }, r.2.2)
      | none => (l2, r.2.2)
    else (l2, r.2.2)
  else (l1, currentTexture)

/-- One pass of the goroutine of `Loop.Start` through the case `<-l.Mq.Wait()`:
`none` while no signal is pending. -/
def Loop.wake (l : Loop) (currentTexture : Texture) : Option (Loop × Texture) :=
  match l.Mq.recv with
  | none => none
  | some mq => some (Loop.batchStep { l with Mq := mq } currentTexture)

/-- Go `Loop.Start` up to its return, the goroutine it starts not having taken
a step yet. `newTexture` is `s.NewTexture`, and `none` is the failure that ends
the program (`log.Fatalf`). On success: the loop, and the texture the goroutine
owns as `currentTexture`. -/
def Loop.Start (l : Loop) (newTexture : Point → Option Texture) : Option (Loop × Texture) :=
  match newTexture ⟨l.state.WindowWidth, l.state.WindowHeight⟩ with
  | none => none
  | some initialTexture =>
    let filled := initialTexture.Fill initialTexture.Bounds l.state.BgColor
    let r := Figure.Do (F64.round false 5 10) (F64.round false 5 10) l.state filled
    let l1 : Loop := { l with state := r.2.1 }
    some (l1.Post .UpdateOp, r.2.2)

/-- One thread that posts operations: the operations it posts, in order, how
many of them it has appended to the buffer so far, and whether it stands
between the critical section of a `Push` and the `select` that follows it. -/
structure Producer where
  program : List Operation
  pushed : Nat
  signalling : Bool

/-- The queue shared by producer threads and the goroutine of the loop;
`woken` tells that the goroutine has received a signal and not yet pulled,
`seen` is what its pulls have returned so far. -/
structure System where
  mq : MessageQueue
  producers : List Producer
  woken : Bool
  seen : List Operation

/-- The system in which nothing has run yet. -/
def System.init (programs : List (List Operation)) : System :=
  { mq := NewMessageQueue
    producers := programs.map fun p => { program := p, pushed := 0, signalling := false }
    woken := false
    seen := [] }

/-- The atomic steps of the system: the two halves of `Push` in a producer,
and the receive and the `Pull` in the goroutine. -/
inductive System.Step : System → System → Prop
  | append (s : System) (i : Nat) (p : Producer) (op : Operation) :
      s.producers[i]? = some p → p.signalling = false →
      p.program[p.pushed]? = some op →
      System.Step s { s with
        mq := s.mq.append op
        producers := s.producers.set i { p with pushed := p.pushed + 1, signalling := true } }
  | signal (s : System) (i : Nat) (p : Producer) :
      s.producers[i]? = some p → p.signalling = true →
      System.Step s { s with
        mq := s.mq.signal
        producers := s.producers.set i { p with signalling := false } }
  | wake (s : System) (mq1 : MessageQueue) :
      s.woken = false → s.mq.recv = some mq1 →
      System.Step s { s with mq := mq1, woken := true }
  | pull (s : System) :
      s.woken = true →
      System.Step s { s with mq := s.mq.Pull.2, seen := s.seen ++ s.mq.Pull.1, woken := false }

/-- A bound on the number of steps a producer still takes: four for every
operation not yet appended, three when a signal is due. -/
def Producer.stepsLeft (p : Producer) : Nat :=
  4 * (p.program.length - p.pushed) + (if p.signalling then 3 else 0)

/-- A bound on the number of steps the system still takes. -/
def System.stepsLeft (s : System) : Nat :=
  (s.producers.map Producer.stepsLeft).sum + 2 * s.mq.ch.len + (if s.woken then 1 else 0)

/-- Executions: `Run n s s1` when `s1` is reached from `s` in `n` steps. -/
inductive System.Run : Nat → System → System → Prop
  | refl (s : System) : System.Run 0 s s
  | tail (n : Nat) (s s1 s2 : System) :
      System.Run n s s1 → System.Step s1 s2 → System.Run (n + 1) s s2

/-- The list `l` is a merge of the lists `ps`: every element of `l` is the
next element of one of the lists, and the lists are used up. -/
inductive Interleave {α : Type} : List (List α) → List α → Prop
  | nil (ps : List (List α)) : (∀ p ∈ ps, p = []) → Interleave ps []
  | cons (ps : List (List α)) (i : Nat) (x : α) (rest l : List α) :
      ps[i]? = some (x :: rest) → Interleave (ps.set i rest) l → Interleave ps (x :: l)

/-- What every execution of `n` steps from `System.init programs` keeps true:
no producer changes its program; the operations seen and buffered are a merge
of what the producers have appended; the steps taken and the steps left are
within the bound; the channel has capacity 1; and a non-empty buffer comes
with a pending signal, a goroutine about to pull, or a producer about to
signal. -/
def System.Inv (programs : List (List Operation)) (n : Nat) (s : System) : Prop :=
  s.producers.map (fun p => p.program) = programs ∧
  Interleave (s.producers.map fun p => p.program.take p.pushed) (s.seen ++ s.mq.ops) ∧
  n + s.stepsLeft ≤ 4 * (programs.map List.length).sum ∧
  s.mq.ch.cap = 1 ∧
  (s.mq.ops ≠ [] → 1 ≤ s.mq.ch.len ∨ s.woken = true ∨ ∃ p ∈ s.producers, p.signalling = true)

/-- The states of the queue that `Push` and the goroutine (a receive followed
by `Pull`) reach from `NewMessageQueue`, each taken as one step. -/
inductive MessageQueue.Reachable : MessageQueue → Prop
  | init : MessageQueue.Reachable NewMessageQueue
  | push (mq : MessageQueue) (op : Operation) :
      MessageQueue.Reachable mq → MessageQueue.Reachable (mq.Push op)
  | consume (mq mq1 : MessageQueue) :
      MessageQueue.Reachable mq → mq.recv = some mq1 → MessageQueue.Reachable mq1.Pull.2

/-- A call on the queue. -/
inductive QueueCall where
  | push (op : Operation) : QueueCall
  | pull : QueueCall

/-- Runs the calls in order; returns the results of the `Pull` calls, in call
order, and the queue left. -/
def MessageQueue.run : List QueueCall → MessageQueue → List (List Operation) × MessageQueue
  | [], mq => ([], mq)
  | .push op :: cs, mq => MessageQueue.run cs (mq.Push op)
  | .pull :: cs, mq =>
    let r := MessageQueue.run cs mq.Pull.2
    (mq.Pull.1 :: r.1, r.2)

/-- The operations the calls push, in call order. -/
def QueueCall.pushed : List QueueCall → List Operation
  | [] => []
  | .push op :: cs => op :: QueueCall.pushed cs
  | .pull :: cs => QueueCall.pushed cs

/-- The results of applying the operations one after another, each to the
state and texture the one before left; one entry per operation. -/
def applyInOrder : List Operation → State → Texture → List DoResult
  | [], _, _ => []
  | op :: ops, s, t => op.Do s t :: applyInOrder ops (op.Do s t).2.1 (op.Do s t).2.2

/-! ## Command parser (`painter/lang/parser.go`) -/

/-- Go `unicode.IsSpace`. -/
def IsSpace (r : Char) : Bool :=
  r.toNat = 0x09 || r.toNat = 0x0A || r.toNat = 0x0B || r.toNat = 0x0C || r.toNat = 0x0D ||
  r.toNat = 0x20 || r.toNat = 0x85 || r.toNat = 0xA0 || r.toNat = 0x1680 ||
  (0x2000 ≤ r.toNat && r.toNat ≤ 0x200A) || r.toNat = 0x2028 || r.toNat = 0x2029 ||
  r.toNat = 0x202F || r.toNat = 0x205F || r.toNat = 0x3000

/-- The scan of `strings.Fields`: `cur` is the field being read, still open. -/
def fieldsAux : List Char → List Char → List (List Char)
  | [], cur => if cur.isEmpty then [] else [cur]
  | c :: cs, cur =>
    if IsSpace c then
      if cur.isEmpty then fieldsAux cs [] else cur :: fieldsAux cs []
    else fieldsAux cs (cur ++ [c])

/-- Go `strings.Fields`: the maximal runs of characters that are not white
space, in order. -/
def Fields (s : String) : List String := (fieldsAux s.data []).map String.mk

/-- True when every character is white space. -/
def isBlank (p : List Char) : Bool := p.all IsSpace

/-- True for a token: not empty, and without white space. -/
def isToken (t : List Char) : Bool := !t.isEmpty && t.all fun c => !IsSpace c

/-- The line made of the given tokens, each written after the white space
paired with it, and of the white space `trail` at the end. -/
def layout : List (List Char × List Char) → List Char → List Char
  | [], trail => trail
  | (pad, tok) :: rest, trail => pad ++ tok ++ layout rest trail

/-- True when every entry is white space, not empty, followed by a token. -/
def spacedTail : List (List Char × List Char) → Bool
  | [] => true
  | (pad, tok) :: rest => isBlank pad && !pad.isEmpty && isToken tok && spacedTail rest

/-- True when the entries describe a line: white space, possibly empty before
the first token and not empty between two tokens, and tokens. -/
def spaced : List (List Char × List Char) → Bool
  | [] => true
  | (pad, tok) :: rest => isBlank pad && isToken tok && spacedTail rest

/-- The lower-casing of `commonPrefixLenIgnoreCase` in package strconv. -/
def lowerAscii (c : Char) : Char :=
  if 0x41 ≤ c.toNat ∧ c.toNat ≤ 0x5A then Char.ofNat (c.toNat + 0x20) else c

/-- Go `commonPrefixLenIgnoreCase` of package strconv; the second argument is in
lower case. -/
def commonPrefixLenIgnoreCase : List Char → List Char → Nat
  | c :: s, p :: pre => if lowerAscii c = p then commonPrefixLenIgnoreCase s pre + 1 else 0
  | _, _ => 0

/-- The length of the infinity name at the head of `s`: 8 for `infinity`, 3 for
`inf`, in any case; 0 when there is none. -/
def infLen (s : List Char) : Nat :=
  let n := commonPrefixLenIgnoreCase s "infinity".data
  if n = 8 then 8 else if 3 ≤ n then 3 else 0

/-- Go `special` of package strconv: the special value at the head of `s` and
the number of characters it takes. -/
def special : List Char → Option (F64 × Nat)
  | [] => none
  | c :: s =>
    if c = '+' ∨ c = '-' then
      if infLen s = 0 then none else some (F64.inf (decide (c = '-')), infLen s + 1)
    else if c = 'i' ∨ c = 'I' then
      if infLen (c :: s) = 0 then none else some (F64.inf false, infLen (c :: s))
    else if c = 'n' ∨ c = 'N' then
      if commonPrefixLenIgnoreCase (c :: s) "nan".data = 3 then some (F64.nan, 3) else none
    else none

/-- True for the decimal digits. -/
def isDigit (c : Char) : Bool := decide (0x30 ≤ c.toNat) && decide (c.toNat ≤ 0x39)

/-- Reads the digits at the head of the input: the number they spell after
those already read (`acc`), how many there are after those already counted
(`n`), and the rest of the input. -/
def readDigits : List Char → Nat → Nat → Nat × Nat × List Char
  | [], acc, n => (acc, n, [])
  | c :: cs, acc, n =>
    if isDigit c then readDigits cs (acc * 10 + (c.toNat - 0x30)) (n + 1) else (acc, n, c :: cs)

/-- Reads the digits of an exponent, which must reach the end of the input;
as in strconv, digits are no longer accumulated once the value is 10000 or
more. -/
def readExpDigits : List Char → Nat → Option Nat
  | [], e => some e
  | c :: cs, e =>
    if isDigit c then readExpDigits cs (if e < 10000 then e * 10 + (c.toNat - 0x30) else e)
    else none

/-- The exponent part of a decimal literal, possibly absent: its value. -/
def readExponent : List Char → Option Int
  | [] => some 0
  | c :: cs =>
    if c = 'e' ∨ c = 'E' then
      match cs with
      | [] => none
      | d :: ds =>
        if d = '+' then
          match ds with
          | [] => none
          | _ :: _ => if isDigit (ds.headD ' ') then (readExpDigits ds 0).map Int.ofNat else none
        else if d = '-' then
          match ds with
          | [] => none
          | _ :: _ =>
            if isDigit (ds.headD ' ') then (readExpDigits ds 0).map fun e => -(Int.ofNat e)
            else none
        else if isDigit d then (readExpDigits (d :: ds) 0).map Int.ofNat
        else none
    else none

/-- A decimal literal `[sign] digits [. digits] [e [sign] digits]` with at least
one digit before the exponent: its sign, the number spelled by its digits, and
the power of ten that number is to be multiplied by. -/
def readDecimal (s : List Char) : Option (Bool × Nat × Int) :=
  let neg := decide (s.head? = some '-')
  let s1 := if s.head? = some '+' ∨ s.head? = some '-' then s.tail else s
  let ip := readDigits s1 0 0
  let fp : Nat × Nat × List Char :=
    match ip.2.2 with
    | '.' :: r => readDigits r ip.1 0
    | r => (ip.1, 0, r)
  if ip.2.1 + fp.2.1 = 0 then none
  else
    match readExponent fp.2.2 with
    | none => none
    | some e => some (neg, fp.1, e - (fp.2.1 : Int))

/-- Go `strconv.ParseFloat(s, 64)`, `none` standing for a non-nil error, on the
special values (`NaN`, `Inf`, `Infinity`) and the decimal literals: the value is
the decimal number rounded to the nearest `float64`, and a literal that rounds
to an infinity is a range error. The library also accepts hexadecimal literals
and underscores between digits; those are not covered here and give `none`. -/
def ParseFloat (s : String) : Option F64 :=
  match special s.data with
  | some (v, n) => if n = s.data.length then some v else none
  | none =>
    match readDecimal s.data with
    | none => none
    | some (neg, mant, exp) =>
      let v :=
        if 0 ≤ exp then F64.round neg (mant * 10 ^ exp.toNat) 1
        else F64.round neg mant (10 ^ (-exp).toNat)
      match v with
      | .inf _ => none
      | _ => some v

/-- The loop over the arguments in the cases `bgrect` and `figure` of `Parse`:
`i` is the index of the next argument and `coords` the slice being filled;
`name` is the command name that appears in the error messages. -/
def parseCoords (parseFloat : String → Option F64) (name : String) :
    List String → Nat → List F64 → Except String (List F64)
  | [], _, coords => .ok coords
  | arg :: args, i, coords =>
    match parseFloat arg with
    | none => .error ("invalid coordinate for " ++ name ++ ": " ++ arg)
    | some val =>
      if F64.lt val F64.zero || F64.gt val F64.one then
        .error ("coordinate out of range (0.0-1.0) for " ++ name ++ ": " ++ arg)
      else parseCoords parseFloat name args (i + 1) (coords.set i val)

/-- The loop over the arguments in the case `move` of `Parse`. -/
def parseOffsets (parseFloat : String → Option F64) :
    List String → Nat → List F64 → Except String (List F64)
  | [], _, coords => .ok coords
  | arg :: args, i, coords =>
    match parseFloat arg with
    | none => .error ("invalid offset for move: " ++ arg)
    | some val => parseOffsets parseFloat args (i + 1) (coords.set i val)

/-- Go `make([]float64, n)`. -/
def makeCoords (n : Nat) : List F64 := List.replicate n F64.zero

/-- Go `Parse`. The function `strconv.ParseFloat(·, 64)` is the parameter
`parseFloat`; an error is its message, and an error comes with no operation. -/
def Parse (parseFloat : String → Option F64) (commandLine : String) : Except String Operation :=
  match Fields commandLine with
  | [] => .error "empty command"
  | command :: args =>
    if command = "white" then
      if args.length ≠ 0 then .error "white command takes no arguments" else .ok .WhiteBg
    else if command = "green" then
      if args.length ≠ 0 then .error "green command takes no arguments" else .ok .GreenBg
    else if command = "bgrect" then
      if args.length ≠ 4 then .error "bgrect command requires 4 arguments (x1 y1 x2 y2)"
      else
        match parseCoords parseFloat "bgrect" args 0 (makeCoords 4) with
        | .error e => .error e
        | .ok coords =>
          .ok (.BgRect (coords.getD 0 F64.zero) (coords.getD 1 F64.zero) (coords.getD 2 F64.zero)
            (coords.getD 3 F64.zero))
    else if command = "figure" then
      if args.length ≠ 2 then .error "figure command requires 2 arguments (x y)"
      else
        match parseCoords parseFloat "figure" args 0 (makeCoords 2) with
        | .error e => .error e
        | .ok coords => .ok (.Figure (coords.getD 0 F64.zero) (coords.getD 1 F64.zero))
    else if command = "move" then
      if args.length ≠ 2 then .error "move command requires 2 arguments (x y)"
      else
        match parseOffsets parseFloat args 0 (makeCoords 2) with
        | .error e => .error e
        | .ok coords => .ok (.Move (coords.getD 0 F64.zero) (coords.getD 1 F64.zero))
    else if command = "reset" then
      if args.length ≠ 0 then .error "reset command takes no arguments" else .ok .Reset
    else if command = "update" then
      if args.length ≠ 0 then .error "update command takes no arguments" else .ok .UpdateOp
    else .error ("unknown command: " ++ command)

/-! ## HTTP handler (`painter/lang/http.go`) -/

/-- What the handler writes to its `http.ResponseWriter`: the status code and
the body. -/
structure Response where
  status : Nat
  body : String
deriving DecidableEq

/-- The `for scanner.Scan()` loop of the handler over the lines of the body:
a line that `Parse` rejects is skipped, the operation of any other line is
appended to `ops`. -/
def collectOps (parseFloat : String → Option F64) : List String → List Operation → List Operation
  | [], ops => ops
  | commandLine :: rest, ops =>
    match Parse parseFloat commandLine with
    | .error _ => collectOps parseFloat rest ops
    | .ok op => collectOps parseFloat rest (ops ++ [op])

/-- The `for _, op := range ops` loop of the handler: one `loop.Post` for each
operation, in order. -/
def postAll : List Operation → Loop → Loop
  | [], loop => loop
  | op :: ops, loop => postAll ops (loop.Post op)

/-- The function `HttpHandler(loop)` returns, applied to a request: the loop as
the call leaves it, and the response. The request is given by its method, by
the lines that the calls of `scanner.Text()` return for its body, in order, and
by what `scanner.Err()` reports once `Scan` has returned false (`none` is nil). -/
def HttpHandler (parseFloat : String → Option F64) (loop : Loop) (method : String)
    (lines : List String) (scanErr : Option String) : Loop × Response :=
  if method ≠ "POST" then (loop, ⟨405, "Method not allowed\n"⟩)
  else
    let ops := collectOps parseFloat lines []
    match scanErr with
    | some _ => (loop, ⟨500, "Error reading request body\n"⟩)
    | none => (postAll ops loop, ⟨200, "Commands processed\n"⟩)

/-! ## Vocabulary of the theorems -/

/-- Go unary `-x` on `float64`: the sign is flipped, NaN stays NaN. -/
def F64.neg : F64 → F64
  | .nan => .nan
  | .inf n => .inf (!n)
  | .fin n m e => .fin (!n) m e

/-- True when the conversion `int(f)` is defined by the language: `f` is finite
and its integer part lies in the range of `int`. -/
def F64.fitsInt : F64 → Bool
  | .fin neg m e =>
    let t : Int := if 0 ≤ e then (m : Int) * 2 ^ e.toNat else (m : Int) / 2 ^ (-e).toNat
    let v : Int := if neg then -t else t
    decide (-2 ^ 63 ≤ v ∧ v < 2 ^ 63)
  | _ => false

/-- Go `Point.In`: the pixel `p` lies in `r`, whose `Min` edges are included
and `Max` edges excluded. -/
def Point.In (p : Point) (r : Rectangle) : Bool :=
  decide (r.Min.X ≤ p.X) && decide (p.X < r.Max.X) &&
    decide (r.Min.Y ≤ p.Y) && decide (p.Y < r.Max.Y)

/-- The bounding box of a list of rectangles: the smallest rectangle that holds
the corners of all of them; the zero rectangle for the empty list. -/
def boundingBox : List Rectangle → Rectangle
  | [] => ⟨⟨0, 0⟩, ⟨0, 0⟩⟩
  | [r] => r
  | r :: r1 :: rs =>
    let b := boundingBox (r1 :: rs)
    ⟨⟨if r.Min.X ≤ b.Min.X then r.Min.X else b.Min.X,
        if r.Min.Y ≤ b.Min.Y then r.Min.Y else b.Min.Y⟩,
      ⟨if b.Max.X ≤ r.Max.X then r.Max.X else b.Max.X,
        if b.Max.Y ≤ r.Max.Y then r.Max.Y else b.Max.Y⟩⟩

/-- Two rectangles have no pixel in common. -/
def Rectangle.Disjoint (r1 r2 : Rectangle) : Prop :=
  ∀ p : Point, ¬(p.In r1 = true ∧ p.In r2 = true)

/-- The colour that the fills of the list, made in order with `screen.Src`,
leave at the pixel `p`: the colour of the last fill whose rectangle holds the
pixel, `none` when no fill reaches it. -/
def colorAfter : List (Rectangle × Color) → Point → Option Color
  | [], _ => none
  | (r, c) :: fills, p =>
    match colorAfter fills p with
    | some c1 => some c1
    | none => if p.In r then some c else none

/-- The colour of a pixel of the texture after the fills made on it so far;
`none` outside the texture and where no fill has reached. -/
def Texture.colorAt (t : Texture) (p : Point) : Option Color :=
  if p.In t.Bounds then colorAfter t.fills p else none

/-- The texture as steps 1 and 2 of `UpdateOp.Do` leave it, before any figure
is drawn: the background fill, then the background rectangle when there is
one. -/
def backgroundStep (s : State) (t : Texture) : Texture :=
  let t := t.Fill t.Bounds s.BgColor
  match s.BgRect with
  | some b => drawBgRect b t
  | none => t

/-! ## The started loop -/

/-- Where the goroutine of `Loop.Start` stands: at the `select`; past the case
`<-l.stop`, its deferred calls still to run; past the deferred
`initialTexture.Release()`; or finished, the deferred `close(l.stopped)` done. -/
inductive GoroutinePc where
  | waiting : GoroutinePc
  | returning : GoroutinePc
  | released : GoroutinePc
  | exited : GoroutinePc
deriving DecidableEq

/-- Where the one call of `Loop.Stop` stands: not made yet; past `close(l.stop)`
and blocked in `<-l.stopped`; or returned. -/
inductive StopPc where
  | idle : StopPc
  | signalled : StopPc
  | returned : StopPc
deriving DecidableEq

/-- A started loop: the loop, the texture that the goroutine owns
(`initialTexture`, which is `currentTexture`), and where the goroutine and the
caller of `Stop` stand. -/
structure Running where
  loop : Loop
  texture : Texture
  goroutine : GoroutinePc
  stopCall : StopPc

/-- The loop as `Loop.Start` leaves it, the goroutine at its `select` and
`Stop` not called. -/
def Running.start (l : Loop) (newTexture : Point → Option Texture) : Option Running :=
  match l.Start newTexture with
  | none => none
  | some started =>
    some { loop := started.1, texture := started.2, goroutine := .waiting, stopCall := .idle }

/-- The steps of a started loop. `post` is a call of `Loop.Post` by any thread,
at any time. The goroutine, at its `select`, takes the case `<-l.Mq.Wait()`
when a signal is pending and handles the batch (`wake`), or takes the case
`<-l.stop` when that channel is closed (`stopCase`); it then runs its deferred
calls, last registered first: `initialTexture.Release()` (`release`), then
`close(l.stopped)` (`closeStopped`). `Loop.Stop` closes `l.stop`
(`stopSignal`) and returns once `l.stopped` is closed (`stopReturn`). -/
inductive Running.Step : Running → Running → Prop
  | post (r : Running) (op : Operation) : Running.Step r { r with loop := r.loop.Post op }
  | wake (r : Running) (next : Loop × Texture) :
      r.goroutine = .waiting → r.loop.wake r.texture = some next →
      Running.Step r { r with loop := next.1, texture := next.2 }
  | stopCase (r : Running) :
      r.goroutine = .waiting → r.loop.stop = true →
      Running.Step r { r with goroutine := .returning }
  | release (r : Running) :
      r.goroutine = .returning →
      Running.Step r { r with texture := r.texture.Release, goroutine := .released }
  | closeStopped (r : Running) :
      r.goroutine = .released →
      Running.Step r { r with loop := { r.loop with stopped := true }, goroutine := .exited }
  | stopSignal (r : Running) :
      r.stopCall = .idle →
      Running.Step r { r with loop := { r.loop with stop := true }, stopCall := .signalled }
  | stopReturn (r : Running) :
      r.stopCall = .signalled → r.loop.stopped = true →
      Running.Step r { r with stopCall := .returned }

/-- Executions of a started loop: `Run r r1` when `r1` is reached from `r` in
any number of steps. -/
inductive Running.Run : Running → Running → Prop
  | refl (r : Running) : Running.Run r r
  | tail (r r1 r2 : Running) : Running.Run r r1 → Running.Step r1 r2 → Running.Run r r2

/-- What every execution of a started loop keeps true: `Stop` has returned only
if `stopped` is closed, `stopped` is closed only if the goroutine has finished,
and the goroutine is past its deferred release only if the texture is
released. -/
def Running.Inv (r : Running) : Prop :=
  (r.stopCall = .returned → r.loop.stopped = true) ∧
  (r.loop.stopped = true → r.goroutine = .exited) ∧
  (r.goroutine = .released ∨ r.goroutine = .exited → r.texture.released = true)

/-! ## Theorems: the batch step of the loop -/

theorem Loop.applyOps_eq (ops : List Operation) (needs : Bool) (s : State) (t : Texture) :
    Loop.applyOps ops needs s t =
      (needs || (applyInOrder ops s t).any (fun r => r.1),
        ((applyInOrder ops s t).getLast?.getD (needs, s, t)).2) := by
  induction ops generalizing needs s t with
  | nil => simp [Loop.applyOps, applyInOrder]
  | cons op ops ih =>
    rw [Loop.applyOps, ih]
    cases hops : applyInOrder ops (op.Do s t).2.1 (op.Do s t).2.2 with
    | nil =>
      cases hd : (op.Do s t).1 <;> simp [applyInOrder, hops, hd]
    | cons r rs =>
      have hl : (r :: rs).getLast? = some ((r :: rs).getLast (by simp)) :=
        List.getLast?_eq_getLast _ _
      cases hd : (op.Do s t).1 <;>
        simp [applyInOrder, hops, hd, List.getLast?_cons_cons, hl]

theorem applyInOrder_length (ops : List Operation) (s : State) (t : Texture) :
    (applyInOrder ops s t).length = ops.length := by
  induction ops generalizing s t with
  | nil => rfl
  | cons op ops ih => simp [applyInOrder, ih]

/-- C1: with a receiver present, the batch step on a non-empty buffer applies
the operations of the buffer one after another, in buffer order, each to the
state and texture the one before left, and then calls `Receiver.Update` once,
with the final texture, when the `Do` of at least one operation returned true,
and not at all otherwise. So the batch `[Figure, Reset, UpdateOp]` gives
exactly one call. -/
theorem C1_batch_updates_receiver_once (l : Loop) (tex : Texture) (rcv : Receiver)
    (hne : l.Mq.ops ≠ []) (hr : l.Receiver = some rcv) :
    (applyInOrder l.Mq.ops l.state tex).length = l.Mq.ops.length ∧
    (∃ last, (applyInOrder l.Mq.ops l.state tex).getLast? = some last ∧
      (l.batchStep tex).1.state = last.2.1 ∧ (l.batchStep tex).2 = last.2.2 ∧
      (l.batchStep tex).1.Receiver =
        some ⟨rcv.updates ++
          (if (applyInOrder l.Mq.ops l.state tex).any (fun r => r.1) then [last.2.2] else [])⟩) ∧
    (l.batchStep tex).1.Mq.ops = [] ∧
    (∀ X Y, l.Mq.ops = [.Figure X Y, .Reset, .UpdateOp] →
      ∃ t1, (l.batchStep tex).1.Receiver = some ⟨rcv.updates ++ [t1]⟩) := by
  have hlen := applyInOrder_length l.Mq.ops l.state tex
  have hpos : 0 < l.Mq.ops.length := List.length_pos.mpr hne
  have hstep : l.batchStep tex =
      (if (applyInOrder l.Mq.ops l.state tex).any (fun r => r.1) then
          ({ l with
              Mq := l.Mq.Pull.2
              state := ((applyInOrder l.Mq.ops l.state tex).getLast?.getD (false, l.state, tex)).2.1
              Receiver := some (rcv.Update
                ((applyInOrder l.Mq.ops l.state tex).getLast?.getD (false, l.state, tex)).2.2) },
            ((applyInOrder l.Mq.ops l.state tex).getLast?.getD (false, l.state, tex)).2.2)
        else
          ({ l with
              Mq := l.Mq.Pull.2
              state := ((applyInOrder l.Mq.ops l.state tex).getLast?.getD (false, l.state, tex)).2.1 },
            ((applyInOrder l.Mq.ops l.state tex).getLast?.getD (false, l.state, tex)).2.2)) := by
    unfold Loop.batchStep
    simp only [MessageQueue.Pull, gt_iff_lt, hpos, if_true, Loop.applyOps_eq, Bool.false_or, hr]
  obtain ⟨last, hlast⟩ : ∃ last, (applyInOrder l.Mq.ops l.state tex).getLast? = some last := by
    cases h : applyInOrder l.Mq.ops l.state tex with
    | nil => rw [h] at hlen; simp at hlen; omega
    | cons r rs => exact ⟨_, List.getLast?_eq_getLast _ (by simp)⟩
  refine ⟨hlen, ⟨last, hlast, ?_, ?_, ?_⟩, ?_, ?_⟩
  · rw [hstep, hlast]; split <;> rfl
  · rw [hstep, hlast]; split <;> rfl
  · rw [hstep, hlast]
    split
    · simp [Receiver.Update, hr]
    · simp [hr]
  · rw [hstep]; split <;> rfl
  · intro X Y hops
    have hany : (applyInOrder l.Mq.ops l.state tex).any (fun r => r.1) = true := by
      rw [hops]
      simp [applyInOrder, Operation.Do, Reset.Do]
    rw [hstep, hany]
    exact ⟨_, rfl⟩

/-- Witness of C1: the batch `[Figure, Reset, UpdateOp]` posted to a new
800 x 800 loop whose receiver has had no call: one call after the batch step. -/
theorem C1_batch_updates_receiver_once_witness :
    ((((NewLoop (some ⟨[]⟩) 800 800).Post (.Figure F64.one F64.zero)).Post .Reset).Post
        .UpdateOp).Mq.ops ≠ [] ∧
    (((((NewLoop (some ⟨[]⟩) 800 800).Post (.Figure F64.one F64.zero)).Post .Reset).Post
        .UpdateOp).batchStep ⟨⟨800, 800⟩, [], false⟩).1.Receiver.map
      (fun r => r.updates.length) = some 1 := by
  have hops : ((((NewLoop (some ⟨[]⟩) 800 800).Post (.Figure F64.one F64.zero)).Post .Reset).Post
      .UpdateOp).Mq.ops = [.Figure F64.one F64.zero, .Reset, .UpdateOp] := rfl
  have hne : ((((NewLoop (some ⟨[]⟩) 800 800).Post (.Figure F64.one F64.zero)).Post .Reset).Post
      .UpdateOp).Mq.ops ≠ [] := by rw [hops]; exact List.cons_ne_nil _ _
  obtain ⟨t1, h1⟩ := (C1_batch_updates_receiver_once _ ⟨⟨800, 800⟩, [], false⟩ ⟨[]⟩ hne rfl).2.2.2
    F64.one F64.zero hops
  exact ⟨hne, by rw [h1]; rfl⟩

/-! ## Theorems: message queue -/

theorem MessageQueue.signal_ops (mq : MessageQueue) : mq.signal.ops = mq.ops := by
  unfold MessageQueue.signal
  split <;> rfl

theorem MessageQueue.Push_ops (mq : MessageQueue) (op : Operation) :
    (mq.Push op).ops = mq.ops ++ [op] := by
  simp [MessageQueue.Push, MessageQueue.signal_ops, MessageQueue.append]

theorem MessageQueue.foldl_Push_ops (ops : List Operation) (mq : MessageQueue) :
    (ops.foldl MessageQueue.Push mq).ops = mq.ops ++ ops := by
  induction ops generalizing mq with
  | nil => simp
  | cons op ops ih => simp [ih, MessageQueue.Push_ops]

theorem MessageQueue.run_conservation (calls : List QueueCall) (mq : MessageQueue) :
    (MessageQueue.run calls mq).1.flatten ++ (MessageQueue.run calls mq).2.ops =
      mq.ops ++ QueueCall.pushed calls := by
  induction calls generalizing mq with
  | nil => simp [MessageQueue.run, QueueCall.pushed]
  | cons c cs ih =>
    cases c with
    | push op => simp [MessageQueue.run, QueueCall.pushed, ih, MessageQueue.Push_ops]
    | pull => simp [MessageQueue.run, QueueCall.pushed, ih, MessageQueue.Pull]

/-- C2: operations pushed one after another onto a queue with an empty buffer
come back from `Pull` as the same sequence, in push order; the buffer is then
empty and the next `Pull` returns nothing. For any sequence of `Push` and
`Pull` calls the results of the pulls, concatenated, followed by the buffer
left, are the pushed operations in push order. -/
theorem C2_pull_returns_pushes_in_order (mq : MessageQueue) (ops : List Operation)
    (calls : List QueueCall) (h : mq.ops = []) :
    (ops.foldl MessageQueue.Push mq).Pull.1 = ops ∧
    (ops.foldl MessageQueue.Push mq).Pull.2.ops = [] ∧
    (ops.foldl MessageQueue.Push mq).Pull.2.Pull.1 = [] ∧
    (MessageQueue.run calls mq).1.flatten ++ (MessageQueue.run calls mq).2.ops =
      QueueCall.pushed calls := by
  refine ⟨?_, rfl, rfl, ?_⟩
  · simp [MessageQueue.Pull, MessageQueue.foldl_Push_ops, h]
  · rw [MessageQueue.run_conservation, h, List.nil_append]

/-- Witness of C2: three operations pushed onto a new queue, and a run in
which a pull falls between the pushes. -/
theorem C2_pull_returns_pushes_in_order_witness :
    NewMessageQueue.ops = [] ∧
    ([Operation.WhiteBg, .Reset, .UpdateOp].foldl MessageQueue.Push NewMessageQueue).Pull.1 =
      [Operation.WhiteBg, .Reset, .UpdateOp] ∧
    (MessageQueue.run [.push .WhiteBg, .pull, .push .Reset, .push .UpdateOp, .pull, .pull]
      NewMessageQueue).1 = [[Operation.WhiteBg], [.Reset, .UpdateOp], []] :=
  ⟨rfl, (C2_pull_returns_pushes_in_order NewMessageQueue [.WhiteBg, .Reset, .UpdateOp] [] rfl).1,
    rfl⟩

theorem MessageQueue.Push_ch_len (mq : MessageQueue) (op : Operation) (h : mq.ch.cap = 1)
    (hl : mq.ch.len ≤ 1) : (mq.Push op).ch.len = 1 ∧ (mq.Push op).ch.cap = 1 := by
  by_cases h0 : mq.ch.len = 0
  · simp [MessageQueue.Push, MessageQueue.signal, MessageQueue.append, h0, h]
  · have h1 : mq.ch.len = 1 := by omega
    simp [MessageQueue.Push, MessageQueue.signal, MessageQueue.append, h1, h]

/-- C4: in every state the queue reaches from `NewMessageQueue` by `Push` steps
and consumer steps (a receive followed by `Pull`), at most one wake signal is
pending, and a signal is pending whenever the buffer is not empty. -/
theorem C4_wake_signal_invariant (mq : MessageQueue) (h : MessageQueue.Reachable mq) :
    mq.ch.len ≤ 1 ∧ (mq.ops ≠ [] → mq.ch.len = 1) := by
  have key : mq.ch.cap = 1 ∧ mq.ch.len ≤ 1 ∧ (mq.ops ≠ [] → mq.ch.len = 1) := by
    induction h with
    | init => exact ⟨rfl, by decide, fun h => absurd rfl h⟩
    | push mq op _ ih =>
      have hp := MessageQueue.Push_ch_len mq op ih.1 ih.2.1
      exact ⟨hp.2, by omega, fun _ => hp.1⟩
    | consume mq mq1 _ hr ih =>
      unfold MessageQueue.recv at hr
      split at hr
      · cases hr
        exact ⟨ih.1, by simp [MessageQueue.Pull]; omega, fun h => absurd rfl h⟩
      · cases hr
  exact key.2

/-- Witness of C4: the queue after two pushes, a consumer step and one more
push. -/
theorem C4_wake_signal_invariant_witness :
    ((((NewMessageQueue.Push .WhiteBg).Push .Reset).ch.len = 1) ∧
      (((NewMessageQueue.Push .WhiteBg).Push .Reset).ops.length = 2)) ∧
    (({ ops := [], ch := { len := 0, cap := 1 } } : MessageQueue).Push .UpdateOp).ch.len ≤ 1 :=
  ⟨⟨rfl, rfl⟩,
    (C4_wake_signal_invariant _
      (.push _ .UpdateOp
        (.consume ((NewMessageQueue.Push .WhiteBg).Push .Reset)
          { ops := [.WhiteBg, .Reset], ch := { len := 0, cap := 1 } }
          (.push _ .Reset (.push _ .WhiteBg .init)) rfl))).1⟩

/-! ## Theorems: producers and the consumer -/

theorem List.map_set_of_eq {α β : Type} (f : α → β) (l : List α) (i : Nat) (a b : α)
    (h : l[i]? = some a) (hf : f b = f a) : (l.set i b).map f = l.map f := by
  induction l generalizing i with
  | nil => simp
  | cons x xs ih =>
    cases i with
    | zero => simp at h; simp [h, hf]
    | succ i => simp at h; simp [ih i h]

theorem List.sum_map_set_add {α : Type} (f : α → Nat) (l : List α) (i : Nat) (a b : α)
    (h : l[i]? = some a) : ((l.set i b).map f).sum + f a = (l.map f).sum + f b := by
  induction l generalizing i with
  | nil => simp at h
  | cons x xs ih =>
    cases i with
    | zero => simp at h; simp [h]; omega
    | succ i =>
      simp at h
      have := ih i h
      simp only [List.set_cons_succ, List.map_cons, List.sum_cons]
      omega

theorem Interleave.snoc {α : Type} {ps : List (List α)} {l : List α} (h : Interleave ps l)
    (i : Nat) (p : List α) (x : α) (hi : ps[i]? = some p) :
    Interleave (ps.set i (p ++ [x])) (l ++ [x]) := by
  induction h generalizing i p with
  | nil ps hall =>
    have hlt : i < ps.length := by
      rcases Nat.lt_or_ge i ps.length with h | h
      · exact h
      · rw [List.getElem?_eq_none h] at hi; cases hi
    have hp : p = [] := by
      apply hall
      rw [List.getElem?_eq_getElem hlt] at hi
      cases hi
      exact List.getElem_mem _
    subst hp
    refine Interleave.cons _ i x [] [] ?_ (Interleave.nil _ ?_)
    · simp [hlt]
    · intro q hq
      rw [List.set_set] at hq
      rcases List.mem_or_eq_of_mem_set hq with h | h
      · exact hall q h
      · exact h
  | cons ps j y rest l hj _ ih =>
    have hjlt : j < ps.length := by
      rcases Nat.lt_or_ge j ps.length with h | h
      · exact h
      · rw [List.getElem?_eq_none h] at hj; cases hj
    by_cases hij : i = j
    · subst hij
      rw [hj] at hi
      cases hi
      refine Interleave.cons _ i y (rest ++ [x]) (l ++ [x]) ?_ ?_
      · simp [hjlt]
      · have := ih i rest (by simp [hjlt])
        simpa [List.set_set] using this
    · refine Interleave.cons _ j y rest (l ++ [x]) ?_ ?_
      · rw [List.getElem?_set_ne hij]; exact hj
      · have := ih i p (by rw [List.getElem?_set_ne (Ne.symm hij)]; exact hi)
        rw [List.set_comm _ _ _ (Ne.symm hij)] at this
        exact this

theorem MessageQueue.signal_len (mq : MessageQueue) (h : mq.ch.cap = 1) :
    mq.signal.ch.cap = 1 ∧ 1 ≤ mq.signal.ch.len ∧ mq.signal.ch.len ≤ mq.ch.len + 1 := by
  by_cases h0 : mq.ch.len = 0
  · simp [MessageQueue.signal, h0, h]
  · simp [MessageQueue.signal, h0, h]; omega

theorem System.init_stepsLeft (programs : List (List Operation)) :
    (System.init programs).stepsLeft = 4 * (programs.map List.length).sum := by
  have h : ∀ ps : List (List Operation),
      ((ps.map fun p => ({ program := p, pushed := 0, signalling := false } : Producer)).map
        Producer.stepsLeft).sum = 4 * (ps.map List.length).sum := by
    intro ps
    induction ps with
    | nil => rfl
    | cons p ps ih =>
      simp only [List.map_cons, List.sum_cons, ih]
      simp [Producer.stepsLeft]
      omega
  unfold System.stepsLeft System.init
  simp only [NewMessageQueue]
  rw [h]
  simp

theorem System.Inv.init (programs : List (List Operation)) :
    System.Inv programs 0 (System.init programs) := by
  refine ⟨?_, ?_, ?_, rfl, fun h => absurd rfl h⟩
  · simp [System.init, Function.comp_def]
  · refine Interleave.nil _ ?_
    intro p hp
    simp [System.init] at hp
    exact hp.2
  · rw [System.init_stepsLeft]; omega

theorem System.Inv.step {programs : List (List Operation)} {n : Nat} {s s1 : System}
    (hinv : System.Inv programs n s) (hstep : System.Step s s1) :
    System.Inv programs (n + 1) s1 := by
  obtain ⟨hprog, hmerge, hsteps, hcap, hwake⟩ := hinv
  cases hstep with
  | append i p op hi hsig hop =>
    have hlt : p.pushed < p.program.length := by
      rcases Nat.lt_or_ge p.pushed p.program.length with h | h
      · exact h
      · rw [List.getElem?_eq_none h] at hop; cases hop
    have hilt : i < s.producers.length := by
      rcases Nat.lt_or_ge i s.producers.length with h | h
      · exact h
      · rw [List.getElem?_eq_none h] at hi; cases hi
    refine ⟨?_, ?_, ?_, hcap, fun _ => Or.inr (Or.inr ⟨_, List.mem_set _ _ hilt _, rfl⟩)⟩
    · rw [← hprog]; exact List.map_set_of_eq _ _ i p _ hi rfl
    · have htake : p.program.take (p.pushed + 1) = p.program.take p.pushed ++ [op] := by
        rw [List.take_succ, hop]; rfl
      have := hmerge.snoc i (p.program.take p.pushed) op (by simp [hi])
      simpa [List.map_set, htake, MessageQueue.append] using this
    · have hsum := List.sum_map_set_add Producer.stepsLeft s.producers i p
        { p with pushed := p.pushed + 1, signalling := true } hi
      simp only [System.stepsLeft, MessageQueue.append] at hsteps ⊢
      simp only [Producer.stepsLeft, hsig, Bool.false_eq_true, if_true, if_false] at hsum
      omega
  | signal i p hi hsig =>
    have hlen := MessageQueue.signal_len s.mq hcap
    refine ⟨?_, ?_, ?_, hlen.1, fun _ => Or.inl hlen.2.1⟩
    · rw [← hprog]; exact List.map_set_of_eq _ _ i p _ hi rfl
    · show Interleave (List.map _ (s.producers.set i _)) (s.seen ++ s.mq.signal.ops)
      rw [List.map_set_of_eq (fun p : Producer => p.program.take p.pushed) _ i p
        { p with signalling := false } hi rfl, MessageQueue.signal_ops]
      exact hmerge
    · have hsum := List.sum_map_set_add Producer.stepsLeft s.producers i p
        { p with signalling := false } hi
      simp only [System.stepsLeft] at hsteps ⊢
      simp only [Producer.stepsLeft, hsig, Bool.false_eq_true, if_true, if_false] at hsum
      omega
  | wake mq1 hw hrecv =>
    unfold MessageQueue.recv at hrecv
    split at hrecv
    · cases hrecv
      refine ⟨hprog, hmerge, ?_, hcap, fun _ => Or.inr (Or.inl rfl)⟩
      simp only [System.stepsLeft, hw] at hsteps ⊢
      simp at hsteps ⊢
      omega
    · cases hrecv
  | pull hw =>
    refine ⟨hprog, ?_, ?_, hcap, fun h => absurd rfl h⟩
    · simpa [MessageQueue.Pull] using hmerge
    · simp only [System.stepsLeft, hw, MessageQueue.Pull] at hsteps ⊢
      simp at hsteps ⊢
      omega

theorem System.Run.inv {programs : List (List Operation)} {n : Nat} {s : System}
    (h : System.Run n (System.init programs) s) : System.Inv programs n s := by
  generalize hs0 : System.init programs = s0 at h
  induction h with
  | refl s => subst hs0; exact System.Inv.init programs
  | tail n s s1 s2 _ hstep ih => exact (ih hs0).step hstep

theorem System.quiescent_producer {s : System} (hq : ∀ s1, ¬ System.Step s s1) (p : Producer)
    (hp : p ∈ s.producers) : p.signalling = false ∧ p.program.take p.pushed = p.program := by
  obtain ⟨i, hi⟩ := List.getElem?_of_mem hp
  have hsig : p.signalling = false := by
    cases h : p.signalling with
    | false => rfl
    | true => exact absurd (System.Step.signal s i p hi h) (hq _)
  refine ⟨hsig, List.take_of_length_le ?_⟩
  rcases Nat.lt_or_ge p.pushed p.program.length with h | h
  · exact absurd
      (System.Step.append s i p p.program[p.pushed] hi hsig (List.getElem?_eq_getElem h)) (hq _)
  · exact h

/-- C3: in every execution of producer threads, each pushing its own sequence
of operations, and one consumer that waits for the wake signal and pulls, the
operations the consumer has seen, followed by those still buffered, are at
every moment a merge of what the producers have appended so far (each push
occurs once, and the pushes of one producer keep their order); no execution
takes more than four steps per pushed operation; and in a state from which no
step is possible the buffer is empty and what the consumer has seen is a merge
of the complete sequences of all producers. -/
theorem C3_consumer_sees_every_push_once (programs : List (List Operation)) (n : Nat)
    (s : System) (h : System.Run n (System.init programs) s) :
    s.producers.map (fun p => p.program) = programs ∧
    Interleave (s.producers.map fun p => p.program.take p.pushed) (s.seen ++ s.mq.ops) ∧
    n ≤ 4 * (programs.map List.length).sum ∧
    ((∀ s1, ¬ System.Step s s1) → Interleave programs s.seen ∧ s.mq.ops = []) := by
  obtain ⟨hprog, hmerge, hsteps, hcap, hwake⟩ := h.inv
  refine ⟨hprog, hmerge, by omega, fun hq => ?_⟩
  have hwoken : s.woken = false := by
    cases hw : s.woken with
    | false => rfl
    | true => exact absurd (System.Step.pull s hw) (hq _)
  have hlen : s.mq.ch.len = 0 := by
    rcases Nat.eq_zero_or_pos s.mq.ch.len with h0 | h0
    · exact h0
    · have hrecv : s.mq.recv = some { s.mq with ch := { s.mq.ch with len := s.mq.ch.len - 1 } } := by
        simp [MessageQueue.recv, h0]
      exact absurd (System.Step.wake s _ hwoken hrecv) (hq _)
  have hops : s.mq.ops = [] := by
    by_contra hne
    rcases hwake hne with h1 | h1 | ⟨p, hp, hsig⟩
    · omega
    · rw [hwoken] at h1; cases h1
    · rw [(System.quiescent_producer hq p hp).1] at hsig; cases hsig
  refine ⟨?_, hops⟩
  have hmap : (s.producers.map fun p => p.program.take p.pushed) = programs := by
    rw [← hprog]
    exact List.map_congr_left fun p hp => (System.quiescent_producer hq p hp).2
  rw [hmap, hops, List.append_nil] at hmerge
  exact hmerge

/-- Witness of C3: two producers, one pushing `WhiteBg` and one pushing
`Reset`. The second appends between the consumer's wake and its pull, and its
signal then causes one more, empty, pull. After these eight steps nothing can
move and the consumer has seen both operations. -/
theorem C3_consumer_sees_every_push_once_witness :
    System.Run 8 (System.init [[.WhiteBg], [.Reset]])
      { mq := { ops := [], ch := { len := 0, cap := 1 } }
        producers := [⟨[.WhiteBg], 1, false⟩, ⟨[.Reset], 1, false⟩]
        woken := false
        seen := [.WhiteBg, .Reset] } ∧
    Interleave [[Operation.WhiteBg], [Operation.Reset]] [.WhiteBg, .Reset] := by
  have r1 : System.Run 1 (System.init [[.WhiteBg], [.Reset]]) _ :=
    .tail _ _ _ _ (.refl _) (.append _ 0 ⟨[.WhiteBg], 0, false⟩ .WhiteBg rfl rfl rfl)
  have r2 := System.Run.tail _ _ _ _ r1 (.signal _ 0 ⟨[.WhiteBg], 1, true⟩ rfl rfl)
  have r3 := System.Run.tail _ _ _ _ r2
    (.wake _ { ops := [.WhiteBg], ch := { len := 0, cap := 1 } } rfl rfl)
  have r4 := System.Run.tail _ _ _ _ r3 (.append _ 1 ⟨[.Reset], 0, false⟩ .Reset rfl rfl rfl)
  have r5 := System.Run.tail _ _ _ _ r4 (.pull _ rfl)
  have r6 := System.Run.tail _ _ _ _ r5 (.signal _ 1 ⟨[.Reset], 1, true⟩ rfl rfl)
  have r7 := System.Run.tail _ _ _ _ r6 (.wake _ { ops := [], ch := { len := 0, cap := 1 } } rfl rfl)
  have r8 : System.Run 8 (System.init [[.WhiteBg], [.Reset]])
      { mq := { ops := [], ch := { len := 0, cap := 1 } }
        producers := [⟨[.WhiteBg], 1, false⟩, ⟨[.Reset], 1, false⟩]
        woken := false
        seen := [.WhiteBg, .Reset] } := System.Run.tail _ _ _ _ r7 (.pull _ rfl)
  refine ⟨r8, ((C3_consumer_sees_every_push_once _ _ _ r8).2.2.2 ?_).1⟩
  intro s1 hstep
  cases hstep with
  | append i p op hi hsig hop =>
    rcases i with _ | _ | i
    · simp at hi; subst hi; simp at hop
    · simp at hi; subst hi; simp at hop
    · simp at hi
  | signal i p hi hsig =>
    rcases i with _ | _ | i
    · simp at hi; subst hi; simp at hsig
    · simp at hi; subst hi; simp at hsig
    · simp at hi
  | wake mq1 hw hrecv => simp [MessageQueue.recv] at hrecv
  | pull hw => simp at hw

/-! ## Theorems: the command parser -/

/-- C5, the input on which the range check fails: `NaN` is accepted by the
number parser, passes both comparisons of the check, and is carried by the
`Figure` operation that `Parse` returns, although it is neither at least 0 nor
at most 1. -/
theorem C5_nan_passes_range_check :
    Parse ParseFloat "figure NaN 0.5" =
      .ok (.Figure F64.nan (F64.fin false 4503599627370496 (-53))) ∧
    ParseFloat "NaN" = some F64.nan ∧
    F64.le F64.zero F64.nan = false ∧ F64.le F64.nan F64.one = false ∧
    Parse ParseFloat "bgrect 0 nan 1 1" =
      .ok (.BgRect (F64.fin false 0 0) F64.nan (F64.fin false 4503599627370496 (-52))
        (F64.fin false 4503599627370496 (-52))) :=
  ⟨rfl, rfl, rfl, rfl, rfl⟩

theorem F64.not_rejected_of_unit (v : F64) (h0 : F64.le F64.zero v = true)
    (h1 : F64.le v F64.one = true) : (F64.lt v F64.zero || F64.gt v F64.one) = false := by
  cases v with
  | nan => simp [F64.le, F64.zero] at h0
  | inf neg =>
    cases neg
    · simp [F64.le, F64.one] at h1
    · simp [F64.le, F64.zero] at h0
  | fin neg m e =>
    simp only [F64.le, F64.zero, F64.one, decide_eq_true_eq] at h0 h1
    simp only [F64.lt, F64.gt, F64.zero, F64.one, Bool.or_eq_false_iff, decide_eq_false_iff_not,
      not_lt]
    rw [min_comm] at h0 h1
    exact ⟨h0, h1⟩

theorem Parse_fields (pf : String → Option F64) (line cmd : String) (args : List String)
    (h : Fields line = cmd :: args) :
    Parse pf line =
      if cmd = "white" then
        if args.length ≠ 0 then .error "white command takes no arguments" else .ok .WhiteBg
      else if cmd = "green" then
        if args.length ≠ 0 then .error "green command takes no arguments" else .ok .GreenBg
      else if cmd = "bgrect" then
        if args.length ≠ 4 then .error "bgrect command requires 4 arguments (x1 y1 x2 y2)"
        else
          match parseCoords pf "bgrect" args 0 (makeCoords 4) with
          | .error e => .error e
          | .ok coords =>
            .ok (.BgRect (coords.getD 0 F64.zero) (coords.getD 1 F64.zero)
              (coords.getD 2 F64.zero) (coords.getD 3 F64.zero))
      else if cmd = "figure" then
        if args.length ≠ 2 then .error "figure command requires 2 arguments (x y)"
        else
          match parseCoords pf "figure" args 0 (makeCoords 2) with
          | .error e => .error e
          | .ok coords => .ok (.Figure (coords.getD 0 F64.zero) (coords.getD 1 F64.zero))
      else if cmd = "move" then
        if args.length ≠ 2 then .error "move command requires 2 arguments (x y)"
        else
          match parseOffsets pf args 0 (makeCoords 2) with
          | .error e => .error e
          | .ok coords => .ok (.Move (coords.getD 0 F64.zero) (coords.getD 1 F64.zero))
      else if cmd = "reset" then
        if args.length ≠ 0 then .error "reset command takes no arguments" else .ok .Reset
      else if cmd = "update" then
        if args.length ≠ 0 then .error "update command takes no arguments" else .ok .UpdateOp
      else .error ("unknown command: " ++ cmd) := by
  unfold Parse
  rw [h]

theorem parseCoords_step (pf : String → Option F64) (name arg : String) (args : List String)
    (i : Nat) (coords : List F64) (v : F64) (hp : pf arg = some v)
    (h0 : F64.le F64.zero v = true) (h1 : F64.le v F64.one = true) :
    parseCoords pf name (arg :: args) i coords = parseCoords pf name args (i + 1) (coords.set i v) := by
  rw [parseCoords, hp]
  simp only [F64.not_rejected_of_unit v h0 h1]
  rfl

theorem parseOffsets_step (pf : String → Option F64) (arg : String) (args : List String)
    (i : Nat) (coords : List F64) (v : F64) (hp : pf arg = some v) :
    parseOffsets pf (arg :: args) i coords = parseOffsets pf args (i + 1) (coords.set i v) := by
  rw [parseOffsets, hp]

/-- C6: a `bgrect` line with four arguments that parse to numbers in [0,1], a
`figure` line with two such arguments, and a `move` line with two arguments
that parse to any values, give the operation that carries the parsed values,
unchanged and in argument order. -/
theorem C6_parse_carries_parsed_values (pf : String → Option F64) (line : String) :
    (∀ a b c d va vb vc vd, Fields line = ["bgrect", a, b, c, d] →
      pf a = some va → pf b = some vb → pf c = some vc → pf d = some vd →
      F64.le F64.zero va = true ∧ F64.le va F64.one = true →
      F64.le F64.zero vb = true ∧ F64.le vb F64.one = true →
      F64.le F64.zero vc = true ∧ F64.le vc F64.one = true →
      F64.le F64.zero vd = true ∧ F64.le vd F64.one = true →
      Parse pf line = .ok (.BgRect va vb vc vd)) ∧
    (∀ a b va vb, Fields line = ["figure", a, b] →
      pf a = some va → pf b = some vb →
      F64.le F64.zero va = true ∧ F64.le va F64.one = true →
      F64.le F64.zero vb = true ∧ F64.le vb F64.one = true →
      Parse pf line = .ok (.Figure va vb)) ∧
    (∀ a b va vb, Fields line = ["move", a, b] →
      pf a = some va → pf b = some vb →
      Parse pf line = .ok (.Move va vb)) := by
  refine ⟨?_, ?_, ?_⟩
  · intro a b c d va vb vc vd hf ha hb hc hd ra rb rc rd
    have h : parseCoords pf "bgrect" [a, b, c, d] 0 (makeCoords 4) = .ok [va, vb, vc, vd] := by
      rw [parseCoords_step pf _ _ _ _ _ _ ha ra.1 ra.2,
        parseCoords_step pf _ _ _ _ _ _ hb rb.1 rb.2,
        parseCoords_step pf _ _ _ _ _ _ hc rc.1 rc.2,
        parseCoords_step pf _ _ _ _ _ _ hd rd.1 rd.2, parseCoords]
      rfl
    rw [Parse_fields pf line _ _ hf]
    simp only [h]
    rfl
  · intro a b va vb hf ha hb ra rb
    have h : parseCoords pf "figure" [a, b] 0 (makeCoords 2) = .ok [va, vb] := by
      rw [parseCoords_step pf _ _ _ _ _ _ ha ra.1 ra.2,
        parseCoords_step pf _ _ _ _ _ _ hb rb.1 rb.2, parseCoords]
      rfl
    rw [Parse_fields pf line _ _ hf]
    simp only [h]
    rfl
  · intro a b va vb hf ha hb
    have h : parseOffsets pf [a, b] 0 (makeCoords 2) = .ok [va, vb] := by
      rw [parseOffsets_step pf _ _ _ _ _ ha, parseOffsets_step pf _ _ _ _ _ hb, parseOffsets]
      rfl
    rw [Parse_fields pf line _ _ hf]
    simp only [h]
    rfl

/-- Witness of C6: `bgrect 0.1 0.2 0.8 0.9`, `figure 0.55 0.45` and
`move -3 9000` with the decimal parser. -/
theorem C6_parse_carries_parsed_values_witness :
    Parse ParseFloat "bgrect 0.1 0.2 0.8 0.9" =
      .ok (.BgRect (F64.fin false 7205759403792794 (-56)) (F64.fin false 7205759403792794 (-55))
        (F64.fin false 7205759403792794 (-53)) (F64.fin false 8106479329266893 (-53))) ∧
    Parse ParseFloat "figure 0.55 0.45" =
      .ok (.Figure (F64.fin false 4953959590107546 (-53))
        (F64.fin false 8106479329266893 (-54))) ∧
    Parse ParseFloat "move -3 9000" =
      .ok (.Move (F64.fin true 6755399441055744 (-51))
        (F64.fin false 4947802324992000 (-39))) :=
  ⟨(C6_parse_carries_parsed_values ParseFloat "bgrect 0.1 0.2 0.8 0.9").1 "0.1" "0.2" "0.8" "0.9"
      _ _ _ _ (by decide) (by decide) (by decide) (by decide) (by decide)
      ⟨by decide, by decide⟩ ⟨by decide, by decide⟩ ⟨by decide, by decide⟩
      ⟨by decide, by decide⟩,
    (C6_parse_carries_parsed_values ParseFloat "figure 0.55 0.45").2.1 "0.55" "0.45" _ _
      (by decide) (by decide) (by decide) ⟨by decide, by decide⟩ ⟨by decide, by decide⟩,
    (C6_parse_carries_parsed_values ParseFloat "move -3 9000").2.2 "-3" "9000" _ _
      (by decide) (by decide) (by decide)⟩

/-- C7: a line whose only token is `white`, `green`, `reset` or `update` gives
`WhiteBg`, `GreenBg`, `Reset` or `UpdateOp`; with one or more further tokens
after the keyword the line gives an error. -/
theorem C7_keyword_commands_take_no_arguments (pf : String → Option F64) (line : String) :
    (Fields line = ["white"] → Parse pf line = .ok .WhiteBg) ∧
    (Fields line = ["green"] → Parse pf line = .ok .GreenBg) ∧
    (Fields line = ["reset"] → Parse pf line = .ok .Reset) ∧
    (Fields line = ["update"] → Parse pf line = .ok .UpdateOp) ∧
    (∀ k arg args, k = "white" ∨ k = "green" ∨ k = "reset" ∨ k = "update" →
      Fields line = k :: arg :: args → ∃ e, Parse pf line = .error e) := by
  refine ⟨?_, ?_, ?_, ?_, ?_⟩
  · intro h; rw [Parse_fields pf line _ _ h]; rfl
  · intro h; rw [Parse_fields pf line _ _ h]; rfl
  · intro h; rw [Parse_fields pf line _ _ h]; rfl
  · intro h; rw [Parse_fields pf line _ _ h]; rfl
  · intro k arg args hk h
    rw [Parse_fields pf line _ _ h]
    rcases hk with rfl | rfl | rfl | rfl
    · exact ⟨_, rfl⟩
    · exact ⟨_, rfl⟩
    · exact ⟨_, rfl⟩
    · exact ⟨_, rfl⟩

/-- Witness of C7: `update` alone, and `white 0.5`. -/
theorem C7_keyword_commands_take_no_arguments_witness :
    Parse ParseFloat "update" = .ok .UpdateOp ∧
    ∃ e, Parse ParseFloat "white 0.5" = .error e :=
  ⟨(C7_keyword_commands_take_no_arguments ParseFloat "update").2.2.2.1 (by decide),
    (C7_keyword_commands_take_no_arguments ParseFloat "white 0.5").2.2.2.2 "white" "0.5" []
      (Or.inl rfl) (by decide)⟩

theorem parseCoords_error_of_none (pf : String → Option F64) (name : String)
    (args : List String) (i : Nat) (coords : List F64) (h : ∃ a ∈ args, pf a = none) :
    ∃ e, parseCoords pf name args i coords = .error e := by
  induction args generalizing i coords with
  | nil => obtain ⟨a, ha, _⟩ := h; cases ha
  | cons arg args ih =>
    rw [parseCoords]
    cases hp : pf arg with
    | none => exact ⟨_, rfl⟩
    | some v =>
      dsimp only
      split
      · exact ⟨_, rfl⟩
      · apply ih
        obtain ⟨a, ha, hn⟩ := h
        rcases List.mem_cons.mp ha with rfl | ha
        · rw [hp] at hn; cases hn
        · exact ⟨a, ha, hn⟩

theorem parseOffsets_error_of_none (pf : String → Option F64)
    (args : List String) (i : Nat) (coords : List F64) (h : ∃ a ∈ args, pf a = none) :
    ∃ e, parseOffsets pf args i coords = .error e := by
  induction args generalizing i coords with
  | nil => obtain ⟨a, ha, _⟩ := h; cases ha
  | cons arg args ih =>
    rw [parseOffsets]
    cases hp : pf arg with
    | none => exact ⟨_, rfl⟩
    | some v =>
      dsimp only
      apply ih
      obtain ⟨a, ha, hn⟩ := h
      rcases List.mem_cons.mp ha with rfl | ha
      · rw [hp] at hn; cases hn
      · exact ⟨a, ha, hn⟩

theorem Parse_bgrect (pf : String → Option F64) (line : String) (args : List String)
    (h : Fields line = "bgrect" :: args) :
    Parse pf line =
      if args.length ≠ 4 then .error "bgrect command requires 4 arguments (x1 y1 x2 y2)"
      else
        match parseCoords pf "bgrect" args 0 (makeCoords 4) with
        | .error e => .error e
        | .ok coords =>
          .ok (.BgRect (coords.getD 0 F64.zero) (coords.getD 1 F64.zero)
            (coords.getD 2 F64.zero) (coords.getD 3 F64.zero)) := by
  rw [Parse_fields pf line _ _ h]; rfl

theorem Parse_figure (pf : String → Option F64) (line : String) (args : List String)
    (h : Fields line = "figure" :: args) :
    Parse pf line =
      if args.length ≠ 2 then .error "figure command requires 2 arguments (x y)"
      else
        match parseCoords pf "figure" args 0 (makeCoords 2) with
        | .error e => .error e
        | .ok coords => .ok (.Figure (coords.getD 0 F64.zero) (coords.getD 1 F64.zero)) := by
  rw [Parse_fields pf line _ _ h]; rfl

theorem Parse_move (pf : String → Option F64) (line : String) (args : List String)
    (h : Fields line = "move" :: args) :
    Parse pf line =
      if args.length ≠ 2 then .error "move command requires 2 arguments (x y)"
      else
        match parseOffsets pf args 0 (makeCoords 2) with
        | .error e => .error e
        | .ok coords => .ok (.Move (coords.getD 0 F64.zero) (coords.getD 1 F64.zero)) := by
  rw [Parse_fields pf line _ _ h]; rfl

/-- C8: a line whose first token is `bgrect`, `figure` or `move` gives an error
when the number of its argument tokens is not 4, 2 or 2 respectively, and
when one of its argument tokens does not parse as a number. -/
theorem C8_wrong_arity_or_bad_number_is_error (pf : String → Option F64) (line : String)
    (args : List String) :
    (Fields line = "bgrect" :: args → (args.length ≠ 4 ∨ ∃ a ∈ args, pf a = none) →
      ∃ e, Parse pf line = .error e) ∧
    (Fields line = "figure" :: args → (args.length ≠ 2 ∨ ∃ a ∈ args, pf a = none) →
      ∃ e, Parse pf line = .error e) ∧
    (Fields line = "move" :: args → (args.length ≠ 2 ∨ ∃ a ∈ args, pf a = none) →
      ∃ e, Parse pf line = .error e) := by
  refine ⟨?_, ?_, ?_⟩
  · intro hf h
    rw [Parse_bgrect pf line _ hf]
    by_cases hl : args.length ≠ 4
    · exact ⟨_, if_pos hl⟩
    · rcases h with h | h
      · exact absurd h hl
      · obtain ⟨e, he⟩ := parseCoords_error_of_none pf "bgrect" args 0 (makeCoords 4) h
        exact ⟨e, by rw [if_neg hl, he]⟩
  · intro hf h
    rw [Parse_figure pf line _ hf]
    by_cases hl : args.length ≠ 2
    · exact ⟨_, if_pos hl⟩
    · rcases h with h | h
      · exact absurd h hl
      · obtain ⟨e, he⟩ := parseCoords_error_of_none pf "figure" args 0 (makeCoords 2) h
        exact ⟨e, by rw [if_neg hl, he]⟩
  · intro hf h
    rw [Parse_move pf line _ hf]
    by_cases hl : args.length ≠ 2
    · exact ⟨_, if_pos hl⟩
    · rcases h with h | h
      · exact absurd h hl
      · obtain ⟨e, he⟩ := parseOffsets_error_of_none pf args 0 (makeCoords 2) h
        exact ⟨e, by rw [if_neg hl, he]⟩

/-- Witness of C8: `bgrect 0.1 text 0.8 0.9`, `figure 0.5` and
`move text 0.2`. -/
theorem C8_wrong_arity_or_bad_number_is_error_witness :
    (∃ e, Parse ParseFloat "bgrect 0.1 text 0.8 0.9" = .error e) ∧
    (∃ e, Parse ParseFloat "figure 0.5" = .error e) ∧
    (∃ e, Parse ParseFloat "move text 0.2" = .error e) :=
  ⟨(C8_wrong_arity_or_bad_number_is_error ParseFloat "bgrect 0.1 text 0.8 0.9"
      ["0.1", "text", "0.8", "0.9"]).1 (by decide)
      (Or.inr ⟨"text", by decide, by decide⟩),
    (C8_wrong_arity_or_bad_number_is_error ParseFloat "figure 0.5" ["0.5"]).2.1 (by decide)
      (Or.inl (by decide)),
    (C8_wrong_arity_or_bad_number_is_error ParseFloat "move text 0.2" ["text", "0.2"]).2.2
      (by decide) (Or.inr ⟨"text", by decide, by decide⟩)⟩

theorem fieldsAux_blank (pad rest : List Char) (h : isBlank pad = true) :
    fieldsAux (pad ++ rest) [] = fieldsAux rest [] := by
  induction pad with
  | nil => rfl
  | cons c pad ih =>
    simp only [isBlank, List.all_cons, Bool.and_eq_true] at h
    simp only [List.cons_append, fieldsAux, h.1, if_true, List.isEmpty_nil, List.append_eq]
    exact ih (by simpa [isBlank] using h.2)

theorem fieldsAux_token (tok rest cur : List Char)
    (h : (tok.all fun c => !IsSpace c) = true) :
    fieldsAux (tok ++ rest) cur = fieldsAux rest (cur ++ tok) := by
  induction tok generalizing cur with
  | nil => simp
  | cons c tok ih =>
    simp only [List.all_cons, Bool.and_eq_true, Bool.not_eq_true'] at h
    simp only [List.cons_append, fieldsAux, h.1, Bool.false_eq_true, if_false, List.append_eq]
    rw [ih _ (by simpa using h.2)]
    simp

theorem fieldsAux_close (pad rest cur : List Char) (h : isBlank pad = true)
    (hne : pad.isEmpty = false) (hcur : cur.isEmpty = false) :
    fieldsAux (pad ++ rest) cur = cur :: fieldsAux rest [] := by
  cases pad with
  | nil => simp at hne
  | cons c pad =>
    simp only [isBlank, List.all_cons, Bool.and_eq_true] at h
    simp only [List.cons_append, fieldsAux, h.1, if_true, hcur, Bool.false_eq_true, if_false,
      List.append_eq]
    rw [fieldsAux_blank pad rest (by simpa [isBlank] using h.2)]

theorem fieldsAux_layout_tail (rest : List (List Char × List Char)) (trail cur : List Char)
    (h : spacedTail rest = true) (ht : isBlank trail = true) (hcur : cur.isEmpty = false) :
    fieldsAux (layout rest trail) cur = cur :: rest.map fun q => q.2 := by
  induction rest generalizing cur with
  | nil =>
    simp only [layout, List.map_nil]
    cases htr : trail.isEmpty with
    | true =>
      have : trail = [] := by simpa using htr
      subst this
      simp [fieldsAux, hcur]
    | false =>
      have := fieldsAux_close trail [] cur ht htr hcur
      simpa [fieldsAux] using this
  | cons q rest ih =>
    obtain ⟨pad, tok⟩ := q
    simp only [spacedTail, Bool.and_eq_true, Bool.not_eq_true', isToken] at h
    obtain ⟨⟨⟨hb, hne⟩, htne, htok⟩, hrest⟩ := h
    simp only [layout, List.append_assoc, List.map_cons]
    rw [fieldsAux_close pad _ cur hb hne hcur, fieldsAux_token tok _ [] htok, List.nil_append,
      ih tok hrest htne]

theorem Fields_layout (pairs : List (List Char × List Char)) (trail : List Char)
    (h : spaced pairs = true) (ht : isBlank trail = true) :
    Fields (String.mk (layout pairs trail)) = pairs.map fun q => String.mk q.2 := by
  unfold Fields
  cases pairs with
  | nil =>
    have := fieldsAux_blank trail [] ht
    simp only [List.append_nil] at this
    simp [layout, this, fieldsAux]
  | cons q rest =>
    obtain ⟨pad, tok⟩ := q
    simp only [spaced, Bool.and_eq_true, isToken, Bool.not_eq_true'] at h
    obtain ⟨⟨hb, htne, htok⟩, hrest⟩ := h
    simp only [layout, List.append_assoc]
    rw [fieldsAux_blank pad _ hb, fieldsAux_token tok _ [] htok, List.nil_append,
      fieldsAux_layout_tail rest trail tok hrest ht htne]
    simp

/-- C9: a line without a token, such as an empty line or a line of white
space only, gives the error `empty command`; a line whose first token is none
of `white`, `green`, `reset`, `update`, `bgrect`, `figure`, `move`, letter case
included, gives the error `unknown command`, whatever follows the token. -/
theorem C9_empty_or_unknown_command_is_error (pf : String → Option F64) (line : String) :
    (isBlank line.data = true → Fields line = []) ∧
    (Fields line = [] → Parse pf line = .error "empty command") ∧
    (∀ cmd args, Fields line = cmd :: args →
      cmd ≠ "white" → cmd ≠ "green" → cmd ≠ "reset" → cmd ≠ "update" → cmd ≠ "bgrect" →
      cmd ≠ "figure" → cmd ≠ "move" →
      Parse pf line = .error ("unknown command: " ++ cmd)) := by
  refine ⟨?_, ?_, ?_⟩
  · intro h
    have := Fields_layout [] line.data rfl h
    simpa [layout] using this
  · intro h
    unfold Parse
    rw [h]
  · intro cmd args h h1 h2 h3 h4 h5 h6 h7
    rw [Parse_fields pf line _ _ h]
    simp only [h1, h2, h3, h4, h5, h6, h7, if_false]

/-- Witness of C9: the empty line, a line of three spaces, `White` and
`unknowncmd 1 2 3`. -/
theorem C9_empty_or_unknown_command_is_error_witness :
    Parse ParseFloat "" = .error "empty command" ∧
    Parse ParseFloat "   " = .error "empty command" ∧
    Parse ParseFloat "White" = .error "unknown command: White" ∧
    Parse ParseFloat "unknowncmd 1 2 3" = .error "unknown command: unknowncmd" :=
  ⟨(C9_empty_or_unknown_command_is_error ParseFloat "").2.1 (by decide),
    (C9_empty_or_unknown_command_is_error ParseFloat "   ").2.1
      ((C9_empty_or_unknown_command_is_error ParseFloat "   ").1 (by decide)),
    (C9_empty_or_unknown_command_is_error ParseFloat "White").2.2 "White" [] (by decide)
      (by decide) (by decide) (by decide) (by decide) (by decide) (by decide) (by decide),
    (C9_empty_or_unknown_command_is_error ParseFloat "unknowncmd 1 2 3").2.2 "unknowncmd"
      ["1", "2", "3"] (by decide) (by decide) (by decide) (by decide) (by decide) (by decide)
      (by decide) (by decide)⟩

/-- C10: `Parse` gives the same result on two lines that have the same
sequence of white-space-delimited tokens, whatever white space stands before,
between and after the tokens. -/
theorem C10_parse_depends_only_on_tokens (pf : String → Option F64) :
    (∀ a b : String, Fields a = Fields b → Parse pf a = Parse pf b) ∧
    (∀ pairs trail, spaced pairs = true → isBlank trail = true →
      Fields (String.mk (layout pairs trail)) = pairs.map fun q => String.mk q.2) ∧
    (∀ p1 t1 p2 t2, spaced p1 = true → isBlank t1 = true → spaced p2 = true →
      isBlank t2 = true → (p1.map fun q => q.2) = (p2.map fun q => q.2) →
      Parse pf (String.mk (layout p1 t1)) = Parse pf (String.mk (layout p2 t2))) := by
  have h1 : ∀ a b : String, Fields a = Fields b → Parse pf a = Parse pf b := by
    intro a b h
    unfold Parse
    rw [h]
  refine ⟨h1, Fields_layout, ?_⟩
  intro p1 t1 p2 t2 hs1 hb1 hs2 hb2 htok
  apply h1
  rw [Fields_layout p1 t1 hs1 hb1, Fields_layout p2 t2 hs2 hb2]
  have := congrArg (List.map String.mk) htok
  simpa [List.map_map] using this

/-- Witness of C10: `  figure   0.3   0.7  ` and `figure 0.3 0.7` give the same
result, the figure at (0.3, 0.7). -/
theorem C10_parse_depends_only_on_tokens_witness :
    Parse ParseFloat "  figure   0.3   0.7  " = Parse ParseFloat "figure 0.3 0.7" ∧
    Parse ParseFloat "figure 0.3 0.7" =
      .ok (.Figure (F64.fin false 5404319552844595 (-54))
        (F64.fin false 6305039478318694 (-53))) :=
  ⟨(C10_parse_depends_only_on_tokens ParseFloat).2.2
      [("  ".data, "figure".data), ("   ".data, "0.3".data), ("   ".data, "0.7".data)] "  ".data
      [([], "figure".data), (" ".data, "0.3".data), (" ".data, "0.7".data)] []
      (by decide) (by decide) (by decide) (by decide) rfl,
    rfl⟩

/-! ## Theorems: the operations -/

theorem OperationList.Do_eq (ol : List Operation) (updated : Bool) (s : State) (t : Texture) :
    OperationList.Do ol updated s t =
      (updated || (applyInOrder ol s t).any (fun r => r.1),
        ((applyInOrder ol s t).getLast?.getD (updated, s, t)).2) := by
  induction ol generalizing updated s t with
  | nil => simp [OperationList.Do, applyInOrder]
  | cons op ol ih =>
    rw [OperationList.Do, ih]
    cases hops : applyInOrder ol (op.Do s t).2.1 (op.Do s t).2.2 with
    | nil =>
      cases hd : (op.Do s t).1 <;> simp [applyInOrder, hops, hd]
    | cons r rs =>
      have hl : (r :: rs).getLast? = some ((r :: rs).getLast (by simp)) :=
        List.getLast?_eq_getLast _ _
      cases hd : (op.Do s t).1 <;>
        simp [applyInOrder, hops, hd, List.getLast?_cons_cons, hl]

mutual
theorem Operation.builtin_preserves (P : State → Prop)
    (hW : ∀ s t, P s → P (WhiteBg.Do s t).2.1) (hG : ∀ s t, P s → P (GreenBg.Do s t).2.1)
    (hF : ∀ X Y s t, P s → P (Figure.Do X Y s t).2.1)
    (hB : ∀ X1 Y1 X2 Y2 s t, P s → P (BgRect.Do X1 Y1 X2 Y2 s t).2.1)
    (hM : ∀ X Y s t, P s → P (Move.Do X Y s t).2.1)
    (hR : ∀ s t, P s → P (Reset.Do s t).2.1) :
    ∀ (op : Operation), op.builtin = true → ∀ s t, P s → P (op.Do s t).2.1
  | .UpdateOp, _, _, _, hp => hp
  | .WhiteBg, _, s, t, hp => hW s t hp
  | .GreenBg, _, s, t, hp => hG s t hp
  | .Figure X Y, _, s, t, hp => hF X Y s t hp
  | .BgRect X1 Y1 X2 Y2, _, s, t, hp => hB X1 Y1 X2 Y2 s t hp
  | .Move X Y, _, s, t, hp => hM X Y s t hp
  | .Reset, _, s, t, hp => hR s t hp
  | .OperationList ol, hb, s, t, hp =>
    Operation.builtinList_preserves P hW hG hF hB hM hR ol false
      (by simpa [Operation.builtin] using hb) s t hp
  | .Func _, hb, _, _, _ => by simp [Operation.builtin] at hb
theorem Operation.builtinList_preserves (P : State → Prop)
    (hW : ∀ s t, P s → P (WhiteBg.Do s t).2.1) (hG : ∀ s t, P s → P (GreenBg.Do s t).2.1)
    (hF : ∀ X Y s t, P s → P (Figure.Do X Y s t).2.1)
    (hB : ∀ X1 Y1 X2 Y2 s t, P s → P (BgRect.Do X1 Y1 X2 Y2 s t).2.1)
    (hM : ∀ X Y s t, P s → P (Move.Do X Y s t).2.1)
    (hR : ∀ s t, P s → P (Reset.Do s t).2.1) :
    ∀ (ol : List Operation) (updated : Bool), Operation.builtinList ol = true →
      ∀ s t, P s → P (OperationList.Do ol updated s t).2.1
  | [], _, _, _, _, hp => hp
  | o :: ol, updated, hb, s, t, hp => by
    rw [OperationList.Do]
    simp only [Operation.builtinList, Bool.and_eq_true] at hb
    exact Operation.builtinList_preserves P hW hG hF hB hM hR ol _ hb.2 _ _
      (Operation.builtin_preserves P hW hG hF hB hM hR o hb.1 s t hp)
end

theorem State.Reachable.preserves (P : State → Prop)
    (hW : ∀ s t, P s → P (WhiteBg.Do s t).2.1) (hG : ∀ s t, P s → P (GreenBg.Do s t).2.1)
    (hF : ∀ X Y s t, P s → P (Figure.Do X Y s t).2.1)
    (hB : ∀ X1 Y1 X2 Y2 s t, P s → P (BgRect.Do X1 Y1 X2 Y2 s t).2.1)
    (hM : ∀ X Y s t, P s → P (Move.Do X Y s t).2.1)
    (hR : ∀ s t, P s → P (Reset.Do s t).2.1)
    {s0 s : State} (h : State.Reachable s0 s) (h0 : P s0) : P s := by
  induction h with
  | init => exact h0
  | step s op t _ hb ih => exact Operation.builtin_preserves P hW hG hF hB hM hR op hb s t ih

theorem State.Reachable.size {s0 s : State} (h : State.Reachable s0 s) :
    s.WindowWidth = s0.WindowWidth ∧ s.WindowHeight = s0.WindowHeight :=
  h.preserves (fun s => s.WindowWidth = s0.WindowWidth ∧ s.WindowHeight = s0.WindowHeight)
    (fun _ _ h => h) (fun _ _ h => h) (fun _ _ _ _ h => h) (fun _ _ _ _ _ _ h => h)
    (fun _ _ _ _ h => h) (fun _ _ h => h) ⟨rfl, rfl⟩

/-- C11: after `Reset.Do` the figures list is empty, the background rectangle
is absent, the move offset is (0,0) and the background colour is black, and
the window width and height are those of the prior state; the result is the
same for two prior states of the same window size, so `Reset` after any
sequence of operations of op.go gives the state that `Reset` alone gives. -/
theorem C11_reset_restores_defaults (s : State) (t : Texture) :
    (Reset.Do s t).2.1.Figures = [] ∧ (Reset.Do s t).2.1.BgRect = none ∧
    (Reset.Do s t).2.1.MoveOffset = ⟨0, 0⟩ ∧ (Reset.Do s t).2.1.BgColor = Color.Black ∧
    (Reset.Do s t).2.1.WindowWidth = s.WindowWidth ∧
    (Reset.Do s t).2.1.WindowHeight = s.WindowHeight ∧
    (∀ c b f m t1, (Reset.Do { s with BgColor := c, BgRect := b, Figures := f, MoveOffset := m }
      t1).2.1 = (Reset.Do s t).2.1) ∧
    (∀ s1 t1, State.Reachable s s1 → (Reset.Do s1 t1).2.1 = (Reset.Do s t).2.1) := by
  refine ⟨rfl, rfl, rfl, rfl, rfl, rfl, fun _ _ _ _ _ => rfl, ?_⟩
  intro s1 t1 h
  have hs := h.size
  simp only [Reset.Do, hs.1, hs.2]

/-- Witness of C11: `Reset` after a green background, a figure and a move on
an 800 x 800 window, and `Reset` alone. -/
theorem C11_reset_restores_defaults_witness :
    (Reset.Do
      ((Operation.OperationList [.GreenBg, .Figure F64.one F64.zero, .Move F64.one F64.one]).Do
        (NewLoop none 800 800).state ⟨⟨800, 800⟩, [], false⟩).2.1 ⟨⟨800, 800⟩, [], false⟩).2.1 =
      { BgColor := Color.Black, BgRect := none, Figures := [], MoveOffset := ⟨0, 0⟩,
        WindowWidth := 800, WindowHeight := 800 } :=
  (C11_reset_restores_defaults (NewLoop none 800 800).state ⟨⟨800, 800⟩, [], false⟩).2.2.2.2.2.2.2
    _ _ (.step _ _ _ .init rfl)

/-- C13: `OperationList.Do` leaves the state (and the texture) that applying the
members one after another in list order leaves, every member being applied,
and returns true exactly when the `Do` of at least one member returned true;
on the empty list it changes nothing and returns false. -/
theorem C13_operation_list_applies_members_in_order (ol : List Operation) (s : State)
    (t : Texture) :
    (Operation.OperationList ol).Do s t =
      ((applyInOrder ol s t).any (fun r => r.1),
        ((applyInOrder ol s t).getLast?.getD (false, s, t)).2) ∧
    (applyInOrder ol s t).length = ol.length ∧
    (((Operation.OperationList ol).Do s t).1 = true ↔ ∃ r ∈ applyInOrder ol s t, r.1 = true) ∧
    (Operation.OperationList []).Do s t = (false, s, t) := by
  have h : (Operation.OperationList ol).Do s t = OperationList.Do ol false s t := by
    rw [Operation.Do]
  refine ⟨?_, applyInOrder_length ol s t, ?_, rfl⟩
  · rw [h, OperationList.Do_eq, Bool.false_or]
  · rw [h, OperationList.Do_eq, Bool.false_or]
    simp

/-- C16: `Figure.Do` appends exactly one figure at the end of the figures list,
keeping the earlier figures and their order; the new figure has variant T180
and the colour yellow (255, 255, 0, 255), whatever the coordinates and the
figures already present. The other fields of the state are unchanged. -/
theorem C16_figure_appends_yellow_t180 (X Y : F64) (s : State) (t : Texture) :
    (∃ f : FigureOp, (Figure.Do X Y s t).2.1.Figures = s.Figures ++ [f] ∧
      f.Variant = T180 ∧ f.Color = Color.NRGBA 255 255 0 255 ∧
      f.X = (F64.mul X (F64.ofInt s.WindowWidth)).toInt ∧
      f.Y = (F64.mul Y (F64.ofInt s.WindowHeight)).toInt) ∧
    (Figure.Do X Y s t).2.1.Figures.length = s.Figures.length + 1 ∧
    (Figure.Do X Y s t).2.1.Figures.take s.Figures.length = s.Figures ∧
    T180 = 2 ∧
    (Figure.Do X Y s t).2.1.BgColor = s.BgColor ∧ (Figure.Do X Y s t).2.1.BgRect = s.BgRect ∧
    (Figure.Do X Y s t).2.1.MoveOffset = s.MoveOffset := by
  refine ⟨⟨_, rfl, rfl, rfl, rfl, rfl⟩, ?_, ?_, rfl, rfl, rfl, rfl⟩
  · simp [Figure.Do]
  · simp [Figure.Do]

theorem wrap64_add_wrap64 (a b : Int) : wrap64 (wrap64 a + b) = wrap64 (a + b) := by
  unfold wrap64
  omega

theorem wrap64_of_range (a : Int) (h1 : -2 ^ 63 ≤ a) (h2 : a < 2 ^ 63) : wrap64 a = a := by
  unfold wrap64
  omega

/-- C17: two moves applied one after the other leave the move offset
`(ox + p1.X + p2.X, oy + p1.Y + p2.Y)`, the sums being those of Go's `int`,
where `p1` and `p2` are the pixel deltas of the moves; the sum is the
mathematical one whenever that lies in the range of `int`; and the state is
the same when the two moves are applied in the other order. -/
theorem C17_moves_accumulate (X1 Y1 X2 Y2 : F64) (s : State) (t1 t2 : Texture) :
    (Move.Do X2 Y2 (Move.Do X1 Y1 s t1).2.1 t2).2.1.MoveOffset =
      ⟨add64 (add64 s.MoveOffset.X (pixelDelta X1 Y1 s).X) (pixelDelta X2 Y2 s).X,
        add64 (add64 s.MoveOffset.Y (pixelDelta X1 Y1 s).Y) (pixelDelta X2 Y2 s).Y⟩ ∧
    (-2 ^ 63 ≤ s.MoveOffset.X + (pixelDelta X1 Y1 s).X + (pixelDelta X2 Y2 s).X →
      s.MoveOffset.X + (pixelDelta X1 Y1 s).X + (pixelDelta X2 Y2 s).X < 2 ^ 63 →
      -2 ^ 63 ≤ s.MoveOffset.Y + (pixelDelta X1 Y1 s).Y + (pixelDelta X2 Y2 s).Y →
      s.MoveOffset.Y + (pixelDelta X1 Y1 s).Y + (pixelDelta X2 Y2 s).Y < 2 ^ 63 →
      (Move.Do X2 Y2 (Move.Do X1 Y1 s t1).2.1 t2).2.1.MoveOffset =
        ⟨s.MoveOffset.X + (pixelDelta X1 Y1 s).X + (pixelDelta X2 Y2 s).X,
          s.MoveOffset.Y + (pixelDelta X1 Y1 s).Y + (pixelDelta X2 Y2 s).Y⟩) ∧
    (Move.Do X2 Y2 (Move.Do X1 Y1 s t1).2.1 t2).2.1 =
      (Move.Do X1 Y1 (Move.Do X2 Y2 s t1).2.1 t2).2.1 := by
  have hx : add64 (add64 s.MoveOffset.X (pixelDelta X1 Y1 s).X) (pixelDelta X2 Y2 s).X =
      wrap64 (s.MoveOffset.X + (pixelDelta X1 Y1 s).X + (pixelDelta X2 Y2 s).X) := by
    simp only [add64, wrap64_add_wrap64]
  have hy : add64 (add64 s.MoveOffset.Y (pixelDelta X1 Y1 s).Y) (pixelDelta X2 Y2 s).Y =
      wrap64 (s.MoveOffset.Y + (pixelDelta X1 Y1 s).Y + (pixelDelta X2 Y2 s).Y) := by
    simp only [add64, wrap64_add_wrap64]
  have h0 : (Move.Do X2 Y2 (Move.Do X1 Y1 s t1).2.1 t2).2.1.MoveOffset =
      ⟨add64 (add64 s.MoveOffset.X (pixelDelta X1 Y1 s).X) (pixelDelta X2 Y2 s).X,
        add64 (add64 s.MoveOffset.Y (pixelDelta X1 Y1 s).Y) (pixelDelta X2 Y2 s).Y⟩ := rfl
  refine ⟨h0, ?_, ?_⟩
  · intro a1 a2 b1 b2
    rw [h0, hx, hy, wrap64_of_range _ a1 a2, wrap64_of_range _ b1 b2]
  · have hx2 : add64 (add64 s.MoveOffset.X (pixelDelta X2 Y2 s).X) (pixelDelta X1 Y1 s).X =
        wrap64 (s.MoveOffset.X + (pixelDelta X1 Y1 s).X + (pixelDelta X2 Y2 s).X) := by
      simp only [add64, wrap64_add_wrap64]
      congr 1
      ring
    have hy2 : add64 (add64 s.MoveOffset.Y (pixelDelta X2 Y2 s).Y) (pixelDelta X1 Y1 s).Y =
        wrap64 (s.MoveOffset.Y + (pixelDelta X1 Y1 s).Y + (pixelDelta X2 Y2 s).Y) := by
      simp only [add64, wrap64_add_wrap64]
      congr 1
      ring
    show ({ s with MoveOffset := _ } : State) = { s with MoveOffset := _ }
    congr 1
    show (⟨add64 (add64 s.MoveOffset.X (pixelDelta X1 Y1 s).X) (pixelDelta X2 Y2 s).X,
        add64 (add64 s.MoveOffset.Y (pixelDelta X1 Y1 s).Y) (pixelDelta X2 Y2 s).Y⟩ : Point) =
      ⟨add64 (add64 s.MoveOffset.X (pixelDelta X2 Y2 s).X) (pixelDelta X1 Y1 s).X,
        add64 (add64 s.MoveOffset.Y (pixelDelta X2 Y2 s).Y) (pixelDelta X1 Y1 s).Y⟩
    rw [hx, hy, hx2, hy2]

set_option maxRecDepth 8000 in
/-- Witness of C17: `move 0.1 -0.2` then `move -3 9000` on an 800 x 800 window
with offset (5, 7): the offset becomes (5 + 80 - 2400, 7 - 160 + 7200000). -/
theorem C17_moves_accumulate_witness :
    (Move.Do (F64.fin true 6755399441055744 (-51)) (F64.fin false 4947802324992000 (-39))
      (Move.Do (F64.fin false 7205759403792794 (-56)) (F64.fin true 7205759403792794 (-55))
        { (NewLoop none 800 800).state with MoveOffset := ⟨5, 7⟩ }
        ⟨⟨800, 800⟩, [], false⟩).2.1 ⟨⟨800, 800⟩, [], false⟩).2.1.MoveOffset =
      ⟨5 + 80 + -2400, 7 + -160 + 7200000⟩ :=
  (C17_moves_accumulate (F64.fin false 7205759403792794 (-56))
    (F64.fin true 7205759403792794 (-55)) (F64.fin true 6755399441055744 (-51))
    (F64.fin false 4947802324992000 (-39))
    { (NewLoop none 800 800).state with MoveOffset := ⟨5, 7⟩ } ⟨⟨800, 800⟩, [], false⟩
    ⟨⟨800, 800⟩, [], false⟩).2.1 (by decide) (by decide) (by decide) (by decide)

/-- C14: in every state reached from the initial state of `NewLoop` by
operations of op.go, the background rectangle is absent or has `X1 ≤ X2` and
`Y1 ≤ Y2`; and `BgRect.Do` stores bounds in that order whatever the order of
the corners it is given. -/
theorem C14_background_rect_normalized (r : Option Receiver) (width height : Int) (s : State)
    (h : State.Reachable (NewLoop r width height).state s) :
    s.rectNormalized ∧
    (∀ X1 Y1 X2 Y2 s1 t, ∃ b, (BgRect.Do X1 Y1 X2 Y2 s1 t).2.1.BgRect = some b ∧
      b.X1 ≤ b.X2 ∧ b.Y1 ≤ b.Y2) := by
  have hB : ∀ X1 Y1 X2 Y2 s1 t, ∃ b, (BgRect.Do X1 Y1 X2 Y2 s1 t).2.1.BgRect = some b ∧
      b.X1 ≤ b.X2 ∧ b.Y1 ≤ b.Y2 := by
    intro X1 Y1 X2 Y2 s1 t
    refine ⟨_, rfl, ?_, ?_⟩
    · dsimp only
      split <;> omega
    · dsimp only
      split <;> omega
  refine ⟨?_, hB⟩
  refine h.preserves State.rectNormalized (fun _ _ h => h) (fun _ _ h => h) (fun _ _ _ _ h => h)
    ?_ (fun _ _ _ _ h => h) (fun _ _ _ => trivial) trivial
  intro X1 Y1 X2 Y2 s1 t _
  obtain ⟨b, hb, h1, h2⟩ := hB X1 Y1 X2 Y2 s1 t
  unfold State.rectNormalized
  rw [hb]
  exact ⟨h1, h2⟩

set_option maxRecDepth 8000 in
/-- Witness of C14: `bgrect 0.8 0.9 0.1 0.2`, the corners in reverse order, on
a new 800 x 800 loop stores (80, 160, 640, 720). -/
theorem C14_background_rect_normalized_witness :
    (BgRect.Do (F64.fin false 7205759403792794 (-53)) (F64.fin false 8106479329266893 (-53))
      (F64.fin false 7205759403792794 (-56)) (F64.fin false 7205759403792794 (-55))
      (NewLoop none 800 800).state ⟨⟨800, 800⟩, [], false⟩).2.1.BgRect =
        some ⟨80, 160, 640, 720⟩ ∧
    (BgRect.Do (F64.fin false 7205759403792794 (-53)) (F64.fin false 8106479329266893 (-53))
      (F64.fin false 7205759403792794 (-56)) (F64.fin false 7205759403792794 (-55))
      (NewLoop none 800 800).state ⟨⟨800, 800⟩, [], false⟩).2.1.rectNormalized :=
  ⟨by decide,
    (C14_background_rect_normalized none 800 800 _
      (.step _ (.BgRect (F64.fin false 7205759403792794 (-53))
        (F64.fin false 8106479329266893 (-53)) (F64.fin false 7205759403792794 (-56))
        (F64.fin false 7205759403792794 (-55))) ⟨⟨800, 800⟩, [], false⟩ .init rfl)).1⟩

/-- C18: `WhiteBg` and `GreenBg` change only the background colour, `BgRect.Do`
only the background rectangle, `Figure.Do` only the figures, `Move.Do` only the
move offset, and `UpdateOp.Do` no field of the state; no operation of op.go,
`Reset` and the lists included, changes the window width or height, so that
these keep the values given to `NewLoop`. -/
theorem C18_operations_change_only_their_field (s : State) (t : Texture) :
    (WhiteBg.Do s t).2.1 = { s with BgColor := Color.White } ∧
    (GreenBg.Do s t).2.1 = { s with BgColor := Color.Green } ∧
    (∀ X1 Y1 X2 Y2, ∃ b, (BgRect.Do X1 Y1 X2 Y2 s t).2.1 = { s with BgRect := some b }) ∧
    (∀ X Y, ∃ f, (Figure.Do X Y s t).2.1 = { s with Figures := s.Figures ++ [f] }) ∧
    (∀ X Y, ∃ m, (Move.Do X Y s t).2.1 = { s with MoveOffset := m }) ∧
    (UpdateOp.Do s t).2.1 = s ∧
    (∀ op : Operation, op.builtin = true →
      (op.Do s t).2.1.WindowWidth = s.WindowWidth ∧
      (op.Do s t).2.1.WindowHeight = s.WindowHeight) ∧
    (∀ r width height s1, State.Reachable (NewLoop r width height).state s1 →
      s1.WindowWidth = width ∧ s1.WindowHeight = height) := by
  refine ⟨rfl, rfl, fun _ _ _ _ => ⟨_, rfl⟩, fun _ _ => ⟨_, rfl⟩, fun _ _ => ⟨_, rfl⟩, rfl, ?_, ?_⟩
  · intro op hb
    exact (State.Reachable.step s op t .init hb).size
  · intro r width height s1 h
    exact h.size

/-- Witness of C18: a list that holds every kind of operation, applied to the
state of a new 640 x 480 loop, leaves the window size 640 x 480. -/
theorem C18_operations_change_only_their_field_witness :
    ((Operation.OperationList [.WhiteBg, .GreenBg, .BgRect F64.one F64.zero F64.zero F64.one,
      .Figure F64.one F64.one, .Move F64.one F64.one, .UpdateOp, .Reset,
      .OperationList [.Figure F64.zero F64.zero]]).Do (NewLoop none 640 480).state
        ⟨⟨640, 480⟩, [], false⟩).2.1.WindowWidth = 640 :=
  ((C18_operations_change_only_their_field (NewLoop none 640 480).state
    ⟨⟨640, 480⟩, [], false⟩).2.2.2.2.2.2.1
    (.OperationList [.WhiteBg, .GreenBg, .BgRect F64.one F64.zero F64.zero F64.one,
      .Figure F64.one F64.one, .Move F64.one F64.one, .UpdateOp, .Reset,
      .OperationList [.Figure F64.zero F64.zero]]) rfl).1

theorem Loop.batchStep_receiver (l : Loop) (tex : Texture) :
    (l.batchStep tex).1.Receiver =
      if (applyInOrder l.Mq.ops l.state tex).any (fun r => r.1) then
        l.Receiver.map fun rcv =>
          rcv.Update ((applyInOrder l.Mq.ops l.state tex).getLast?.getD (false, l.state, tex)).2.2
      else l.Receiver := by
  unfold Loop.batchStep
  by_cases hpos : 0 < l.Mq.ops.length
  · simp only [MessageQueue.Pull, gt_iff_lt, hpos, if_true, Loop.applyOps_eq, Bool.false_or]
    split
    · cases hr : l.Receiver <;> simp
    · rfl
  · have hnil : l.Mq.ops = [] := by
      cases h : l.Mq.ops with
      | nil => rfl
      | cons a as => rw [h] at hpos; simp at hpos
    simp [MessageQueue.Pull, hnil, applyInOrder]

theorem applyInOrder_any_false (ops : List Operation) (s : State) (t : Texture)
    (h : ∀ op ∈ ops, op.recordsOnly = true) :
    (applyInOrder ops s t).any (fun r => r.1) = false := by
  induction ops generalizing s t with
  | nil => rfl
  | cons op ops ih =>
    have hop : (op.Do s t).1 = false := by
      have := h op (List.mem_cons_self _ _)
      cases op <;> first | rfl | simp [Operation.recordsOnly] at this
    simp only [applyInOrder, List.any_cons, hop, Bool.false_or]
    exact ih _ _ fun o ho => h o (List.mem_cons_of_mem _ ho)

theorem applyInOrder_any_true (ops : List Operation) (s : State) (t : Texture) (op : Operation)
    (hmem : op ∈ ops) (h : ∀ s1 t1, (op.Do s1 t1).1 = true) :
    (applyInOrder ops s t).any (fun r => r.1) = true := by
  induction ops generalizing s t with
  | nil => cases hmem
  | cons o ops ih =>
    simp only [applyInOrder, List.any_cons, Bool.or_eq_true]
    rcases List.mem_cons.mp hmem with rfl | hm
    · exact Or.inl (h s t)
    · exact Or.inr (ih _ _ hm)

/-- C12: the `Do` of `WhiteBg`, `GreenBg`, `BgRect`, `Figure` and `Move` returns
false and the `Do` of `Reset` and `UpdateOp` returns true, for every state and
all arguments; so the batch step on a batch made of the first five kinds
calls no `Receiver.Update`, and on a batch that holds a `Reset` or an
`UpdateOp` it calls it once, when a receiver is present. -/
theorem C12_refresh_only_on_reset_and_update (s : State) (t : Texture) :
    (WhiteBg.Do s t).1 = false ∧ (GreenBg.Do s t).1 = false ∧
    (∀ X1 Y1 X2 Y2, (BgRect.Do X1 Y1 X2 Y2 s t).1 = false) ∧
    (∀ X Y, (Figure.Do X Y s t).1 = false) ∧ (∀ X Y, (Move.Do X Y s t).1 = false) ∧
    (Reset.Do s t).1 = true ∧ (UpdateOp.Do s t).1 = true ∧
    (∀ (l : Loop) (tex : Texture), (∀ op ∈ l.Mq.ops, op.recordsOnly = true) →
      (l.batchStep tex).1.Receiver = l.Receiver) ∧
    (∀ (l : Loop) (tex : Texture) (rcv : Receiver), l.Receiver = some rcv →
      Operation.Reset ∈ l.Mq.ops ∨ Operation.UpdateOp ∈ l.Mq.ops →
      ∃ t1, (l.batchStep tex).1.Receiver = some ⟨rcv.updates ++ [t1]⟩) := by
  refine ⟨rfl, rfl, fun _ _ _ _ => rfl, fun _ _ => rfl, fun _ _ => rfl, rfl, rfl, ?_, ?_⟩
  · intro l tex h
    rw [Loop.batchStep_receiver, applyInOrder_any_false _ _ _ h]
    rfl
  · intro l tex rcv hr h
    have hany : (applyInOrder l.Mq.ops l.state tex).any (fun r => r.1) = true := by
      rcases h with h | h
      · exact applyInOrder_any_true _ _ _ _ h fun _ _ => rfl
      · exact applyInOrder_any_true _ _ _ _ h fun _ _ => rfl
    rw [Loop.batchStep_receiver, hany, hr]
    exact ⟨_, rfl⟩

/-- Witness of C12: on a new 800 x 800 loop with a receiver, the batch
`[GreenBg, Figure, Move]` makes no call and the batch `[GreenBg, UpdateOp, Figure]`
makes one. -/
theorem C12_refresh_only_on_reset_and_update_witness :
    (((((NewLoop (some ⟨[]⟩) 800 800).Post .GreenBg).Post (.Figure F64.one F64.one)).Post
      (.Move F64.one F64.zero)).batchStep ⟨⟨800, 800⟩, [], false⟩).1.Receiver = some ⟨[]⟩ ∧
    (((((NewLoop (some ⟨[]⟩) 800 800).Post .GreenBg).Post .UpdateOp).Post
      (.Figure F64.one F64.one)).batchStep ⟨⟨800, 800⟩, [], false⟩).1.Receiver.map
        (fun r => r.updates.length) = some 1 := by
  refine ⟨(C12_refresh_only_on_reset_and_update (NewLoop none 0 0).state
      ⟨⟨0, 0⟩, [], false⟩).2.2.2.2.2.2.2.1 _ _ ?_, ?_⟩
  · intro op hop
    have hops : ((((NewLoop (some ⟨[]⟩) 800 800).Post .GreenBg).Post
        (.Figure F64.one F64.one)).Post (.Move F64.one F64.zero)).Mq.ops =
        [.GreenBg, .Figure F64.one F64.one, .Move F64.one F64.zero] := rfl
    rw [hops] at hop
    simp only [List.mem_cons, List.mem_singleton, List.mem_nil_iff, or_false] at hop
    rcases hop with rfl | rfl | rfl <;> rfl
  · obtain ⟨t1, h1⟩ := (C12_refresh_only_on_reset_and_update (NewLoop none 0 0).state
      ⟨⟨0, 0⟩, [], false⟩).2.2.2.2.2.2.2.2
      ((((NewLoop (some ⟨[]⟩) 800 800).Post .GreenBg).Post .UpdateOp).Post
        (.Figure F64.one F64.one)) ⟨⟨800, 800⟩, [], false⟩ ⟨[]⟩ rfl
      (Or.inr (by
        show Operation.UpdateOp ∈ [Operation.GreenBg, .UpdateOp, .Figure F64.one F64.one]
        simp))
    rw [h1]
    rfl

theorem fillClipped_eq (t : Texture) (c : Color) (rects : List Rectangle) :
    fillClipped t c rects =
      { t with fills := t.fills ++ (fillClipped ⟨t.size, [], false⟩ c rects).fills } := by
  induction rects generalizing t with
  | nil => simp [fillClipped]
  | cons r rects ih =>
    have hb : ∀ u : Texture, u.size = t.size → u.Bounds = t.Bounds := by
      intro u hu; simp [Texture.Bounds, hu]
    rw [fillClipped, fillClipped, hb ⟨t.size, [], false⟩ rfl]
    cases hE : (r.Intersect t.Bounds).Empty
    · simp only [Bool.not_false, if_true]
      rw [ih (t.Fill _ c), ih (Texture.Fill ⟨t.size, [], false⟩ _ c)]
      simp [Texture.Fill]
    · simp only [Bool.not_true, Bool.false_eq_true, if_false]
      rw [ih t, ih ⟨t.size, [], false⟩]

theorem drawFigure_eq (t : Texture) (cx cy : Int) (v : FigureVariant) (c : Color)
    (w h : Int) :
    drawFigure t cx cy v c w h = { t with fills := t.fills ++ glyphFills t.size cx cy v c w h } := by
  unfold glyphFills drawFigure
  cases figureRects cx cy v (figureBaseSize w h) with
  | none => simp
  | some rects =>
    dsimp only
    rw [fillClipped_eq t, fillClipped_eq ⟨t.size, [], false⟩]

theorem drawFigures_eq (s : State) (t : Texture) (figs : List FigureOp) :
    drawFigures s t figs =
      { t with fills := t.fills ++ (figs.map fun fig =>
          glyphFills t.size (add64 fig.X s.MoveOffset.X) (add64 fig.Y s.MoveOffset.Y) fig.Variant
            fig.Color s.WindowWidth s.WindowHeight).flatten } := by
  induction figs generalizing t with
  | nil => simp [drawFigures]
  | cons fig figs ih =>
    rw [drawFigures, ih, drawFigure_eq]
    simp

theorem drawBgRect_size (b : BgRectOp) (t : Texture) : (drawBgRect b t).size = t.size := by
  unfold drawBgRect
  simp only [Texture.Fill]
  split
  · split <;> split <;> rfl
  · split
    · rfl
    · split <;> rfl

/-- C19: `UpdateOp.Do` draws the figures after the background and the
rectangle, in the order of the figures list, each with centre
`(fig.X + MoveOffset.X, fig.Y + MoveOffset.Y)` in Go's `int` arithmetic, and
leaves the state as it is; `Move.Do` leaves the figures as they are. So after
two moves every figure of the state is drawn at its stored position shifted by
the offset the two moves have accumulated, the same for every figure; and a
figure added after a move is drawn with the same offset as the figures that
were there before the move. -/
theorem C19_figures_drawn_at_position_plus_offset (s : State) (t : Texture) :
    (UpdateOp.Do s t).2.2.fills =
      (UpdateOp.Do { s with Figures := [] } t).2.2.fills ++
        (s.Figures.map fun fig =>
          glyphFills t.size (add64 fig.X s.MoveOffset.X) (add64 fig.Y s.MoveOffset.Y)
            fig.Variant fig.Color s.WindowWidth s.WindowHeight).flatten ∧
    (UpdateOp.Do s t).2.1 = s ∧
    (∀ X Y, (Move.Do X Y s t).2.1.Figures = s.Figures) ∧
    (∀ X1 Y1 X2 Y2 t1 t2,
      (UpdateOp.Do (Move.Do X2 Y2 (Move.Do X1 Y1 s t1).2.1 t2).2.1 t).2.2.fills =
        (UpdateOp.Do { s with Figures := [] } t).2.2.fills ++
          (s.Figures.map fun fig =>
            glyphFills t.size
              (add64 fig.X
                (add64 (add64 s.MoveOffset.X (pixelDelta X1 Y1 s).X) (pixelDelta X2 Y2 s).X))
              (add64 fig.Y
                (add64 (add64 s.MoveOffset.Y (pixelDelta X1 Y1 s).Y) (pixelDelta X2 Y2 s).Y))
              fig.Variant fig.Color s.WindowWidth s.WindowHeight).flatten) ∧
    (∀ X1 Y1 X Y t1 t2, ∃ f : FigureOp,
      (Figure.Do X Y (Move.Do X1 Y1 s t1).2.1 t2).2.1.Figures = s.Figures ++ [f] ∧
      (UpdateOp.Do (Figure.Do X Y (Move.Do X1 Y1 s t1).2.1 t2).2.1 t).2.2.fills =
        (UpdateOp.Do { s with Figures := [] } t).2.2.fills ++
          ((s.Figures ++ [f]).map fun fig =>
            glyphFills t.size (add64 fig.X (add64 s.MoveOffset.X (pixelDelta X1 Y1 s).X))
              (add64 fig.Y (add64 s.MoveOffset.Y (pixelDelta X1 Y1 s).Y))
              fig.Variant fig.Color s.WindowWidth s.WindowHeight).flatten) := by
  have key : ∀ s1 : State, (UpdateOp.Do s1 t).2.2.fills =
      (UpdateOp.Do { s1 with Figures := [] } t).2.2.fills ++
        (s1.Figures.map fun fig =>
          glyphFills t.size (add64 fig.X s1.MoveOffset.X) (add64 fig.Y s1.MoveOffset.Y)
            fig.Variant fig.Color s1.WindowWidth s1.WindowHeight).flatten := by
    intro s1
    have hsize : (match s1.BgRect with
        | some b => drawBgRect b (t.Fill t.Bounds s1.BgColor)
        | none => t.Fill t.Bounds s1.BgColor).size = t.size := by
      cases s1.BgRect with
      | none => rfl
      | some b => rw [drawBgRect_size]; rfl
    simp only [UpdateOp.Do, drawFigures_eq, drawFigures, hsize]
  refine ⟨key s, rfl, fun _ _ => rfl, ?_, ?_⟩
  · intro X1 Y1 X2 Y2 t1 t2
    rw [key]
    rfl
  · intro X1 Y1 X Y t1 t2
    refine ⟨_, rfl, ?_⟩
    rw [key]
    rfl

set_option maxRecDepth 8000 in
/-- Witness of C19: a figure at (0.5, 0.5) on a new 800 x 800 loop, then the
moves (0.1, 0) and (0.1, -0.2), then a refresh: the glyph is drawn around the
centre (400 + 80 + 80, 400 + 0 - 160), and the stored figure is still at
(400, 400). -/
theorem C19_figures_drawn_at_position_plus_offset_witness :
    (UpdateOp.Do
      (Move.Do (F64.fin false 7205759403792794 (-56)) (F64.fin true 7205759403792794 (-55))
        (Move.Do (F64.fin false 7205759403792794 (-56)) (F64.fin false 0 0)
          (Figure.Do (F64.fin false 4503599627370496 (-53))
            (F64.fin false 4503599627370496 (-53)) (NewLoop none 800 800).state
            ⟨⟨800, 800⟩, [], false⟩).2.1 ⟨⟨800, 800⟩, [], false⟩).2.1
        ⟨⟨800, 800⟩, [], false⟩).2.1 ⟨⟨800, 800⟩, [], false⟩).2.2.fills =
      [(⟨⟨0, 0⟩, ⟨800, 800⟩⟩, Color.White), (⟨⟨440, 280⟩, ⟨680, 360⟩⟩, Color.Yellow),
        (⟨⟨520, 120⟩, ⟨600, 280⟩⟩, Color.Yellow)] ∧
    (Figure.Do (F64.fin false 4503599627370496 (-53)) (F64.fin false 4503599627370496 (-53))
      (NewLoop none 800 800).state ⟨⟨800, 800⟩, [], false⟩).2.1.Figures =
      [⟨400, 400, T180, Color.Yellow⟩] := by
  refine ⟨?_, by decide⟩
  rw [(C19_figures_drawn_at_position_plus_offset
    (Figure.Do (F64.fin false 4503599627370496 (-53)) (F64.fin false 4503599627370496 (-53))
      (NewLoop none 800 800).state ⟨⟨800, 800⟩, [], false⟩).2.1 ⟨⟨800, 800⟩, [], false⟩).2.2.2.1]
  decide

/-! ## Theorems: float64 arithmetic -/

theorem F64.log2Fuel_spec (fuel n : Nat) (h1 : 1 ≤ n) (hf : n ≤ fuel) :
    2 ^ F64.log2Fuel fuel n ≤ n ∧ n < 2 ^ (F64.log2Fuel fuel n + 1) := by
  induction fuel generalizing n with
  | zero => omega
  | succ fuel ih =>
    rw [F64.log2Fuel]
    split
    · rename_i h2
      have := ih (n / 2) (by omega) (by omega)
      constructor
      · rw [pow_succ]; omega
      · rw [pow_succ]; omega
    · have : n = 1 := by omega
      subst this
      simp

theorem F64.log2_spec (n : Nat) (h1 : 1 ≤ n) :
    2 ^ F64.log2 n ≤ n ∧ n < 2 ^ (F64.log2 n + 1) :=
  F64.log2Fuel_spec n n h1 (le_refl n)

theorem F64.geTwoPow_iff (n d : Nat) (k : Int) :
    F64.geTwoPow n d k = true ↔ (2 : ℚ) ^ k * d ≤ n := by
  unfold F64.geTwoPow
  by_cases hk : 0 ≤ k
  · rw [if_pos hk, decide_eq_true_eq]
    obtain ⟨j, rfl⟩ := Int.eq_ofNat_of_zero_le hk
    simp only [Int.toNat_ofNat, zpow_natCast]
    rw [show ((2 : ℚ) ^ j * d ≤ n) ↔ (((d * 2 ^ j : Nat) : ℚ) ≤ (n : ℚ)) by
      push_cast; rw [mul_comm]]
    exact Nat.cast_le.symm
  · rw [if_neg hk, decide_eq_true_eq]
    obtain ⟨j, hj⟩ : ∃ j : Nat, k = -(j : Int) := ⟨(-k).toNat, by omega⟩
    subst hj
    simp only [neg_neg, Int.toNat_ofNat, zpow_neg, zpow_natCast]
    have hpos : (0 : ℚ) < 2 ^ j := by positivity
    rw [show (((2 : ℚ) ^ j)⁻¹ * d ≤ n) ↔ ((d : ℚ) ≤ ((n * 2 ^ j : Nat) : ℚ)) by
      push_cast
      rw [inv_mul_le_iff₀ hpos, mul_comm]]
    exact Nat.cast_le.symm

theorem F64.roundHalfEven_ge (A N D : Nat) (hD : 0 < D) (h : A * D ≤ N) :
    A ≤ F64.roundHalfEven N D := by
  have hq : A ≤ N / D := (Nat.le_div_iff_mul_le hD).mpr h
  unfold F64.roundHalfEven
  dsimp only
  split
  · exact hq
  · split
    · omega
    · split <;> omega

theorem F64.roundHalfEven_le (A N D : Nat) (hD : 0 < D) (h : N ≤ A * D) :
    F64.roundHalfEven N D ≤ A := by
  have hdm := Nat.div_add_mod N D
  have hmod := Nat.mod_lt N hD
  unfold F64.roundHalfEven
  dsimp only
  have hq : N / D ≤ A := by
    by_contra hc
    have : (A + 1) * D ≤ N / D * D := Nat.mul_le_mul_right D (by omega)
    have h3 : N / D * D ≤ N := Nat.div_mul_le_self N D
    nlinarith
  have hlt : 0 < N % D → N / D < A := by
    intro hr
    by_contra hc
    have heq : N / D = A := by omega
    rw [heq] at hdm
    nlinarith
  split
  · exact hq
  · split
    · have := hlt (by omega); omega
    · split
      · exact hq
      · have := hlt (by omega); omega

theorem F64.mant_ge (A n d : Nat) (e : Int) (hd : 0 < d) (h : (A : ℚ) * (2 : ℚ) ^ e * d ≤ n) :
    A ≤ (if 0 ≤ e then F64.roundHalfEven n (d * 2 ^ e.toNat)
      else F64.roundHalfEven (n * 2 ^ (-e).toNat) d) := by
  by_cases he : 0 ≤ e
  · rw [if_pos he]
    obtain ⟨j, rfl⟩ := Int.eq_ofNat_of_zero_le he
    simp only [Int.toNat_ofNat, zpow_natCast] at h ⊢
    apply F64.roundHalfEven_ge _ _ _ (by positivity)
    have : ((A * (d * 2 ^ j) : Nat) : ℚ) ≤ (n : ℚ) := by push_cast; linarith
    exact_mod_cast this
  · rw [if_neg he]
    obtain ⟨j, hj⟩ : ∃ j : Nat, e = -(j : Int) := ⟨(-e).toNat, by omega⟩
    subst hj
    simp only [neg_neg, Int.toNat_ofNat, zpow_neg, zpow_natCast] at h ⊢
    apply F64.roundHalfEven_ge _ _ _ hd
    have hpos : (0 : ℚ) < 2 ^ j := by positivity
    have : ((A * d : Nat) : ℚ) ≤ ((n * 2 ^ j : Nat) : ℚ) := by
      push_cast
      have h2 : (A : ℚ) * d ≤ n * 2 ^ j := by
        have := mul_le_mul_of_nonneg_right h hpos.le
        calc (A : ℚ) * d = (A : ℚ) * ((2 : ℚ) ^ j)⁻¹ * d * 2 ^ j := by field_simp
          _ ≤ n * 2 ^ j := this
      exact h2
    exact_mod_cast this

theorem F64.mant_le (A n d : Nat) (e : Int) (hd : 0 < d) (h : (n : ℚ) ≤ (A : ℚ) * (2 : ℚ) ^ e * d) :
    (if 0 ≤ e then F64.roundHalfEven n (d * 2 ^ e.toNat)
      else F64.roundHalfEven (n * 2 ^ (-e).toNat) d) ≤ A := by
  by_cases he : 0 ≤ e
  · rw [if_pos he]
    obtain ⟨j, rfl⟩ := Int.eq_ofNat_of_zero_le he
    simp only [Int.toNat_ofNat, zpow_natCast] at h ⊢
    apply F64.roundHalfEven_le _ _ _ (by positivity)
    have : (n : ℚ) ≤ ((A * (d * 2 ^ j) : Nat) : ℚ) := by push_cast; linarith
    exact_mod_cast this
  · rw [if_neg he]
    obtain ⟨j, hj⟩ : ∃ j : Nat, e = -(j : Int) := ⟨(-e).toNat, by omega⟩
    subst hj
    simp only [neg_neg, Int.toNat_ofNat, zpow_neg, zpow_natCast] at h ⊢
    apply F64.roundHalfEven_le _ _ _ hd
    have hpos : (0 : ℚ) < 2 ^ j := by positivity
    have : ((n * 2 ^ j : Nat) : ℚ) ≤ ((A * d : Nat) : ℚ) := by
      push_cast
      have := mul_le_mul_of_nonneg_right h hpos.le
      calc (n : ℚ) * 2 ^ j ≤ (A : ℚ) * ((2 : ℚ) ^ j)⁻¹ * d * 2 ^ j := this
        _ = (A : ℚ) * d := by field_simp
    exact_mod_cast this

theorem F64.exponent_spec (n d : Nat) (hn : 1 ≤ n) (hd : 1 ≤ d) (k : Int)
    (hk : k = if F64.geTwoPow n d ((F64.log2 n : Int) - (F64.log2 d : Int)) then
      (F64.log2 n : Int) - (F64.log2 d : Int) else (F64.log2 n : Int) - (F64.log2 d : Int) - 1) :
    (2 : ℚ) ^ k * d ≤ n ∧ (n : ℚ) < (2 : ℚ) ^ (k + 1) * d := by
  obtain ⟨hn1, hn2⟩ := F64.log2_spec n hn
  obtain ⟨hd1, hd2⟩ := F64.log2_spec d hd
  have hn1q : (2 : ℚ) ^ (F64.log2 n : Int) ≤ n := by
    rw [zpow_natCast]; exact_mod_cast hn1
  have hn2q : (n : ℚ) < (2 : ℚ) ^ ((F64.log2 n : Int) + 1) := by
    rw [show ((F64.log2 n : Int) + 1) = ((F64.log2 n + 1 : Nat) : Int) by push_cast; ring,
      zpow_natCast]
    exact_mod_cast hn2
  have hd1q : (2 : ℚ) ^ (F64.log2 d : Int) ≤ d := by
    rw [zpow_natCast]; exact_mod_cast hd1
  have hd2q : (d : ℚ) < (2 : ℚ) ^ ((F64.log2 d : Int) + 1) := by
    rw [show ((F64.log2 d : Int) + 1) = ((F64.log2 d + 1 : Nat) : Int) by push_cast; ring,
      zpow_natCast]
    exact_mod_cast hd2
  have hdpos : (0 : ℚ) < d := by exact_mod_cast hd
  have h2 : (2 : ℚ) ≠ 0 := by norm_num
  -- n < 2^(k0+1) * d
  have hup : (n : ℚ) < (2 : ℚ) ^ ((F64.log2 n : Int) - (F64.log2 d : Int) + 1) * d := by
    calc (n : ℚ) < (2 : ℚ) ^ ((F64.log2 n : Int) + 1) := hn2q
      _ = (2 : ℚ) ^ ((F64.log2 n : Int) - (F64.log2 d : Int) + 1) * (2 : ℚ) ^ (F64.log2 d : Int) := by
        rw [← zpow_add₀ h2]; congr 1; ring
      _ ≤ (2 : ℚ) ^ ((F64.log2 n : Int) - (F64.log2 d : Int) + 1) * d :=
        mul_le_mul_of_nonneg_left hd1q (by positivity)
  -- 2^(k0-1) * d ≤ n
  have hlow : (2 : ℚ) ^ ((F64.log2 n : Int) - (F64.log2 d : Int) - 1) * d ≤ n := by
    calc (2 : ℚ) ^ ((F64.log2 n : Int) - (F64.log2 d : Int) - 1) * d
        ≤ (2 : ℚ) ^ ((F64.log2 n : Int) - (F64.log2 d : Int) - 1) *
            (2 : ℚ) ^ ((F64.log2 d : Int) + 1) :=
          mul_le_mul_of_nonneg_left hd2q.le (by positivity)
      _ = (2 : ℚ) ^ (F64.log2 n : Int) := by
        rw [← zpow_add₀ h2]; congr 1; ring
      _ ≤ n := hn1q
  by_cases hg : F64.geTwoPow n d ((F64.log2 n : Int) - (F64.log2 d : Int)) = true
  · rw [if_pos hg] at hk
    subst hk
    exact ⟨(F64.geTwoPow_iff _ _ _).mp hg, hup⟩
  · rw [if_neg hg] at hk
    subst hk
    refine ⟨hlow, ?_⟩
    rw [F64.geTwoPow_iff, not_le] at hg
    simpa using hg

theorem F64.cast_two_pow_toNat (a : Int) (h : 0 ≤ a) :
    ((2 ^ a.toNat : Nat) : ℚ) = (2 : ℚ) ^ a := by
  push_cast
  rw [← zpow_natCast, Int.toNat_of_nonneg h]

theorem F64.two_zpow_add (a b : Int) : (2 : ℚ) ^ (a + b) = (2 : ℚ) ^ a * (2 : ℚ) ^ b :=
  zpow_add₀ (by norm_num) a b

theorem F64.two_zpow_le {a b : Int} (h : a ≤ b) : (2 : ℚ) ^ a ≤ (2 : ℚ) ^ b :=
  zpow_le_zpow_right₀ (by norm_num) h

theorem F64.round_between (neg : Bool) (n d : Nat) (hn : 1 ≤ n) (hd : 1 ≤ d) (Ml Mh : Nat)
    (El Eh : Int) (hMl : Ml < 2 ^ 53) (hMh : Mh < 2 ^ 53) (hEl : -1074 ≤ El)
    (hEh : -1074 ≤ Eh) (hEh2 : Eh ≤ 971)
    (hlo : (Ml : ℚ) * (2 : ℚ) ^ El * d ≤ n) (hhi : (n : ℚ) ≤ (Mh : ℚ) * (2 : ℚ) ^ Eh * d) :
    ∃ m e, F64.round neg n d = F64.fin neg m e ∧ m < 2 ^ 53 ∧ -1074 ≤ e ∧ e ≤ 971 ∧
      (Ml : ℚ) * (2 : ℚ) ^ El ≤ (m : ℚ) * (2 : ℚ) ^ e ∧
      (m : ℚ) * (2 : ℚ) ^ e ≤ (Mh : ℚ) * (2 : ℚ) ^ Eh := by
  have hdq : (0 : ℚ) < d := by exact_mod_cast hd
  have hMlq : (Ml : ℚ) < (2 : ℚ) ^ (53 : Int) := by
    rw [show (53 : Int) = ((53 : Nat) : Int) by rfl, zpow_natCast]; exact_mod_cast hMl
  have hMhq : (Mh : ℚ) < (2 : ℚ) ^ (53 : Int) := by
    rw [show (53 : Int) = ((53 : Nat) : Int) by rfl, zpow_natCast]; exact_mod_cast hMh
  have hMl0 : (0 : ℚ) ≤ Ml := by positivity
  have hMh0 : (0 : ℚ) ≤ Mh := by positivity
  have pp : ∀ a : Int, (0 : ℚ) < (2 : ℚ) ^ a := fun a => by positivity
  unfold F64.round
  rw [if_neg (by omega)]
  dsimp only
  generalize hk : (if F64.geTwoPow n d ((F64.log2 n : Int) - (F64.log2 d : Int)) = true then
      (F64.log2 n : Int) - (F64.log2 d : Int)
    else (F64.log2 n : Int) - (F64.log2 d : Int) - 1) = k
  obtain ⟨hk1, hk2⟩ := F64.exponent_spec n d hn hd k hk.symm
  generalize he : max (k - 52) (-1074) = e
  have he1 : -1074 ≤ e := by rw [← he]; exact le_max_right _ _
  have he2 : k - 52 ≤ e := by rw [← he]; exact le_max_left _ _
  have he3 : e = k - 52 ∨ e = -1074 := by
    rw [← he]; rcases max_cases (k - 52) (-1074) with h | h <;> omega
  generalize hm : (if 0 ≤ e then F64.roundHalfEven n (d * 2 ^ e.toNat)
      else F64.roundHalfEven (n * 2 ^ (-e).toNat) d) = m
  -- m ≤ 2^53
  have hm53 : m ≤ 2 ^ 53 := by
    rw [← hm]
    apply F64.mant_le _ _ _ _ hd
    have h1 : (2 : ℚ) ^ (k + 1) ≤ (2 : ℚ) ^ (53 + e) := F64.two_zpow_le (by omega)
    have h2 : (2 : ℚ) ^ (53 + e) = (2 : ℚ) ^ (53 : Int) * (2 : ℚ) ^ e := F64.two_zpow_add _ _
    have h3 : (((2 ^ 53 : Nat) : ℚ)) = (2 : ℚ) ^ (53 : Int) := by norm_num
    rw [h3, ← h2]
    exact le_trans hk2.le (mul_le_mul_of_nonneg_right h1 hdq.le)
  -- when e = k - 52, m ≥ 2^52
  have hm52 : e = k - 52 → 2 ^ 52 ≤ m := by
    intro hek
    rw [← hm]
    apply F64.mant_ge _ _ _ _ hd
    have h3 : (((2 ^ 52 : Nat) : ℚ)) = (2 : ℚ) ^ (52 : Int) := by norm_num
    rw [h3, ← F64.two_zpow_add, show (52 : Int) + e = k by omega]
    exact hk1
  have hmq52 : e = k - 52 → (2 : ℚ) ^ (52 + e) ≤ (m : ℚ) * (2 : ℚ) ^ e := by
    intro hek
    have h1 : ((2 ^ 52 : Nat) : ℚ) ≤ (m : ℚ) := by exact_mod_cast hm52 hek
    rw [F64.two_zpow_add]
    have h3 : (((2 ^ 52 : Nat) : ℚ)) = (2 : ℚ) ^ (52 : Int) := by norm_num
    rw [← h3]
    exact mul_le_mul_of_nonneg_right h1 (pp e).le
  -- upper bound
  have hhi' : (m : ℚ) * (2 : ℚ) ^ e ≤ (Mh : ℚ) * (2 : ℚ) ^ Eh := by
    by_cases hc : e ≤ Eh
    · have hA : m ≤ Mh * 2 ^ (Eh - e).toNat := by
        rw [← hm]
        apply F64.mant_le _ _ _ _ hd
        rw [Nat.cast_mul, F64.cast_two_pow_toNat _ (by omega), mul_assoc (Mh : ℚ),
          ← F64.two_zpow_add, show Eh - e + e = Eh by ring]
        exact hhi
      have hAq : (m : ℚ) ≤ (Mh : ℚ) * (2 : ℚ) ^ (Eh - e) := by
        have : (m : ℚ) ≤ ((Mh * 2 ^ (Eh - e).toNat : Nat) : ℚ) := by exact_mod_cast hA
        rwa [Nat.cast_mul, F64.cast_two_pow_toNat _ (by omega)] at this
      calc (m : ℚ) * (2 : ℚ) ^ e ≤ (Mh : ℚ) * (2 : ℚ) ^ (Eh - e) * (2 : ℚ) ^ e :=
            mul_le_mul_of_nonneg_right hAq (pp e).le
        _ = (Mh : ℚ) * (2 : ℚ) ^ Eh := by
          rw [mul_assoc, ← F64.two_zpow_add, show Eh - e + e = Eh by ring]
    · exfalso
      have hek : e = k - 52 := by omega
      have h1 : (2 : ℚ) ^ (53 + Eh) ≤ (2 : ℚ) ^ k := F64.two_zpow_le (by omega)
      have h2 : (Mh : ℚ) * (2 : ℚ) ^ Eh < (2 : ℚ) ^ (53 + Eh) := by
        rw [F64.two_zpow_add]
        exact mul_lt_mul_of_pos_right hMhq (pp Eh)
      have h3 : (Mh : ℚ) * (2 : ℚ) ^ Eh * d < (2 : ℚ) ^ k * d :=
        mul_lt_mul_of_pos_right (lt_of_lt_of_le h2 h1) hdq
      linarith
  -- lower bound
  have hlo' : (Ml : ℚ) * (2 : ℚ) ^ El ≤ (m : ℚ) * (2 : ℚ) ^ e := by
    by_cases hc : e ≤ El
    · have hA : Ml * 2 ^ (El - e).toNat ≤ m := by
        rw [← hm]
        apply F64.mant_ge _ _ _ _ hd
        rw [Nat.cast_mul, F64.cast_two_pow_toNat _ (by omega), mul_assoc (Ml : ℚ),
          ← F64.two_zpow_add, show El - e + e = El by ring]
        exact hlo
      have hAq : (Ml : ℚ) * (2 : ℚ) ^ (El - e) ≤ (m : ℚ) := by
        have : ((Ml * 2 ^ (El - e).toNat : Nat) : ℚ) ≤ (m : ℚ) := by exact_mod_cast hA
        rwa [Nat.cast_mul, F64.cast_two_pow_toNat _ (by omega)] at this
      calc (Ml : ℚ) * (2 : ℚ) ^ El = (Ml : ℚ) * (2 : ℚ) ^ (El - e) * (2 : ℚ) ^ e := by
            rw [mul_assoc, ← F64.two_zpow_add, show El - e + e = El by ring]
        _ ≤ (m : ℚ) * (2 : ℚ) ^ e := mul_le_mul_of_nonneg_right hAq (pp e).le
    · have hek : e = k - 52 := by omega
      have h1 : (2 : ℚ) ^ (53 + El) ≤ (2 : ℚ) ^ (52 + e) := F64.two_zpow_le (by omega)
      have h2 : (Ml : ℚ) * (2 : ℚ) ^ El < (2 : ℚ) ^ (53 + El) := by
        rw [F64.two_zpow_add]
        exact mul_lt_mul_of_pos_right hMlq (pp El)
      linarith [hmq52 hek]
  -- the value after the carry
  have hval : ((if m = 2 ^ 53 then 2 ^ 52 else m : Nat) : ℚ) *
      (2 : ℚ) ^ (if m = 2 ^ 53 then e + 1 else e) = (m : ℚ) * (2 : ℚ) ^ e := by
    by_cases hc : m = 2 ^ 53
    · rw [if_pos hc, if_pos hc, hc, F64.two_zpow_add]
      norm_num
      ring
    · rw [if_neg hc, if_neg hc]
  have hm1 : (if m = 2 ^ 53 then 2 ^ 52 else m : Nat) < 2 ^ 53 := by
    by_cases hc : m = 2 ^ 53
    · rw [if_pos hc]; norm_num
    · rw [if_neg hc]; omega
  have he1' : -1074 ≤ (if m = 2 ^ 53 then e + 1 else e) := by
    split <;> omega
  -- no overflow
  have hno : ¬ 971 < (if m = 2 ^ 53 then e + 1 else e) := by
    intro hov
    have hek : e = k - 52 := by
      rcases he3 with h | h
      · exact h
      · exfalso; split at hov <;> omega
    have h1 : (2 : ℚ) ^ (53 + Eh) ≤ (2 : ℚ) ^ (52 + (if m = 2 ^ 53 then e + 1 else e)) :=
      F64.two_zpow_le (by omega)
    have h2 : (Mh : ℚ) * (2 : ℚ) ^ Eh < (2 : ℚ) ^ (53 + Eh) := by
      rw [F64.two_zpow_add]
      exact mul_lt_mul_of_pos_right hMhq (pp Eh)
    have h3 : (2 : ℚ) ^ (52 + (if m = 2 ^ 53 then e + 1 else e)) ≤
        ((if m = 2 ^ 53 then 2 ^ 52 else m : Nat) : ℚ) *
          (2 : ℚ) ^ (if m = 2 ^ 53 then e + 1 else e) := by
      have h4 : ((2 ^ 52 : Nat) : ℚ) ≤ ((if m = 2 ^ 53 then 2 ^ 52 else m : Nat) : ℚ) := by
        have := hm52 hek
        have : 2 ^ 52 ≤ (if m = 2 ^ 53 then 2 ^ 52 else m : Nat) := by
          split <;> omega
        exact_mod_cast this
      rw [F64.two_zpow_add]
      have h5 : (((2 ^ 52 : Nat) : ℚ)) = (2 : ℚ) ^ (52 : Int) := by norm_num
      rw [← h5]
      exact mul_le_mul_of_nonneg_right h4 (pp _).le
    rw [hval] at h3
    linarith
  rw [if_neg hno]
  by_cases hz : (if m = 2 ^ 53 then 2 ^ 52 else m : Nat) = 0
  · rw [if_pos hz]
    have hm0 : m = 0 := by
      by_cases hc : m = 2 ^ 53
      · rw [if_pos hc] at hz; norm_num at hz
      · rw [if_neg hc] at hz; exact hz
    subst hm0
    refine ⟨0, 0, rfl, by norm_num, by norm_num, by norm_num, ?_, ?_⟩
    · simpa using hlo'
    · simpa using hhi'
  · rw [if_neg hz]
    refine ⟨_, _, rfl, hm1, he1', by omega, ?_, ?_⟩
    · rw [hval]; exact hlo'
    · rw [hval]; exact hhi'

theorem F64.magnitude_eq_floor (m : Nat) (e : Int) :
    (if 0 ≤ e then (m : Int) * 2 ^ e.toNat else (m : Int) / 2 ^ (-e).toNat) =
      ⌊(m : ℚ) * (2 : ℚ) ^ e⌋ := by
  by_cases he : 0 ≤ e
  · rw [if_pos he]
    have : (m : ℚ) * (2 : ℚ) ^ e = (((m : Int) * 2 ^ e.toNat : Int) : ℚ) := by
      push_cast
      rw [← zpow_natCast, Int.toNat_of_nonneg he]
    rw [this, Int.floor_intCast]
  · rw [if_neg he]
    have hneg : 0 ≤ -e := by omega
    have : (m : ℚ) * (2 : ℚ) ^ e = ((m : Int) : ℚ) / ((2 ^ (-e).toNat : Nat) : ℚ) := by
      rw [F64.cast_two_pow_toNat _ hneg, zpow_neg, div_eq_mul_inv, inv_inv]
      push_cast
      ring
    rw [this, Rat.floor_intCast_div_natCast]
    push_cast
    rfl

theorem F64.toInt_pos (m : Nat) (e : Int) (h : (m : ℚ) * (2 : ℚ) ^ e < 2 ^ 63) :
    (F64.fin false m e).toInt = ⌊(m : ℚ) * (2 : ℚ) ^ e⌋ := by
  have h0 : (0 : ℚ) ≤ (m : ℚ) * (2 : ℚ) ^ e := by positivity
  have hf0 : 0 ≤ ⌊(m : ℚ) * (2 : ℚ) ^ e⌋ := Int.floor_nonneg.mpr h0
  have hf1 : ⌊(m : ℚ) * (2 : ℚ) ^ e⌋ < 2 ^ 63 := by
    rw [Int.floor_lt]
    exact_mod_cast h
  unfold F64.toInt
  simp only [F64.magnitude_eq_floor, Bool.false_eq_true, if_false]
  rw [if_pos ⟨by omega, hf1⟩]

theorem F64.toInt_neg (m : Nat) (e : Int) (h : (m : ℚ) * (2 : ℚ) ^ e < 2 ^ 63) :
    (F64.fin true m e).toInt = -⌊(m : ℚ) * (2 : ℚ) ^ e⌋ := by
  have h0 : (0 : ℚ) ≤ (m : ℚ) * (2 : ℚ) ^ e := by positivity
  have hf0 : 0 ≤ ⌊(m : ℚ) * (2 : ℚ) ^ e⌋ := Int.floor_nonneg.mpr h0
  have hf1 : ⌊(m : ℚ) * (2 : ℚ) ^ e⌋ < 2 ^ 63 := by
    rw [Int.floor_lt]
    exact_mod_cast h
  unfold F64.toInt
  simp only [F64.magnitude_eq_floor, if_true]
  rw [if_pos ⟨by omega, by omega⟩]

theorem F64.mul_fin_zero (n1 n2 : Bool) (m1 m2 : Nat) (e1 e2 : Int) (h : m1 * m2 = 0) :
    F64.mul (F64.fin n1 m1 e1) (F64.fin n2 m2 e2) = F64.fin (xor n1 n2) 0 0 := by
  simp only [F64.mul]
  split <;> simp [h, F64.round]

theorem F64.mul_fin_between (n1 n2 : Bool) (m1 m2 : Nat) (e1 e2 : Int) (h : m1 * m2 ≠ 0)
    (Ml Mh : Nat) (El Eh : Int) (hMl : Ml < 2 ^ 53) (hMh : Mh < 2 ^ 53) (hEl : -1074 ≤ El)
    (hEh : -1074 ≤ Eh) (hEh2 : Eh ≤ 971)
    (hlo : (Ml : ℚ) * (2 : ℚ) ^ El ≤ (m1 : ℚ) * m2 * (2 : ℚ) ^ (e1 + e2))
    (hhi : (m1 : ℚ) * m2 * (2 : ℚ) ^ (e1 + e2) ≤ (Mh : ℚ) * (2 : ℚ) ^ Eh) :
    ∃ m e, F64.mul (F64.fin n1 m1 e1) (F64.fin n2 m2 e2) = F64.fin (xor n1 n2) m e ∧
      m < 2 ^ 53 ∧ -1074 ≤ e ∧ e ≤ 971 ∧
      (Ml : ℚ) * (2 : ℚ) ^ El ≤ (m : ℚ) * (2 : ℚ) ^ e ∧
      (m : ℚ) * (2 : ℚ) ^ e ≤ (Mh : ℚ) * (2 : ℚ) ^ Eh := by
  have hpos : 1 ≤ m1 * m2 := Nat.one_le_iff_ne_zero.mpr h
  simp only [F64.mul]
  by_cases he : 0 ≤ e1 + e2
  · rw [if_pos he]
    have hcast : ((m1 * m2 * 2 ^ (e1 + e2).toNat : Nat) : ℚ) =
        (m1 : ℚ) * m2 * (2 : ℚ) ^ (e1 + e2) := by
      rw [Nat.cast_mul, F64.cast_two_pow_toNat _ he]; push_cast; ring
    apply F64.round_between _ _ 1 (Nat.mul_pos hpos (Nat.pow_pos (by norm_num))) (le_refl 1)
      Ml Mh El Eh hMl hMh hEl hEh hEh2
    · rw [hcast]; simpa using hlo
    · rw [hcast]; simpa using hhi
  · rw [if_neg he]
    have hneg : 0 ≤ -(e1 + e2) := by omega
    have hcast : (m1 : ℚ) * m2 * (2 : ℚ) ^ (e1 + e2) * ((2 ^ (-(e1 + e2)).toNat : Nat) : ℚ) =
        ((m1 * m2 : Nat) : ℚ) := by
      rw [F64.cast_two_pow_toNat _ hneg, mul_assoc, ← F64.two_zpow_add,
        show e1 + e2 + -(e1 + e2) = 0 by ring]
      simp
    have hdpos : (0 : ℚ) < ((2 ^ (-(e1 + e2)).toNat : Nat) : ℚ) := by positivity
    apply F64.round_between _ _ _ hpos (Nat.pow_pos (by norm_num)) Ml Mh El Eh hMl hMh hEl hEh
      hEh2
    · rw [← hcast]; exact mul_le_mul_of_nonneg_right hlo hdpos.le
    · rw [← hcast]; exact mul_le_mul_of_nonneg_right hhi hdpos.le

theorem F64.ofInt_exact (W : Int) (hW : W.natAbs ≤ 2 ^ 53) :
    ∃ m e, F64.ofInt W = F64.fin (decide (W < 0)) m e ∧ m < 2 ^ 53 ∧ -1074 ≤ e ∧ e ≤ 971 ∧
      (m : ℚ) * (2 : ℚ) ^ e = (W.natAbs : ℚ) := by
  unfold F64.ofInt
  by_cases h0 : W.natAbs = 0
  · refine ⟨0, 0, by simp [F64.round, h0], by norm_num, by norm_num, by norm_num, by simp [h0]⟩
  · have h1 : 1 ≤ W.natAbs := Nat.one_le_iff_ne_zero.mpr h0
    by_cases htop : W.natAbs = 2 ^ 53
    · obtain ⟨m, e, hr, hm, he1, he2, hlo, hhi⟩ := F64.round_between (decide (W < 0)) W.natAbs 1
        h1 (le_refl 1) (2 ^ 52) (2 ^ 52) 1 1 (by norm_num) (by norm_num) (by norm_num)
        (by norm_num) (by norm_num) (by rw [htop]; norm_num) (by rw [htop]; norm_num)
      refine ⟨m, e, hr, hm, he1, he2, ?_⟩
      rw [htop]
      have : ((2 ^ 52 : Nat) : ℚ) * (2 : ℚ) ^ (1 : Int) = ((2 ^ 53 : Nat) : ℚ) := by norm_num
      rw [this] at hlo hhi
      exact le_antisymm hhi hlo
    · obtain ⟨m, e, hr, hm, he1, he2, hlo, hhi⟩ := F64.round_between (decide (W < 0)) W.natAbs 1
        h1 (le_refl 1) W.natAbs W.natAbs 0 0 (by omega) (by omega) (by norm_num)
        (by norm_num) (by norm_num) (by simp) (by simp)
      refine ⟨m, e, hr, hm, he1, he2, ?_⟩
      simp only [zpow_zero, mul_one] at hlo hhi
      exact le_antisymm hhi hlo

theorem F64.floor_half (a : Nat) : ⌊(a : ℚ) / 2⌋ = ((a / 2 : Nat) : Int) := by
  rw [show (a : ℚ) / 2 = ((a : Int) : ℚ) / ((2 : Nat) : ℚ) by push_cast; rfl,
    Rat.floor_intCast_div_natCast]
  push_cast
  rfl

theorem F64.half_pixel (W : Int) (hW : W.natAbs ≤ 2 ^ 53) :
    (F64.mul (F64.round false 5 10) (F64.ofInt W)).toInt = Int.tdiv W 2 := by
  have hhalf : F64.round false 5 10 = F64.fin false (2 ^ 52) (-53) := by decide
  obtain ⟨m, e, hof, hm, he1, he2, hval⟩ := F64.ofInt_exact W hW
  rw [hhalf, hof]
  have htd : Int.tdiv W 2 = if W < 0 then -((W.natAbs / 2 : Nat) : Int) else ((W.natAbs / 2 : Nat) : Int) := by
    rcases Int.natAbs_eq W with h | h
    · have hn : ¬ W < 0 := by omega
      rw [if_neg hn]
      rw [Int.tdiv_eq_ediv (by omega) (by norm_num)]
      omega
    · by_cases hn : W < 0
      · rw [if_pos hn]
        have : W = -((W.natAbs : Nat) : Int) := h
        rw [this, Int.neg_tdiv, Int.tdiv_eq_ediv (by omega) (by norm_num)]
        simp
      · rw [if_neg hn]
        rw [Int.tdiv_eq_ediv (by omega) (by norm_num)]
        omega
  have hfloor : ⌊(W.natAbs : ℚ) / 2⌋ = ((W.natAbs / 2 : Nat) : Int) := F64.floor_half _
  by_cases hz : 2 ^ 52 * m = 0
  · have hm0 : m = 0 := by
      rcases Nat.mul_eq_zero.mp hz with h | h
      · norm_num at h
      · exact h
    rw [F64.mul_fin_zero _ _ _ _ _ _ hz]
    have hW0 : W.natAbs = 0 := by
      rw [hm0] at hval
      simp at hval
      exact_mod_cast hval.symm
    have : W = 0 := Int.natAbs_eq_zero.mp hW0
    subst this
    simp [F64.toInt]
  · -- the exact product is |W| / 2
    have hprod : ((2 ^ 52 : Nat) : ℚ) * m * (2 : ℚ) ^ (-53 + e) = (W.natAbs : ℚ) / 2 := by
      rw [F64.two_zpow_add, ← hval]
      norm_num
      ring
    have hrep : ∃ (M : Nat) (E : Int), M < 2 ^ 53 ∧ -1074 ≤ E ∧ E ≤ 971 ∧
        (M : ℚ) * (2 : ℚ) ^ E = (W.natAbs : ℚ) / 2 := by
      by_cases htop : W.natAbs = 2 ^ 53
      · exact ⟨2 ^ 52, 0, by norm_num, by norm_num, by norm_num, by rw [htop]; norm_num⟩
      · refine ⟨W.natAbs, -1, by omega, by norm_num, by norm_num, ?_⟩
        rw [zpow_neg, zpow_one]; ring
    obtain ⟨M, E, hM, hE1, hE2, hME⟩ := hrep
    obtain ⟨m1, e1, hmul, hm1, _, _, hlo, hhi⟩ := F64.mul_fin_between false (decide (W < 0))
      (2 ^ 52) m (-53) e hz M M E E hM hM hE1 hE1 hE2 (by rw [hprod, hME]) (by rw [hprod, hME])
    have hv : (m1 : ℚ) * (2 : ℚ) ^ e1 = (W.natAbs : ℚ) / 2 := by
      rw [← hME]; exact le_antisymm hhi hlo
    have hlt : (m1 : ℚ) * (2 : ℚ) ^ e1 < 2 ^ 63 := by
      rw [hv]
      have h2 : (W.natAbs : ℚ) ≤ 9007199254740992 := by exact_mod_cast hW
      norm_num
      linarith
    rw [hmul, htd]
    by_cases hn : W < 0
    · simp only [hn, decide_True, Bool.false_xor, if_true]
      rw [F64.toInt_neg _ _ hlt, hv, hfloor]
    · simp only [hn, decide_False, Bool.false_xor, if_false]
      rw [F64.toInt_pos _ _ hlt, hv, hfloor]

theorem F64.scaled_cast (neg : Bool) (m : Nat) (e k : Int) (h : k ≤ e) :
    ((F64.scaled neg m e k : Int) : ℚ) = F64.toRat (F64.fin neg m e) * (2 : ℚ) ^ (-k) := by
  have hp : (((2 : Int) ^ (e - k).toNat : Int) : ℚ) = (2 : ℚ) ^ e * (2 : ℚ) ^ (-k) := by
    rw [← F64.two_zpow_add, ← F64.cast_two_pow_toNat _ (by omega : 0 ≤ e + -k)]
    push_cast
    congr 2
  unfold F64.scaled F64.toRat
  cases neg
  · simp only [Bool.false_eq_true, if_false]
    push_cast at hp ⊢
    rw [hp]; ring
  · simp only [if_true]
    push_cast at hp ⊢
    rw [hp]; ring

theorem F64.le_fin_iff (n1 n2 : Bool) (m1 m2 : Nat) (e1 e2 : Int) :
    F64.le (F64.fin n1 m1 e1) (F64.fin n2 m2 e2) = true ↔
      F64.toRat (F64.fin n1 m1 e1) ≤ F64.toRat (F64.fin n2 m2 e2) := by
  simp only [F64.le, decide_eq_true_eq]
  have hpos : (0 : ℚ) < (2 : ℚ) ^ (-(Min.min e1 e2)) := by positivity
  rw [← Int.cast_le (R := ℚ), F64.scaled_cast _ _ _ _ (min_le_left _ _),
    F64.scaled_cast _ _ _ _ (min_le_right _ _)]
  exact mul_le_mul_right hpos

theorem F64.unit_cases (u : F64) (h0 : F64.le F64.zero u = true) (h1 : F64.le u F64.one = true) :
    ∃ n m e, u = F64.fin n m e ∧ (n = false ∨ m = 0) ∧ (m : ℚ) * (2 : ℚ) ^ e ≤ 1 := by
  cases u with
  | nan => simp [F64.le, F64.zero] at h0
  | inf neg =>
    cases neg
    · simp [F64.le, F64.one] at h1
    · simp [F64.le, F64.zero] at h0
  | fin n m e =>
    rw [F64.zero, F64.le_fin_iff] at h0
    rw [F64.one, F64.le_fin_iff] at h1
    have hp : (0 : ℚ) < (2 : ℚ) ^ e := by positivity
    have hone : F64.toRat (F64.fin false (2 ^ 52) (-52)) = 1 := by
      simp only [F64.toRat, Bool.false_eq_true, if_false, one_mul]
      rw [zpow_neg]
      norm_num
    rw [hone] at h1
    simp only [F64.toRat, Bool.false_eq_true, if_false, Nat.cast_zero, mul_zero, zero_mul] at h0
    cases n
    · refine ⟨false, m, e, rfl, Or.inl rfl, ?_⟩
      simpa [F64.toRat] using h1
    · refine ⟨true, m, e, rfl, Or.inr ?_, ?_⟩
      · simp only [if_true] at h0
        have hm : (m : ℚ) * (2 : ℚ) ^ e ≤ 0 := by linarith
        have hm0 : (0 : ℚ) ≤ (m : ℚ) := by positivity
        have : (m : ℚ) ≤ 0 := by
          by_contra hc
          push_neg at hc
          have := mul_pos hc hp
          linarith
        have : (m : ℚ) = 0 := le_antisymm this hm0
        exact_mod_cast this
      · simp only [if_true] at h0
        have hm : (m : ℚ) * (2 : ℚ) ^ e ≤ 0 := by linarith
        linarith

theorem F64.ofInt_bound (W : Int) (h0 : 0 ≤ W) (h1 : W ≤ 2 ^ 63 - 1024) :
    ∃ m e, F64.ofInt W = F64.fin false m e ∧ m < 2 ^ 53 ∧ -1074 ≤ e ∧ e ≤ 971 ∧
      (m : ℚ) * (2 : ℚ) ^ e ≤ 2 ^ 63 - 1024 := by
  have hneg : decide (W < 0) = false := by simp; omega
  unfold F64.ofInt
  rw [hneg]
  by_cases hz : W.natAbs = 0
  · refine ⟨0, 0, by simp [F64.round, hz], by norm_num, by norm_num, by norm_num, by norm_num⟩
  · have hpos : 1 ≤ W.natAbs := Nat.one_le_iff_ne_zero.mpr hz
    have hle : W.natAbs ≤ 2 ^ 63 - 1024 := by omega
    obtain ⟨m, e, hr, hm, he1, he2, _, hhi⟩ := F64.round_between false W.natAbs 1 hpos
      (le_refl 1) 0 (2 ^ 53 - 1) 0 10 (by norm_num) (by norm_num) (by norm_num) (by norm_num)
      (by norm_num) (by simp) (by
        have : (W.natAbs : ℚ) ≤ ((2 ^ 63 - 1024 : Nat) : ℚ) := by exact_mod_cast hle
        norm_num at this ⊢
        linarith)
    refine ⟨m, e, hr, hm, he1, he2, ?_⟩
    norm_num at hhi ⊢
    linarith

/-- The pixel that `int(u * float64(W))` gives for a coordinate in [0,1] and a
size from 0 to 2^63 - 1024 is the float64 product rounded down. -/
theorem F64.pixel_floor (u : F64) (W : Int) (h0 : F64.le F64.zero u = true)
    (h1 : F64.le u F64.one = true) (hW0 : 0 ≤ W) (hW1 : W ≤ 2 ^ 63 - 1024) :
    (F64.mul u (F64.ofInt W)).toInt = ⌊F64.toRat (F64.mul u (F64.ofInt W))⌋ ∧
    0 ≤ F64.toRat (F64.mul u (F64.ofInt W)) := by
  obtain ⟨n, m, e, rfl, hn, hu⟩ := F64.unit_cases u h0 h1
  obtain ⟨mw, ew, hof, hmw, hew1, hew2, hwv⟩ := F64.ofInt_bound W hW0 hW1
  rw [hof]
  by_cases hz : m * mw = 0
  · rw [F64.mul_fin_zero _ _ _ _ _ _ hz]
    cases n <;> simp [F64.toInt, F64.toRat]
  · have hm0 : m ≠ 0 := fun h => hz (by rw [h, Nat.zero_mul])
    have hnf : n = false := by
      rcases hn with h | h
      · exact h
      · exact absurd h hm0
    subst hnf
    have hprod : (m : ℚ) * mw * (2 : ℚ) ^ (e + ew) ≤ (mw : ℚ) * (2 : ℚ) ^ ew := by
      rw [F64.two_zpow_add]
      have hw0 : (0 : ℚ) ≤ (mw : ℚ) * (2 : ℚ) ^ ew := by positivity
      calc (m : ℚ) * mw * ((2 : ℚ) ^ e * (2 : ℚ) ^ ew)
          = ((m : ℚ) * (2 : ℚ) ^ e) * ((mw : ℚ) * (2 : ℚ) ^ ew) := by ring
        _ ≤ 1 * ((mw : ℚ) * (2 : ℚ) ^ ew) := mul_le_mul_of_nonneg_right hu hw0
        _ = (mw : ℚ) * (2 : ℚ) ^ ew := one_mul _
    obtain ⟨m1, e1, hmul, _, _, _, _, hhi⟩ := F64.mul_fin_between false false m mw e ew hz 0 mw 0
      ew (by norm_num) hmw (by norm_num) hew1 hew2 (by simp; positivity) hprod
    rw [hmul]
    have hlt : (m1 : ℚ) * (2 : ℚ) ^ e1 < 2 ^ 63 := by
      have : (m1 : ℚ) * (2 : ℚ) ^ e1 ≤ 2 ^ 63 - 1024 := le_trans hhi hwv
      linarith
    constructor
    · simp only [Bool.xor_false]
      rw [F64.toInt_pos _ _ hlt]
      simp [F64.toRat]
    · simp only [Bool.xor_false, F64.toRat, Bool.false_eq_true, if_false, one_mul]
      positivity

/-! ## Theorems: starting the loop -/

set_option maxRecDepth 8000 in
/-- C20, a window so wide that `float64` does not hold its width: for
`NewLoop(r, 2^53 + 3, 800)` and a screen that allocates every texture, `Start`
puts the default figure at x = 2^52 + 2, which is not `(2^53 + 3) / 2`. -/
theorem C20_default_figure_off_centre :
    ((NewLoop none 9007199254740995 800).Start fun p => some ⟨p, [], false⟩).map
        (fun r => r.1.state.Figures) =
      some [⟨4503599627370498, 400, T180, Color.Yellow⟩] ∧
    Int.tdiv 9007199254740995 2 = 4503599627370497 ∧
    F64.ofInt 9007199254740995 = F64.fin false 4503599627370498 1 := by
  decide

/-- C20, for window sizes that `float64` holds exactly (`|W|, |H| ≤ 2^53`): when
the texture is allocated, `Start` returns, before the goroutine has taken a
step, with a state that differs from the one of `NewLoop` only by its figures,
which are the single yellow T180 figure at `(W / 2, H / 2)` (integer
division), with the texture filled with the background colour, and with
exactly one `UpdateOp` in the queue and its signal pending; the first pass of
the goroutine then calls `Receiver.Update` once, if there is a receiver. -/
theorem C20_start_seeds_figure_and_refresh (r : Option Receiver) (W H : Int)
    (newTexture : Point → Option Texture) (tex : Texture)
    (hW : W.natAbs ≤ 2 ^ 53) (hH : H.natAbs ≤ 2 ^ 53) (halloc : newTexture ⟨W, H⟩ = some tex) :
    ∃ l1 t1, (NewLoop r W H).Start newTexture = some (l1, t1) ∧
      l1.state = { (NewLoop r W H).state with
        Figures := [⟨Int.tdiv W 2, Int.tdiv H 2, T180, Color.Yellow⟩] } ∧
      (NewLoop r W H).state = ⟨Color.White, none, [], ⟨0, 0⟩, W, H⟩ ∧
      l1.Mq.ops = [.UpdateOp] ∧ l1.Mq.ch.len = 1 ∧ l1.Receiver = r ∧
      t1 = tex.Fill tex.Bounds Color.White ∧
      (∀ rcv, r = some rcv → ∃ l2 t2, l1.wake t1 = some (l2, t2) ∧
        l2.Receiver = some ⟨rcv.updates ++ [t2]⟩ ∧ l2.Mq.ops = [] ∧ l2.state = l1.state) := by
  have hx := F64.half_pixel W hW
  have hy := F64.half_pixel H hH
  have hstart : (NewLoop r W H).Start newTexture =
      some (Loop.Post { NewLoop r W H with
          state := (Figure.Do (F64.round false 5 10) (F64.round false 5 10) (NewLoop r W H).state
            (tex.Fill tex.Bounds Color.White)).2.1 } .UpdateOp,
        tex.Fill tex.Bounds Color.White) := by
    have h : newTexture ⟨(NewLoop r W H).state.WindowWidth, (NewLoop r W H).state.WindowHeight⟩ =
        some tex := halloc
    simp only [Loop.Start, h]
    rfl
  refine ⟨_, _, hstart, ?_, rfl, rfl, rfl, rfl, rfl, ?_⟩
  · show (Figure.Do (F64.round false 5 10) (F64.round false 5 10) (NewLoop r W H).state
      (tex.Fill tex.Bounds Color.White)).2.1 = _
    simp only [Figure.Do, NewLoop, hx, hy, List.nil_append]
  · intro rcv hr
    subst hr
    exact ⟨_, _, rfl, rfl, rfl, rfl⟩

/-- Witness of C20: `NewLoop(r, 800, 800)` with a receiver that has had no
call and a screen that allocates every texture. -/
theorem C20_start_seeds_figure_and_refresh_witness :
    ((NewLoop (some ⟨[]⟩) 800 800).Start fun p => some ⟨p, [], false⟩).map
        (fun r => r.1.state.Figures) =
      some [⟨400, 400, T180, Color.Yellow⟩] := by
  obtain ⟨l1, t1, h1, h2, _⟩ := C20_start_seeds_figure_and_refresh (some ⟨[]⟩) 800 800
    (fun p => some ⟨p, [], false⟩) ⟨⟨800, 800⟩, [], false⟩ (by decide) (by decide) rfl
  rw [h1]
  simp only [Option.map_some', h2]
  decide

/-! ## Theorems: unit coordinates to pixels -/

set_option maxRecDepth 8000 in
/-- C15, where the stored bound is not the nearest integer: for
`BgRect{0.75, 0, 1, 1}` on an 801 x 801 surface the product 0.75 * 801 is
600.75 and `BgRect.Do` stores 600, the product cut off toward zero, not 601.
And on a surface of width 2^63 - 1, which `float64` rounds to 2^63, the
product for the coordinate 1 is outside the range of `int`. -/
theorem C15_pixel_is_truncated_not_rounded :
    (BgRect.Do (F64.fin false 6755399441055744 (-53)) (F64.fin false 0 0)
      (F64.fin false 4503599627370496 (-52)) (F64.fin false 4503599627370496 (-52))
      ⟨Color.White, none, [], ⟨0, 0⟩, 801, 801⟩ ⟨⟨801, 801⟩, [], false⟩).2.1.BgRect =
        some ⟨600, 0, 801, 801⟩ ∧
    F64.mul (F64.fin false 6755399441055744 (-53)) (F64.ofInt 801) =
      F64.fin false 5284252883091456 (-43) ∧
    (5284252883091456 : ℚ) * (2 : ℚ) ^ (-43 : Int) = 2403 / 4 ∧
    (601 : ℚ) - 2403 / 4 < 2403 / 4 - 600 ∧
    ParseFloat "0.75" = some (F64.fin false 6755399441055744 (-53)) ∧
    F64.mul (F64.fin false 4503599627370496 (-52)) (F64.ofInt 9223372036854775807) =
      F64.fin false 4503599627370496 11 ∧
    (BgRect.Do (F64.fin false 0 0) (F64.fin false 0 0)
      (F64.fin false 4503599627370496 (-52)) (F64.fin false 4503599627370496 (-52))
      ⟨Color.White, none, [], ⟨0, 0⟩, 9223372036854775807, 800⟩
      ⟨⟨9223372036854775807, 800⟩, [], false⟩).2.1.BgRect =
        some ⟨-9223372036854775808, 0, 0, 800⟩ := by
  refine ⟨by decide, by decide, ?_, by norm_num, by decide, by decide, by decide⟩
  rw [zpow_neg]
  norm_num

/-- C15, with the conversion the code makes: for coordinates in [0,1] and a
surface of width and height from 0 to 2^63 - 1024, `BgRect.Do` stores, for each
coordinate `u`, the float64 product `u * W` (`u * H` for a y coordinate) cut
off toward zero, that is rounded down, the two x values and the two y values
each in increasing order. -/
theorem C15_bgrect_stores_truncated_products (X1 Y1 X2 Y2 : F64) (s : State) (t : Texture)
    (hX1 : F64.le F64.zero X1 = true ∧ F64.le X1 F64.one = true)
    (hY1 : F64.le F64.zero Y1 = true ∧ F64.le Y1 F64.one = true)
    (hX2 : F64.le F64.zero X2 = true ∧ F64.le X2 F64.one = true)
    (hY2 : F64.le F64.zero Y2 = true ∧ F64.le Y2 F64.one = true)
    (hW : 0 ≤ s.WindowWidth ∧ s.WindowWidth ≤ 2 ^ 63 - 1024)
    (hH : 0 ≤ s.WindowHeight ∧ s.WindowHeight ≤ 2 ^ 63 - 1024) :
    ∃ b, (BgRect.Do X1 Y1 X2 Y2 s t).2.1.BgRect = some b ∧ b.X1 ≤ b.X2 ∧ b.Y1 ≤ b.Y2 ∧
      b.X1 = Min.min ⌊F64.toRat (F64.mul X1 (F64.ofInt s.WindowWidth))⌋
        ⌊F64.toRat (F64.mul X2 (F64.ofInt s.WindowWidth))⌋ ∧
      b.X2 = Max.max ⌊F64.toRat (F64.mul X1 (F64.ofInt s.WindowWidth))⌋
        ⌊F64.toRat (F64.mul X2 (F64.ofInt s.WindowWidth))⌋ ∧
      b.Y1 = Min.min ⌊F64.toRat (F64.mul Y1 (F64.ofInt s.WindowHeight))⌋
        ⌊F64.toRat (F64.mul Y2 (F64.ofInt s.WindowHeight))⌋ ∧
      b.Y2 = Max.max ⌊F64.toRat (F64.mul Y1 (F64.ofInt s.WindowHeight))⌋
        ⌊F64.toRat (F64.mul Y2 (F64.ofInt s.WindowHeight))⌋ := by
  have ex1 := (F64.pixel_floor X1 s.WindowWidth hX1.1 hX1.2 hW.1 hW.2).1
  have ex2 := (F64.pixel_floor X2 s.WindowWidth hX2.1 hX2.2 hW.1 hW.2).1
  have ey1 := (F64.pixel_floor Y1 s.WindowHeight hY1.1 hY1.2 hH.1 hH.2).1
  have ey2 := (F64.pixel_floor Y2 s.WindowHeight hY2.1 hY2.2 hH.1 hH.2).1
  refine ⟨_, rfl, ?_, ?_, ?_, ?_, ?_, ?_⟩
  · dsimp only; split <;> omega
  · dsimp only; split <;> omega
  · dsimp only; rw [← ex1, ← ex2]; split
    · rw [min_eq_right (by omega)]
    · rw [min_eq_left (by omega)]
  · dsimp only; rw [← ex1, ← ex2]; split
    · rw [max_eq_left (by omega)]
    · rw [max_eq_right (by omega)]
  · dsimp only; rw [← ey1, ← ey2]; split
    · rw [min_eq_right (by omega)]
    · rw [min_eq_left (by omega)]
  · dsimp only; rw [← ey1, ← ey2]; split
    · rw [max_eq_left (by omega)]
    · rw [max_eq_right (by omega)]

set_option maxRecDepth 8000 in
/-- Witness of C15: `bgrect 0.1 0.2 0.8 0.9` on an 800 x 800 surface stores
(80, 160, 640, 720). -/
theorem C15_bgrect_stores_truncated_products_witness :
    (BgRect.Do (F64.fin false 7205759403792794 (-56)) (F64.fin false 7205759403792794 (-55))
      (F64.fin false 7205759403792794 (-53)) (F64.fin false 8106479329266893 (-53))
      (NewLoop none 800 800).state ⟨⟨800, 800⟩, [], false⟩).2.1.BgRect =
        some ⟨80, 160, 640, 720⟩ ∧
    (80 : Int) = Min.min
      ⌊F64.toRat (F64.mul (F64.fin false 7205759403792794 (-56)) (F64.ofInt 800))⌋
      ⌊F64.toRat (F64.mul (F64.fin false 7205759403792794 (-53)) (F64.ofInt 800))⌋ := by
  have hb : (BgRect.Do (F64.fin false 7205759403792794 (-56))
      (F64.fin false 7205759403792794 (-55)) (F64.fin false 7205759403792794 (-53))
      (F64.fin false 8106479329266893 (-53)) (NewLoop none 800 800).state
      ⟨⟨800, 800⟩, [], false⟩).2.1.BgRect = some ⟨80, 160, 640, 720⟩ := by decide
  obtain ⟨b, h1, _, _, hx1, _⟩ := C15_bgrect_stores_truncated_products
    (F64.fin false 7205759403792794 (-56)) (F64.fin false 7205759403792794 (-55))
    (F64.fin false 7205759403792794 (-53)) (F64.fin false 8106479329266893 (-53))
    (NewLoop none 800 800).state ⟨⟨800, 800⟩, [], false⟩
    ⟨by decide, by decide⟩ ⟨by decide, by decide⟩ ⟨by decide, by decide⟩
    ⟨by decide, by decide⟩ ⟨by decide, by decide⟩ ⟨by decide, by decide⟩
  rw [hb] at h1
  cases h1
  exact ⟨hb, hx1⟩

/-! ## Theorems: the batch step without a receiver -/

theorem Loop.batchStep_state (l : Loop) (tex : Texture) :
    (l.batchStep tex).1.state =
        ((applyInOrder l.Mq.ops l.state tex).getLast?.getD (false, l.state, tex)).2.1 ∧
    (l.batchStep tex).2 =
        ((applyInOrder l.Mq.ops l.state tex).getLast?.getD (false, l.state, tex)).2.2 ∧
    (l.batchStep tex).1.Mq = { l.Mq with ops := [] } ∧
    (l.batchStep tex).1.stop = l.stop ∧ (l.batchStep tex).1.stopped = l.stopped := by
  unfold Loop.batchStep
  by_cases hpos : 0 < l.Mq.ops.length
  · simp only [MessageQueue.Pull, gt_iff_lt, hpos, if_true, Loop.applyOps_eq, Bool.false_or]
    split
    · cases hr : l.Receiver <;> simp
    · simp
  · have hnil : l.Mq.ops = [] := by
      cases h : l.Mq.ops with
      | nil => rfl
      | cons a b => rw [h] at hpos; simp at hpos
    simp [MessageQueue.Pull, hnil, applyInOrder]

/-- C23: with the receiver absent, the batch step leaves the state, the texture
and the queue that it leaves with a receiver present (the result of applying
the drained operations one after another); it makes no `Update` call, the
receiver staying absent, and it changes neither `stop` nor `stopped`; and the
loop goes on: an operation posted afterwards is pulled and applied by the next
pass of the goroutine. -/
theorem C23_absent_receiver_drops_refresh (l : Loop) (rcv : Receiver) (tex : Texture)
    (op : Operation) (hcap : l.Mq.ch.cap = 1) :
    (({ l with Receiver := none } : Loop).batchStep tex).1.state =
      (({ l with Receiver := some rcv } : Loop).batchStep tex).1.state ∧
    (({ l with Receiver := none } : Loop).batchStep tex).2 =
      (({ l with Receiver := some rcv } : Loop).batchStep tex).2 ∧
    (({ l with Receiver := none } : Loop).batchStep tex).1.Mq =
      (({ l with Receiver := some rcv } : Loop).batchStep tex).1.Mq ∧
    (({ l with Receiver := none } : Loop).batchStep tex).1.state =
      ((applyInOrder l.Mq.ops l.state tex).getLast?.getD (false, l.state, tex)).2.1 ∧
    (({ l with Receiver := none } : Loop).batchStep tex).1.Receiver = none ∧
    (({ l with Receiver := none } : Loop).batchStep tex).1.stop = l.stop ∧
    (({ l with Receiver := none } : Loop).batchStep tex).1.stopped = l.stopped ∧
    ∃ next, ((({ l with Receiver := none } : Loop).batchStep tex).1.Post op).wake
        (({ l with Receiver := none } : Loop).batchStep tex).2 = some next ∧
      next.1.state = (op.Do (({ l with Receiver := none } : Loop).batchStep tex).1.state
        (({ l with Receiver := none } : Loop).batchStep tex).2).2.1 ∧
      next.1.Receiver = none := by
  obtain ⟨hs0, ht0, hq0, hp0, hd0⟩ := Loop.batchStep_state { l with Receiver := none } tex
  obtain ⟨hs1, ht1, hq1, _, _⟩ := Loop.batchStep_state { l with Receiver := some rcv } tex
  have hr0 : (({ l with Receiver := none } : Loop).batchStep tex).1.Receiver = none := by
    rw [Loop.batchStep_receiver]
    split <;> rfl
  refine ⟨by rw [hs0, hs1], by rw [ht0, ht1], by rw [hq0, hq1], hs0, hr0, hp0, hd0, ?_⟩
  generalize ({ l with Receiver := none } : Loop).batchStep tex = b at hq0 hr0
  obtain ⟨l1, t1⟩ := b
  simp only at hq0 hr0 ⊢
  have hlen : 0 < ((l1.Post op).Mq.ch.len) := by
    simp only [Loop.Post, MessageQueue.Push, MessageQueue.signal, MessageQueue.append, hq0, hcap]
    split
    · simp
    · simp only; omega
  have hops : (l1.Post op).Mq.ops = [op] := by
    simp only [Loop.Post, MessageQueue.Push, MessageQueue.signal, MessageQueue.append, hq0]
    split <;> simp
  have hrecv : (l1.Post op).Receiver = none := hr0
  have hst : (l1.Post op).state = l1.state := rfl
  generalize l1.Post op = l2 at hlen hops hrecv hst
  unfold Loop.wake MessageQueue.recv
  rw [if_pos hlen]
  refine ⟨_, rfl, ?_, ?_⟩
  · rw [(Loop.batchStep_state _ t1).1]
    simp [hops, applyInOrder, hst]
  · rw [Loop.batchStep_receiver]
    simp [hrecv]

/-- Witness of C23: a new 800 x 800 loop without a receiver, with `reset` and
`update` posted; an operation `figure` posted after the batch is applied by
the next pass. -/
theorem C23_absent_receiver_drops_refresh_witness :
    (((NewLoop none 800 800).Post .Reset).Post .UpdateOp).Mq.ch.cap = 1 ∧
    (((((NewLoop none 800 800).Post .Reset).Post .UpdateOp).batchStep
      ⟨⟨800, 800⟩, [], false⟩).1.Receiver = none) :=
  ⟨rfl, (C23_absent_receiver_drops_refresh (((NewLoop none 800 800).Post .Reset).Post .UpdateOp)
    ⟨[]⟩ ⟨⟨800, 800⟩, [], false⟩ (.Figure F64.one F64.one) rfl).2.2.2.2.1⟩

/-! ## Theorems: the HTTP handler -/

theorem collectOps_eq (parseFloat : String → Option F64) (lines : List String)
    (ops : List Operation) :
    collectOps parseFloat lines ops =
      ops ++ lines.filterMap fun line => (Parse parseFloat line).toOption := by
  induction lines generalizing ops with
  | nil => simp [collectOps]
  | cons line rest ih =>
    rw [collectOps]
    cases h : Parse parseFloat line with
    | error e => simp [ih, List.filterMap_cons, h, Except.toOption]
    | ok op => simp [ih, List.filterMap_cons, h, Except.toOption]

theorem postAll_eq (ops : List Operation) (loop : Loop) :
    postAll ops loop = ops.foldl Loop.Post loop ∧
    (postAll ops loop).Mq.ops = loop.Mq.ops ++ ops ∧
    (postAll ops loop).state = loop.state ∧ (postAll ops loop).Receiver = loop.Receiver := by
  induction ops generalizing loop with
  | nil => simp [postAll]
  | cons op ops ih =>
    obtain ⟨h1, h2, h3, h4⟩ := ih (loop.Post op)
    refine ⟨by rw [postAll, h1]; rfl, ?_, by rw [postAll, h3]; rfl, by rw [postAll, h4]; rfl⟩
    rw [postAll, h2]
    have : (loop.Post op).Mq.ops = loop.Mq.ops ++ [op] := by
      simp only [Loop.Post, MessageQueue.Push, MessageQueue.signal, MessageQueue.append]
      split <;> rfl
    rw [this, List.append_assoc]
    rfl

/-- C22: for a POST request whose body is scanned to the end without an error,
the handler posts the operations `Parse` returns for the lines that parse, one
`Post` for each and in line order, so that the queue grows by exactly these
operations; a line that fails to parse adds nothing and the lines after it are
still handled; and the status is 200 whatever the lines are. So the body
`bogus`, `figure 2 2` posts nothing and is answered with 200, and the body
`bogus`, `white`, `figure 2 2`, `update` posts `WhiteBg` and `UpdateOp`. -/
theorem C22_handler_posts_parsed_lines (parseFloat : String → Option F64) (loop : Loop)
    (lines : List String) :
    (HttpHandler parseFloat loop "POST" lines none).2.status = 200 ∧
    (HttpHandler parseFloat loop "POST" lines none).1 =
      (lines.filterMap fun line => (Parse parseFloat line).toOption).foldl Loop.Post loop ∧
    (HttpHandler parseFloat loop "POST" lines none).1.Mq.ops =
      loop.Mq.ops ++ (lines.filterMap fun line => (Parse parseFloat line).toOption) ∧
    (HttpHandler parseFloat loop "POST" lines none).1.state = loop.state ∧
    (HttpHandler parseFloat loop "POST" lines none).1.Receiver = loop.Receiver ∧
    (HttpHandler ParseFloat (NewLoop none 800 800) "POST" ["bogus", "figure 2 2"] none).2.status
      = 200 ∧
    (HttpHandler ParseFloat (NewLoop none 800 800) "POST" ["bogus", "figure 2 2"] none).1.Mq.ops
      = [] ∧
    (HttpHandler ParseFloat (NewLoop none 800 800) "POST"
      ["bogus", "white", "figure 2 2", "update"] none).1.Mq.ops = [.WhiteBg, .UpdateOp] := by
  have hpost : ("POST" ≠ "POST") = False := by simp
  have h : HttpHandler parseFloat loop "POST" lines none =
      (postAll (lines.filterMap fun line => (Parse parseFloat line).toOption) loop,
        ⟨200, "Commands processed\n"⟩) := by
    simp only [HttpHandler, hpost, if_false, collectOps_eq, List.nil_append]
  obtain ⟨h1, h2, h3, h4⟩ :=
    postAll_eq (lines.filterMap fun line => (Parse parseFloat line).toOption) loop
  rw [h]
  exact ⟨rfl, h1, h2, h3, h4, rfl, rfl, rfl⟩

/-! ## Theorems: a move and its opposite -/

/-- The result of `F64.round` depends on the sign only through the sign of the
value it returns. -/
theorem F64.round_shape (n d : Nat) :
    ∃ (m1 : Nat) (e1 : Int), ∀ neg : Bool, F64.round neg n d =
      if n = 0 then F64.fin neg 0 0
      else if 971 < e1 then F64.inf neg else if m1 = 0 then F64.fin neg 0 0 else F64.fin neg m1 e1 :=
  ⟨_, _, fun _ => rfl⟩

theorem F64.neg_round (n : Bool) (a b : Nat) : (F64.round n a b).neg = F64.round (!n) a b := by
  obtain ⟨m1, e1, h⟩ := F64.round_shape a b
  rw [h, h]
  split_ifs <;> rfl

theorem F64.mul_neg_left (x w : F64) : F64.mul x.neg w = (F64.mul x w).neg := by
  cases x with
  | nan => cases w <;> rfl
  | inf n1 =>
    cases w with
    | nan => rfl
    | inf n2 => cases n1 <;> cases n2 <;> rfl
    | fin n2 m e =>
      simp only [F64.neg, F64.mul]
      split_ifs
      · rfl
      · cases n1 <;> cases n2 <;> rfl
  | fin n1 m1 e1 =>
    cases w with
    | nan => rfl
    | inf n2 =>
      simp only [F64.neg, F64.mul]
      split_ifs
      · rfl
      · cases n1 <;> cases n2 <;> rfl
    | fin n2 m2 e2 =>
      have hx : xor (!n1) n2 = !(xor n1 n2) := by cases n1 <;> cases n2 <;> rfl
      show F64.mul (F64.fin (!n1) m1 e1) (F64.fin n2 m2 e2) = _
      simp only [F64.mul, hx]
      split_ifs <;> rw [← F64.neg_round]

theorem F64.toInt_neg_of_fits (f : F64) (h : f.fitsInt = true) :
    f.neg.toInt = wrap64 (-f.toInt) ∧ (f.toInt ≠ -2 ^ 63 → f.neg.toInt = -f.toInt) ∧
    -2 ^ 63 ≤ f.toInt ∧ f.toInt < 2 ^ 63 := by
  cases f with
  | nan => simp [F64.fitsInt] at h
  | inf n => simp [F64.fitsInt] at h
  | fin n m e =>
    simp only [F64.fitsInt, decide_eq_true_eq] at h
    simp only [F64.neg, F64.toInt]
    generalize (if 0 ≤ e then (m : Int) * 2 ^ e.toNat else (m : Int) / 2 ^ (-e).toNat) = t at h ⊢
    cases n
    · simp only [Bool.false_eq_true, if_false, Bool.not_false, if_true] at h ⊢
      rw [if_pos h]
      unfold wrap64
      split_ifs <;> omega
    · simp only [Bool.false_eq_true, if_false, Bool.not_true, if_true] at h ⊢
      rw [if_pos h]
      unfold wrap64
      split_ifs <;> omega

/-- C28: for a state whose move offset holds values of Go's `int`, and a move
`(X, Y)` both of whose products with the window size have an integer part in
the range of `int`, the pixel delta of the move `(-X, -Y)` is the negation of
the pixel delta of the move `(X, Y)` (the negation of Go's `int`, which is the
mathematical one for every delta but the smallest `int`), and the move
followed by the opposite move leaves the state as it was. -/
theorem C28_move_then_opposite_move_restores (X Y : F64) (s : State) (t1 t2 : Texture)
    (hx : (F64.mul X (F64.ofInt s.WindowWidth)).fitsInt = true)
    (hy : (F64.mul Y (F64.ofInt s.WindowHeight)).fitsInt = true)
    (hox : -2 ^ 63 ≤ s.MoveOffset.X ∧ s.MoveOffset.X < 2 ^ 63)
    (hoy : -2 ^ 63 ≤ s.MoveOffset.Y ∧ s.MoveOffset.Y < 2 ^ 63) :
    pixelDelta X.neg Y.neg s =
      ⟨wrap64 (-(pixelDelta X Y s).X), wrap64 (-(pixelDelta X Y s).Y)⟩ ∧
    ((pixelDelta X Y s).X ≠ -2 ^ 63 → (pixelDelta X.neg Y.neg s).X = -(pixelDelta X Y s).X) ∧
    ((pixelDelta X Y s).Y ≠ -2 ^ 63 → (pixelDelta X.neg Y.neg s).Y = -(pixelDelta X Y s).Y) ∧
    (Move.Do X.neg Y.neg (Move.Do X Y s t1).2.1 t2).2.1.MoveOffset = s.MoveOffset ∧
    (Move.Do X.neg Y.neg (Move.Do X Y s t1).2.1 t2).2.1 = s := by
  obtain ⟨hx1, hx2, hx3, hx4⟩ := F64.toInt_neg_of_fits _ hx
  obtain ⟨hy1, hy2, hy3, hy4⟩ := F64.toInt_neg_of_fits _ hy
  rw [← F64.mul_neg_left] at hx1 hx2 hy1 hy2
  have hoff : (Move.Do X.neg Y.neg (Move.Do X Y s t1).2.1 t2).2.1.MoveOffset = s.MoveOffset := by
    simp only [Move.Do, Point.Add, add64, hx1, hy1]
    generalize (F64.mul X (F64.ofInt s.WindowWidth)).toInt = p at hx3 hx4
    generalize (F64.mul Y (F64.ofInt s.WindowHeight)).toInt = q at hy3 hy4
    cases hs : s.MoveOffset with
    | mk ox oy =>
      rw [hs] at hox hoy
      simp only at hox hoy ⊢
      congr 1 <;> (unfold wrap64; omega)
  refine ⟨?_, hx2, hy2, hoff, ?_⟩
  · simp only [pixelDelta, hx1, hy1]
  · cases s with
    | mk c b f o w h =>
      simp only [Move.Do] at hoff ⊢
      rw [hoff]

set_option maxRecDepth 8000 in
/-- Witness of C28: on an 800 x 800 surface the move (0.25, -0.5), of pixel
delta (200, -400), followed by the move (-0.25, 0.5). -/
theorem C28_move_then_opposite_move_restores_witness :
    (F64.mul (F64.round false 1 4) (F64.ofInt 800)).fitsInt = true ∧
    pixelDelta (F64.round false 1 4) (F64.round true 1 2) (NewLoop none 800 800).state =
      ⟨200, -400⟩ ∧
    (Move.Do (F64.round false 1 4).neg (F64.round true 1 2).neg
      (Move.Do (F64.round false 1 4) (F64.round true 1 2) (NewLoop none 800 800).state
        ⟨⟨800, 800⟩, [], false⟩).2.1 ⟨⟨800, 800⟩, [], false⟩).2.1 = (NewLoop none 800 800).state :=
  ⟨by decide, by decide,
    (C28_move_then_opposite_move_restores (F64.round false 1 4) (F64.round true 1 2)
      (NewLoop none 800 800).state ⟨⟨800, 800⟩, [], false⟩ ⟨⟨800, 800⟩, [], false⟩
      (by decide) (by decide) (by decide) (by decide)).2.2.2.2⟩

/-! ## Theorems: the geometry of a glyph -/

theorem Rect_of_le (x0 y0 x1 y1 : Int) (hx : x0 ≤ x1) (hy : y0 ≤ y1) :
    Rect x0 y0 x1 y1 = ⟨⟨x0, y0⟩, ⟨x1, y1⟩⟩ := by
  unfold Rect
  simp only [gt_iff_lt, not_lt.mpr hx, not_lt.mpr hy, if_false]

theorem tdiv_bounds (b k : Int) (hb : 0 ≤ b) (hk : 0 < k) :
    0 ≤ Int.tdiv b k ∧ k * Int.tdiv b k ≤ b ∧ b < k * Int.tdiv b k + k := by
  rw [Int.tdiv_eq_ediv hb (le_of_lt hk)]
  refine ⟨Int.ediv_nonneg hb (le_of_lt hk), ?_, ?_⟩
  · exact Int.mul_ediv_self_le (ne_of_gt hk)
  · exact Int.lt_mul_ediv_self_add hk

theorem wrap64_small (a : Int) (h1 : -9223372036854775808 ≤ a) (h2 : a < 9223372036854775808) :
    wrap64 a = a := by
  unfold wrap64
  omega

theorem figureRects_T0 (cx cy b h q s : Int) (hh : h = Int.tdiv b 2) (hq : q = Int.tdiv b 3)
    (hs : s = Int.tdiv q 2) (hb0 : 0 ≤ b) (hb1 : b ≤ 4611686018427387904)
    (hx0 : -4611686018427387904 ≤ cx) (hx1 : cx ≤ 4611686018427387904)
    (hy0 : -4611686018427387904 ≤ cy) (hy1 : cy ≤ 4611686018427387904) :
    figureRects cx cy T0 b = some
      [⟨⟨cx - h, cy - h⟩, ⟨cx + h, cy - h + q⟩⟩, ⟨⟨cx - s, cy - h + q⟩, ⟨cx + s, cy - h + b⟩⟩] := by
  obtain ⟨hh0, hh1, hh2⟩ := tdiv_bounds b 2 hb0 (by norm_num)
  obtain ⟨hq0, hq1, hq2⟩ := tdiv_bounds b 3 hb0 (by norm_num)
  rw [← hh] at hh0 hh1 hh2
  rw [← hq] at hq0 hq1 hq2
  obtain ⟨hs0, hs1, hs2⟩ := tdiv_bounds q 2 hq0 (by norm_num)
  rw [← hs] at hs0 hs1 hs2
  simp only [figureRects, T0, if_true, add64, sub64, ← hq, ← hh, ← hs]
  rw [wrap64_small (cx - h) (by omega) (by omega), wrap64_small (cy - h) (by omega) (by omega),
    wrap64_small (cx + h) (by omega) (by omega), wrap64_small (cy - h + q) (by omega) (by omega),
    wrap64_small (cx - s) (by omega) (by omega), wrap64_small (cx + s) (by omega) (by omega),
    wrap64_small (b - q) (by omega) (by omega),
    wrap64_small (cy - h + q + (b - q)) (by omega) (by omega),
    Rect_of_le _ _ _ _ (by omega) (by omega), Rect_of_le _ _ _ _ (by omega) (by omega)]
  simp only [Option.some.injEq, List.cons.injEq, Rectangle.mk.injEq, Point.mk.injEq, and_true,
    true_and]
  omega

theorem figureRects_T90 (cx cy b h q s : Int) (hh : h = Int.tdiv b 2) (hq : q = Int.tdiv b 3)
    (hs : s = Int.tdiv q 2) (hb0 : 0 ≤ b) (hb1 : b ≤ 4611686018427387904)
    (hx0 : -4611686018427387904 ≤ cx) (hx1 : cx ≤ 4611686018427387904)
    (hy0 : -4611686018427387904 ≤ cy) (hy1 : cy ≤ 4611686018427387904) :
    figureRects cx cy T90 b = some
      [⟨⟨cx + h - q, cy - h⟩, ⟨cx + h, cy + h⟩⟩, ⟨⟨cx + h - b, cy - s⟩, ⟨cx + h - q, cy + s⟩⟩] := by
  obtain ⟨hh0, hh1, hh2⟩ := tdiv_bounds b 2 hb0 (by norm_num)
  obtain ⟨hq0, hq1, hq2⟩ := tdiv_bounds b 3 hb0 (by norm_num)
  rw [← hh] at hh0 hh1 hh2
  rw [← hq] at hq0 hq1 hq2
  obtain ⟨hs0, hs1, hs2⟩ := tdiv_bounds q 2 hq0 (by norm_num)
  rw [← hs] at hs0 hs1 hs2
  have d0 : ((1 : Int) = 0) = False := by decide
  simp only [figureRects, T0, T90, T180, T270, Cross, if_true, if_false, add64, sub64, ← hq, ← hh,
    ← hs, d0]
  rw [wrap64_small (cx + h) (by omega) (by omega),
    wrap64_small (cx + h - q) (by omega) (by omega),
    wrap64_small (cy - h) (by omega) (by omega),
    wrap64_small (cy + h) (by omega) (by omega),
    wrap64_small (b - q) (by omega) (by omega),
    wrap64_small (cx + h - q - (b - q)) (by omega) (by omega),
    wrap64_small (cy - s) (by omega) (by omega),
    wrap64_small (cy + s) (by omega) (by omega),
    Rect_of_le _ _ _ _ (by omega) (by omega),
    Rect_of_le _ _ _ _ (by omega) (by omega)]
  simp only [Option.some.injEq, List.cons.injEq, Rectangle.mk.injEq, Point.mk.injEq, and_true,
    true_and]
  omega

theorem figureRects_T180 (cx cy b h q s : Int) (hh : h = Int.tdiv b 2) (hq : q = Int.tdiv b 3)
    (hs : s = Int.tdiv q 2) (hb0 : 0 ≤ b) (hb1 : b ≤ 4611686018427387904)
    (hx0 : -4611686018427387904 ≤ cx) (hx1 : cx ≤ 4611686018427387904)
    (hy0 : -4611686018427387904 ≤ cy) (hy1 : cy ≤ 4611686018427387904) :
    figureRects cx cy T180 b = some
      [⟨⟨cx - h, cy + h - q⟩, ⟨cx + h, cy + h⟩⟩, ⟨⟨cx - s, cy + h - b⟩, ⟨cx + s, cy + h - q⟩⟩] := by
  obtain ⟨hh0, hh1, hh2⟩ := tdiv_bounds b 2 hb0 (by norm_num)
  obtain ⟨hq0, hq1, hq2⟩ := tdiv_bounds b 3 hb0 (by norm_num)
  rw [← hh] at hh0 hh1 hh2
  rw [← hq] at hq0 hq1 hq2
  obtain ⟨hs0, hs1, hs2⟩ := tdiv_bounds q 2 hq0 (by norm_num)
  rw [← hs] at hs0 hs1 hs2
  have d0 : ((2 : Int) = 0) = False := by decide
  have d1 : ((2 : Int) = 1) = False := by decide
  simp only [figureRects, T0, T90, T180, T270, Cross, if_true, if_false, add64, sub64, ← hq, ← hh,
    ← hs, d0, d1]
  rw [wrap64_small (cx - h) (by omega) (by omega),
    wrap64_small (cy + h) (by omega) (by omega),
    wrap64_small (cy + h - q) (by omega) (by omega),
    wrap64_small (cx + h) (by omega) (by omega),
    wrap64_small (cx - s) (by omega) (by omega),
    wrap64_small (b - q) (by omega) (by omega),
    wrap64_small (cy + h - q - (b - q)) (by omega) (by omega),
    wrap64_small (cx + s) (by omega) (by omega),
    Rect_of_le _ _ _ _ (by omega) (by omega),
    Rect_of_le _ _ _ _ (by omega) (by omega)]
  simp only [Option.some.injEq, List.cons.injEq, Rectangle.mk.injEq, Point.mk.injEq, and_true,
    true_and]
  omega

theorem figureRects_T270 (cx cy b h q s : Int) (hh : h = Int.tdiv b 2) (hq : q = Int.tdiv b 3)
    (hs : s = Int.tdiv q 2) (hb0 : 0 ≤ b) (hb1 : b ≤ 4611686018427387904)
    (hx0 : -4611686018427387904 ≤ cx) (hx1 : cx ≤ 4611686018427387904)
    (hy0 : -4611686018427387904 ≤ cy) (hy1 : cy ≤ 4611686018427387904) :
    figureRects cx cy T270 b = some
      [⟨⟨cx - h, cy - h⟩, ⟨cx - h + q, cy + h⟩⟩, ⟨⟨cx - h + q, cy - s⟩, ⟨cx - h + b, cy + s⟩⟩] := by
  obtain ⟨hh0, hh1, hh2⟩ := tdiv_bounds b 2 hb0 (by norm_num)
  obtain ⟨hq0, hq1, hq2⟩ := tdiv_bounds b 3 hb0 (by norm_num)
  rw [← hh] at hh0 hh1 hh2
  rw [← hq] at hq0 hq1 hq2
  obtain ⟨hs0, hs1, hs2⟩ := tdiv_bounds q 2 hq0 (by norm_num)
  rw [← hs] at hs0 hs1 hs2
  have d0 : ((3 : Int) = 0) = False := by decide
  have d1 : ((3 : Int) = 1) = False := by decide
  have d2 : ((3 : Int) = 2) = False := by decide
  simp only [figureRects, T0, T90, T180, T270, Cross, if_true, if_false, add64, sub64, ← hq, ← hh,
    ← hs, d0, d1, d2]
  rw [wrap64_small (cx - h) (by omega) (by omega),
    wrap64_small (cy - h) (by omega) (by omega),
    wrap64_small (cx - h + q) (by omega) (by omega),
    wrap64_small (cy + h) (by omega) (by omega),
    wrap64_small (cy - s) (by omega) (by omega),
    wrap64_small (b - q) (by omega) (by omega),
    wrap64_small (cx - h + q + (b - q)) (by omega) (by omega),
    wrap64_small (cy + s) (by omega) (by omega),
    Rect_of_le _ _ _ _ (by omega) (by omega),
    Rect_of_le _ _ _ _ (by omega) (by omega)]
  simp only [Option.some.injEq, List.cons.injEq, Rectangle.mk.injEq, Point.mk.injEq, and_true,
    true_and]
  omega

theorem figureRects_Cross (cx cy b h q s : Int) (hh : h = Int.tdiv b 2) (hq : q = Int.tdiv b 3)
    (hs : s = Int.tdiv q 2) (hb0 : 0 ≤ b) (hb1 : b ≤ 4611686018427387904)
    (hx0 : -4611686018427387904 ≤ cx) (hx1 : cx ≤ 4611686018427387904)
    (hy0 : -4611686018427387904 ≤ cy) (hy1 : cy ≤ 4611686018427387904) :
    figureRects cx cy Cross b = some
      [⟨⟨cx - h, cy - s⟩, ⟨cx + h, cy + s⟩⟩, ⟨⟨cx - s, cy - h⟩, ⟨cx + s, cy - s⟩⟩,
        ⟨⟨cx - s, cy + s⟩, ⟨cx + s, cy + h⟩⟩] := by
  obtain ⟨hh0, hh1, hh2⟩ := tdiv_bounds b 2 hb0 (by norm_num)
  obtain ⟨hq0, hq1, hq2⟩ := tdiv_bounds b 3 hb0 (by norm_num)
  rw [← hh] at hh0 hh1 hh2
  rw [← hq] at hq0 hq1 hq2
  obtain ⟨hs0, hs1, hs2⟩ := tdiv_bounds q 2 hq0 (by norm_num)
  rw [← hs] at hs0 hs1 hs2
  have d0 : ((4 : Int) = 0) = False := by decide
  have d1 : ((4 : Int) = 1) = False := by decide
  have d2 : ((4 : Int) = 2) = False := by decide
  have d3 : ((4 : Int) = 3) = False := by decide
  simp only [figureRects, T0, T90, T180, T270, Cross, if_true, if_false, add64, sub64, ← hq, ← hh,
    ← hs, d0, d1, d2, d3]
  rw [wrap64_small (cx - h) (by omega) (by omega),
    wrap64_small (cy - s) (by omega) (by omega),
    wrap64_small (cx + h) (by omega) (by omega),
    wrap64_small (cy + s) (by omega) (by omega),
    wrap64_small (cx - s) (by omega) (by omega),
    wrap64_small (cy - h) (by omega) (by omega),
    wrap64_small (cx + s) (by omega) (by omega),
    wrap64_small (cy + h) (by omega) (by omega),
    Rect_of_le _ _ _ _ (by omega) (by omega),
    Rect_of_le _ _ _ _ (by omega) (by omega),
    Rect_of_le _ _ _ _ (by omega) (by omega)]

/-! ## Theorems: clipping keeps rectangles apart -/

theorem Point.In_of_In_Intersect (p : Point) (r s : Rectangle) (h : p.In (r.Intersect s) = true) :
    p.In r = true := by
  unfold Rectangle.Intersect at h
  simp only [Point.In, Rectangle.Empty, Bool.and_eq_true, decide_eq_true_eq,
    Bool.or_eq_true] at h ⊢
  split_ifs at h <;> simp only [] at h <;> omega

/-- The fills of the final loop of `drawFigure` come after those the texture
had, each is a part of one of the rectangles, and they are pairwise disjoint
when the rectangles are. -/
theorem fillClipped_disjoint (t : Texture) (c : Color) (rects : List Rectangle)
    (h : rects.Pairwise Rectangle.Disjoint) :
    ∃ filled : List (Rectangle × Color), (fillClipped t c rects).fills = t.fills ++ filled ∧
      (∀ f ∈ filled, ∃ r ∈ rects, ∀ p : Point, p.In f.1 = true → p.In r = true) ∧
      (filled.map Prod.fst).Pairwise Rectangle.Disjoint := by
  induction rects generalizing t with
  | nil => exact ⟨[], by simp [fillClipped], by simp, by simp⟩
  | cons r rects ih =>
    obtain ⟨hr, hrest⟩ := List.pairwise_cons.mp h
    rw [fillClipped]
    by_cases hE : (r.Intersect t.Bounds).Empty = true
    · simp only [hE, Bool.not_true, Bool.false_eq_true, if_false]
      obtain ⟨filled, h1, h2, h3⟩ := ih t hrest
      refine ⟨filled, h1, ?_, h3⟩
      intro f hf
      obtain ⟨r1, hr1, hp⟩ := h2 f hf
      exact ⟨r1, List.mem_cons_of_mem _ hr1, hp⟩
    · simp only [hE, Bool.not_false, if_true]
      obtain ⟨filled, h1, h2, h3⟩ := ih (t.Fill (r.Intersect t.Bounds) c) hrest
      refine ⟨(r.Intersect t.Bounds, c) :: filled, ?_, ?_, ?_⟩
      · rw [h1]
        simp [Texture.Fill]
      · intro f hf
        rcases List.mem_cons.mp hf with hf | hf
        · exact ⟨r, List.mem_cons_self _ _, fun p hp => by
            rw [hf] at hp
            exact Point.In_of_In_Intersect p r _ hp⟩
        · obtain ⟨r1, hr1, hp⟩ := h2 f hf
          exact ⟨r1, List.mem_cons_of_mem _ hr1, hp⟩
      · rw [List.map_cons, List.pairwise_cons]
        refine ⟨?_, h3⟩
        intro g hg
        obtain ⟨f, hf, rfl⟩ := List.mem_map.mp hg
        obtain ⟨r1, hr1, hp⟩ := h2 f hf
        intro p hboth
        exact hr r1 hr1 p ⟨Point.In_of_In_Intersect p r _ hboth.1, hp p hboth.2⟩

/-- C27 fails as stated: with base size 20 and centre `(0, 2^63 - 6)` the end
of the stem of the glyph T0 lies beyond the largest `int` and wraps around, so
that the stem `Rect(-3, 2^63 - 10, 3, -2^63 + 4)` covers the rows from
`-2^63 + 4` to `2^63 - 11`; the pixel `(0, 2^63 - 16)` lies in the bar and in
the stem. -/
theorem C27_bar_and_stem_overlap_at_the_edge :
    figureRects 0 (2 ^ 63 - 6) T0 20 =
      some [⟨⟨-10, 2 ^ 63 - 16⟩, ⟨10, 2 ^ 63 - 10⟩⟩, ⟨⟨-3, -2 ^ 63 + 4⟩, ⟨3, 2 ^ 63 - 10⟩⟩] ∧
    Point.In ⟨0, 2 ^ 63 - 16⟩ ⟨⟨-10, 2 ^ 63 - 16⟩, ⟨10, 2 ^ 63 - 10⟩⟩ = true ∧
    Point.In ⟨0, 2 ^ 63 - 16⟩ ⟨⟨-3, -2 ^ 63 + 4⟩, ⟨3, 2 ^ 63 - 10⟩⟩ = true ∧
    ¬ Rectangle.Disjoint ⟨⟨-10, 2 ^ 63 - 16⟩, ⟨10, 2 ^ 63 - 10⟩⟩
      ⟨⟨-3, -2 ^ 63 + 4⟩, ⟨3, 2 ^ 63 - 10⟩⟩ :=
  ⟨by decide, by decide, by decide, fun h => h ⟨0, 2 ^ 63 - 16⟩ ⟨by decide, by decide⟩⟩

/-! ## Theorems: the base size of a glyph -/

theorem F64.round_sign (neg : Bool) (n d : Nat) :
    F64.round neg n d = F64.inf neg ∨ ∃ m e, F64.round neg n d = F64.fin neg m e := by
  obtain ⟨m1, e1, h⟩ := F64.round_shape n d
  rw [h]
  split_ifs <;> first | exact Or.inl rfl | exact Or.inr ⟨_, _, rfl⟩

theorem F64.toInt_le_zero_of_neg (m : Nat) (e : Int) : (F64.fin true m e).toInt ≤ 0 := by
  have ht : (0 : Int) ≤ if 0 ≤ e then (m : Int) * 2 ^ e.toNat else (m : Int) / 2 ^ (-e).toNat := by
    split_ifs
    · positivity
    · exact Int.ediv_nonneg (by positivity) (by positivity)
  simp only [F64.toInt, if_true]
  generalize (if 0 ≤ e then (m : Int) * 2 ^ e.toNat else (m : Int) / 2 ^ (-e).toNat) = t at ht
  split_ifs <;> omega

theorem F64.three_tenths : F64.round false 3 10 = F64.fin false 5404319552844595 (-54) := by
  decide

/-- The product `float64(m) * 0.3` of `drawFigure`, converted to `int`, is at
most 2^62 for every `m` below 2^63. -/
theorem F64.base_size_bound (m : Int) (hm : m < 2 ^ 63) :
    (F64.mul (F64.ofInt m) (F64.round false 3 10)).toInt ≤ 2 ^ 62 := by
  rw [F64.three_tenths]
  by_cases hneg : m < 0
  · have hd : decide (m < 0) = true := by simp [hneg]
    unfold F64.ofInt
    rw [hd]
    rcases F64.round_sign true m.natAbs 1 with h | ⟨mw, ew, h⟩
    · rw [h]
      simp [F64.mul, F64.toInt]
    · rw [h]
      simp only [F64.mul, Bool.xor_false]
      split_ifs
      · rcases F64.round_sign true (mw * 5404319552844595 * 2 ^ (ew + -54).toNat) 1 with
          h2 | ⟨m2, e2, h2⟩
        · rw [h2]; simp [F64.toInt]
        · rw [h2]
          have := F64.toInt_le_zero_of_neg m2 e2
          omega
      · rcases F64.round_sign true (mw * 5404319552844595) (2 ^ (-(ew + -54)).toNat) with
          h2 | ⟨m2, e2, h2⟩
        · rw [h2]; simp [F64.toInt]
        · rw [h2]
          have := F64.toInt_le_zero_of_neg m2 e2
          omega
  · have hd : decide (m < 0) = false := by simp [hneg]
    unfold F64.ofInt
    rw [hd]
    by_cases hz : m.natAbs = 0
    · rw [hz]
      have : F64.round false 0 1 = F64.fin false 0 0 := by decide
      rw [this, F64.mul_fin_zero _ _ _ _ _ _ (by simp)]
      simp [F64.toInt]
    · have hpos : 1 ≤ m.natAbs := Nat.one_le_iff_ne_zero.mpr hz
      have hle : m.natAbs ≤ 2 ^ 63 := by omega
      obtain ⟨mw, ew, hr, hmw, hew1, hew2, _, hhi⟩ := F64.round_between false m.natAbs 1 hpos
        (le_refl 1) 0 (2 ^ 52) 0 11 (by norm_num) (by norm_num) (by norm_num) (by norm_num)
        (by norm_num) (by simp) (by
          have : (m.natAbs : ℚ) ≤ ((2 ^ 63 : Nat) : ℚ) := by exact_mod_cast hle
          norm_num at this ⊢
          linarith)
      rw [hr]
      by_cases hz2 : mw * 5404319552844595 = 0
      · rw [F64.mul_fin_zero _ _ _ _ _ _ hz2]
        simp [F64.toInt]
      · have hw0 : (0 : ℚ) ≤ (mw : ℚ) * (2 : ℚ) ^ ew := by positivity
        have hc : (5404319552844595 : ℚ) * (2 : ℚ) ^ (-54 : Int) ≤ 1 / 2 := by
          rw [zpow_neg]
          norm_num
        have hprod : (mw : ℚ) * (5404319552844595 : Nat) * (2 : ℚ) ^ (ew + -54) ≤
            ((2 ^ 52 : Nat) : ℚ) * (2 : ℚ) ^ (10 : Int) := by
          rw [F64.two_zpow_add]
          calc (mw : ℚ) * (5404319552844595 : Nat) * ((2 : ℚ) ^ ew * (2 : ℚ) ^ (-54 : Int))
              = ((mw : ℚ) * (2 : ℚ) ^ ew) * ((5404319552844595 : ℚ) * (2 : ℚ) ^ (-54 : Int)) := by
                push_cast; ring
            _ ≤ ((mw : ℚ) * (2 : ℚ) ^ ew) * (1 / 2) := mul_le_mul_of_nonneg_left hc hw0
            _ ≤ (((2 ^ 52 : Nat) : ℚ) * (2 : ℚ) ^ (11 : Int)) * (1 / 2) :=
                mul_le_mul_of_nonneg_right hhi (by norm_num)
            _ = ((2 ^ 52 : Nat) : ℚ) * (2 : ℚ) ^ (10 : Int) := by norm_num
        obtain ⟨m1, e1, hmul, _, _, _, _, hhi1⟩ := F64.mul_fin_between false false mw
          5404319552844595 ew (-54) hz2 0 (2 ^ 52) 0 10 (by norm_num) (by norm_num) (by norm_num)
          (by norm_num) (by norm_num) (by simp; positivity) hprod
        rw [hmul]
        have hval : (m1 : ℚ) * (2 : ℚ) ^ e1 ≤ 2 ^ 62 := by
          have : ((2 ^ 52 : Nat) : ℚ) * (2 : ℚ) ^ (10 : Int) = 2 ^ 62 := by norm_num
          linarith
        simp only [Bool.xor_false]
        rw [F64.toInt_pos _ _ (by linarith [show (2 : ℚ) ^ 62 < 2 ^ 63 by norm_num])]
        have : ⌊(m1 : ℚ) * (2 : ℚ) ^ e1⌋ ≤ ((2 ^ 62 : Int)) := by
          apply Int.floor_le_iff.mpr
          push_cast
          linarith
        exact this

/-- The base size `drawFigure` computes for a window whose sides are values of
`int` is at least 20 and at most 2^62. -/
theorem figureBaseSize_range (W H : Int) (hW : W < 2 ^ 63) (hH : H < 2 ^ 63) :
    20 ≤ figureBaseSize W H ∧ figureBaseSize W H ≤ 2 ^ 62 := by
  have hm : min W H < 2 ^ 63 := by
    unfold min
    split_ifs <;> assumption
  have hb := F64.base_size_bound (min W H) hm
  unfold figureBaseSize
  simp only
  split_ifs <;> omega

/-- The rectangles of a glyph when no coordinate leaves the range of `int`: a
bar and a stem with a common edge, or, for the cross, a bar with a segment on
each of its long edges; no two of them have a pixel in common. -/
theorem figureRects_disjoint (cx cy b : Int) (variant : FigureVariant)
    (hv : variant = T0 ∨ variant = T90 ∨ variant = T180 ∨ variant = T270 ∨ variant = Cross)
    (hb0 : 0 ≤ b) (hb1 : b ≤ 2 ^ 62) (hx0 : -2 ^ 62 ≤ cx) (hx1 : cx ≤ 2 ^ 62)
    (hy0 : -2 ^ 62 ≤ cy) (hy1 : cy ≤ 2 ^ 62) :
    ∃ rects, figureRects cx cy variant b = some rects ∧
      (variant ≠ Cross → ∃ bar stem, rects = [bar, stem] ∧
        (bar.Max.Y = stem.Min.Y ∨ stem.Max.Y = bar.Min.Y ∨ bar.Max.X = stem.Min.X ∨
          stem.Max.X = bar.Min.X)) ∧
      (variant = Cross → ∃ bar upper lower, rects = [bar, upper, lower] ∧
        upper.Max.Y = bar.Min.Y ∧ lower.Min.Y = bar.Max.Y) ∧
      rects.Pairwise Rectangle.Disjoint := by
  obtain ⟨hh0, hh1, hh2⟩ := tdiv_bounds b 2 hb0 (by norm_num)
  obtain ⟨hq0, hq1, hq2⟩ := tdiv_bounds b 3 hb0 (by norm_num)
  obtain ⟨hs0, hs1, hs2⟩ := tdiv_bounds (Int.tdiv b 3) 2 hq0 (by norm_num)
  have hb1l : b ≤ 4611686018427387904 := by norm_num at hb1; exact hb1
  have hx0l : -4611686018427387904 ≤ cx := by norm_num at hx0; exact hx0
  have hx1l : cx ≤ 4611686018427387904 := by norm_num at hx1; exact hx1
  have hy0l : -4611686018427387904 ≤ cy := by norm_num at hy0; exact hy0
  have hy1l : cy ≤ 4611686018427387904 := by norm_num at hy1; exact hy1
  have h04 : ¬ ((0 : Int) = 4) := by decide
  have h14 : ¬ ((1 : Int) = 4) := by decide
  have h24 : ¬ ((2 : Int) = 4) := by decide
  have h34 : ¬ ((3 : Int) = 4) := by decide
  generalize hs : Int.tdiv (Int.tdiv b 3) 2 = s at hs0 hs1 hs2
  generalize hq : Int.tdiv b 3 = q at hq0 hq1 hq2 hs1 hs2 hs
  generalize hh : Int.tdiv b 2 = h at hh0 hh1 hh2
  rcases hv with rfl | rfl | rfl | rfl | rfl
  · refine ⟨_, figureRects_T0 cx cy b h q s hh.symm hq.symm hs.symm hb0 hb1l hx0l hx1l hy0l hy1l,
      fun _ => ⟨_, _, rfl, Or.inl rfl⟩, fun hc => absurd hc h04, ?_⟩
    simp only [List.pairwise_cons, List.mem_singleton, List.mem_cons, forall_eq_or_imp, forall_eq,
      List.not_mem_nil, false_implies, implies_true, List.Pairwise.nil, and_true, or_false]
    intro p hp
    simp only [Point.In, Bool.and_eq_true, decide_eq_true_eq] at hp
    omega
  · refine ⟨_, figureRects_T90 cx cy b h q s hh.symm hq.symm hs.symm hb0 hb1l hx0l hx1l hy0l hy1l,
      fun _ => ⟨_, _, rfl, Or.inr (Or.inr (Or.inr rfl))⟩, fun hc => absurd hc h14, ?_⟩
    simp only [List.pairwise_cons, List.mem_singleton, List.mem_cons, forall_eq_or_imp, forall_eq,
      List.not_mem_nil, false_implies, implies_true, List.Pairwise.nil, and_true, or_false]
    intro p hp
    simp only [Point.In, Bool.and_eq_true, decide_eq_true_eq] at hp
    omega
  · refine ⟨_, figureRects_T180 cx cy b h q s hh.symm hq.symm hs.symm hb0 hb1l hx0l hx1l hy0l
      hy1l, fun _ => ⟨_, _, rfl, Or.inr (Or.inl rfl)⟩, fun hc => absurd hc h24, ?_⟩
    simp only [List.pairwise_cons, List.mem_singleton, List.mem_cons, forall_eq_or_imp, forall_eq,
      List.not_mem_nil, false_implies, implies_true, List.Pairwise.nil, and_true, or_false]
    intro p hp
    simp only [Point.In, Bool.and_eq_true, decide_eq_true_eq] at hp
    omega
  · refine ⟨_, figureRects_T270 cx cy b h q s hh.symm hq.symm hs.symm hb0 hb1l hx0l hx1l hy0l
      hy1l, fun _ => ⟨_, _, rfl, Or.inr (Or.inr (Or.inl rfl))⟩, fun hc => absurd hc h34, ?_⟩
    simp only [List.pairwise_cons, List.mem_singleton, List.mem_cons, forall_eq_or_imp, forall_eq,
      List.not_mem_nil, false_implies, implies_true, List.Pairwise.nil, and_true, or_false]
    intro p hp
    simp only [Point.In, Bool.and_eq_true, decide_eq_true_eq] at hp
    omega
  · refine ⟨_, figureRects_Cross cx cy b h q s hh.symm hq.symm hs.symm hb0 hb1l hx0l hx1l hy0l
      hy1l, fun hc => absurd rfl hc, fun _ => ⟨_, _, _, rfl, rfl, rfl⟩, ?_⟩
    simp only [List.pairwise_cons, List.mem_singleton, List.mem_cons, forall_eq_or_imp, forall_eq,
      List.not_mem_nil, false_implies, implies_true, List.Pairwise.nil, and_true]
    refine ⟨⟨?_, ?_⟩, ?_⟩ <;>
    · intro p hp
      simp only [Point.In, Bool.and_eq_true, decide_eq_true_eq] at hp
      omega

/-- C27, for base sizes from 0 to 2^62 and centres with coordinates between
-2^62 and 2^62, where no coordinate of the glyph leaves the range of `int`: the
glyphs T0, T90, T180 and T270 are two rectangles, the bar and the stem, with a
common edge, the cross is three rectangles, the bar with the upper and the
lower segment on its two long edges; the rectangles of a glyph are pairwise
disjoint, and so are the rectangles that the final loop of `drawFigure` fills
on any texture, which are parts of them. The base size that `drawFigure`
computes for a window whose sides are values of `int` is in that range, so the
rectangles `drawFigure` fills for a glyph are pairwise disjoint. -/
theorem C27_glyph_rectangles_disjoint (cx cy b W H : Int) (variant : FigureVariant)
    (hv : variant = T0 ∨ variant = T90 ∨ variant = T180 ∨ variant = T270 ∨ variant = Cross)
    (hb0 : 0 ≤ b) (hb1 : b ≤ 2 ^ 62) (hx0 : -2 ^ 62 ≤ cx) (hx1 : cx ≤ 2 ^ 62)
    (hy0 : -2 ^ 62 ≤ cy) (hy1 : cy ≤ 2 ^ 62) (hW : W < 2 ^ 63) (hH : H < 2 ^ 63) :
    (∃ rects, figureRects cx cy variant b = some rects ∧
      (variant ≠ Cross → ∃ bar stem, rects = [bar, stem] ∧
        (bar.Max.Y = stem.Min.Y ∨ stem.Max.Y = bar.Min.Y ∨ bar.Max.X = stem.Min.X ∨
          stem.Max.X = bar.Min.X)) ∧
      (variant = Cross → ∃ bar upper lower, rects = [bar, upper, lower] ∧
        upper.Max.Y = bar.Min.Y ∧ lower.Min.Y = bar.Max.Y) ∧
      rects.Pairwise Rectangle.Disjoint ∧
      ∀ (t : Texture) (c : Color), ∃ filled : List (Rectangle × Color),
        (fillClipped t c rects).fills = t.fills ++ filled ∧
        (filled.map Prod.fst).Pairwise Rectangle.Disjoint) ∧
    ∀ (t : Texture) (c : Color), ∃ filled : List (Rectangle × Color),
      (drawFigure t cx cy variant c W H).fills = t.fills ++ filled ∧
      (filled.map Prod.fst).Pairwise Rectangle.Disjoint := by
  constructor
  · obtain ⟨rects, h1, h2, h3, h4⟩ :=
      figureRects_disjoint cx cy b variant hv hb0 hb1 hx0 hx1 hy0 hy1
    refine ⟨rects, h1, h2, h3, h4, fun t c => ?_⟩
    obtain ⟨filled, hf1, _, hf3⟩ := fillClipped_disjoint t c rects h4
    exact ⟨filled, hf1, hf3⟩
  · intro t c
    obtain ⟨hs0, hs1⟩ := figureBaseSize_range W H hW hH
    obtain ⟨rects, h1, _, _, h4⟩ := figureRects_disjoint cx cy (figureBaseSize W H) variant hv
      (by omega) hs1 hx0 hx1 hy0 hy1
    obtain ⟨filled, hf1, _, hf3⟩ := fillClipped_disjoint t c rects h4
    refine ⟨filled, ?_, hf3⟩
    unfold drawFigure
    rw [h1]
    exact hf1

/-- Witness of C27: the glyph T180 of base size 240 at the centre of an
800 x 800 window. -/
theorem C27_glyph_rectangles_disjoint_witness :
    figureRects 400 400 T180 240 =
      some [⟨⟨280, 440⟩, ⟨520, 520⟩⟩, ⟨⟨360, 280⟩, ⟨440, 440⟩⟩] ∧
    ∃ rects, figureRects 400 400 T180 240 = some rects ∧ rects.Pairwise Rectangle.Disjoint := by
  obtain ⟨⟨rects, h1, _, _, h4, _⟩, _⟩ := C27_glyph_rectangles_disjoint 400 400 240 800 800 T180
    (Or.inr (Or.inr (Or.inl rfl))) (by decide) (by norm_num) (by norm_num) (by norm_num)
    (by norm_num) (by norm_num) (by norm_num) (by norm_num)
  exact ⟨by decide, rects, h1, h4⟩

theorem boundingBox_two (r r1 : Rectangle) :
    boundingBox [r, r1] =
      ⟨⟨Min.min r.Min.X r1.Min.X, Min.min r.Min.Y r1.Min.Y⟩,
        ⟨Max.max r1.Max.X r.Max.X, Max.max r1.Max.Y r.Max.Y⟩⟩ := by
  simp only [boundingBox, min_def, max_def]

theorem boundingBox_three (r r1 r2 : Rectangle) :
    boundingBox [r, r1, r2] =
      ⟨⟨Min.min r.Min.X (Min.min r1.Min.X r2.Min.X), Min.min r.Min.Y (Min.min r1.Min.Y r2.Min.Y)⟩,
        ⟨Max.max (Max.max r2.Max.X r1.Max.X) r.Max.X,
          Max.max (Max.max r2.Max.Y r1.Max.Y) r.Max.Y⟩⟩ := by
  simp only [boundingBox, min_def, max_def]

set_option maxRecDepth 8000 in
/-- C26 fails as stated. A 70 x 70 window gives the base size 21, and the box
of the glyph T180 centred at (35, 35) spans the rows 24 to 45: 11 rows above the
centre and 10 below. And with base size 20 and centre `(2^63 - 6, 100)` the
right end of the bar of the glyph T0 lies beyond the largest `int` and wraps
around: the box spans the columns from `-2^63 + 4` to `2^63 - 3`, which is not
centred on the centre column, neither in the integers nor in the arithmetic of
`int`. -/
theorem C26_box_off_centre :
    figureBaseSize 70 70 = 21 ∧
    boundingBox ((figureRects 35 35 T180 21).getD []) = ⟨⟨25, 24⟩, ⟨45, 45⟩⟩ ∧
    (35 : Int) - 24 ≠ 45 - 35 ∧
    boundingBox ((figureRects (2 ^ 63 - 6) 100 T0 20).getD []) =
      ⟨⟨-2 ^ 63 + 4, 90⟩, ⟨2 ^ 63 - 3, 110⟩⟩ ∧
    ((2 : Int) ^ 63 - 6) - (-2 ^ 63 + 4) ≠ (2 ^ 63 - 3) - (2 ^ 63 - 6) ∧
    sub64 (2 ^ 63 - 6) (-2 ^ 63 + 4) ≠ sub64 (2 ^ 63 - 3) (2 ^ 63 - 6) := by
  refine ⟨by decide, by decide, by decide, by decide, by decide, by decide⟩

theorem glyphBox_T0 (cx cy b h q s : Int) (hsh : s ≤ h) (hq0 : 0 ≤ q) (hqb : q ≤ b) :
    boundingBox
      [⟨⟨cx - h, cy - h⟩, ⟨cx + h, cy - h + q⟩⟩, ⟨⟨cx - s, cy - h + q⟩, ⟨cx + s, cy - h + b⟩⟩] =
      ⟨⟨cx - h, cy - h⟩, ⟨cx + h, cy - h + b⟩⟩ := by
  rw [boundingBox_two]
  simp only [Rectangle.mk.injEq, Point.mk.injEq]
  omega

theorem glyphBox_T90 (cx cy b h q s : Int) (hsh : s ≤ h) (hq0 : 0 ≤ q) (hqb : q ≤ b) :
    boundingBox
      [⟨⟨cx + h - q, cy - h⟩, ⟨cx + h, cy + h⟩⟩, ⟨⟨cx + h - b, cy - s⟩, ⟨cx + h - q, cy + s⟩⟩] =
      ⟨⟨cx + h - b, cy - h⟩, ⟨cx + h, cy + h⟩⟩ := by
  rw [boundingBox_two]
  simp only [Rectangle.mk.injEq, Point.mk.injEq]
  omega

theorem glyphBox_T180 (cx cy b h q s : Int) (hsh : s ≤ h) (hq0 : 0 ≤ q) (hqb : q ≤ b) :
    boundingBox
      [⟨⟨cx - h, cy + h - q⟩, ⟨cx + h, cy + h⟩⟩, ⟨⟨cx - s, cy + h - b⟩, ⟨cx + s, cy + h - q⟩⟩] =
      ⟨⟨cx - h, cy + h - b⟩, ⟨cx + h, cy + h⟩⟩ := by
  rw [boundingBox_two]
  simp only [Rectangle.mk.injEq, Point.mk.injEq]
  omega

theorem glyphBox_T270 (cx cy b h q s : Int) (hsh : s ≤ h) (hq0 : 0 ≤ q) (hqb : q ≤ b) :
    boundingBox
      [⟨⟨cx - h, cy - h⟩, ⟨cx - h + q, cy + h⟩⟩, ⟨⟨cx - h + q, cy - s⟩, ⟨cx - h + b, cy + s⟩⟩] =
      ⟨⟨cx - h, cy - h⟩, ⟨cx - h + b, cy + h⟩⟩ := by
  rw [boundingBox_two]
  simp only [Rectangle.mk.injEq, Point.mk.injEq]
  omega

theorem glyphBox_Cross (cx cy h s : Int) (hs0 : 0 ≤ s) (hsh : s ≤ h) :
    boundingBox
      [⟨⟨cx - h, cy - s⟩, ⟨cx + h, cy + s⟩⟩, ⟨⟨cx - s, cy - h⟩, ⟨cx + s, cy - s⟩⟩,
      ⟨⟨cx - s, cy + s⟩, ⟨cx + s, cy + h⟩⟩] =
      ⟨⟨cx - h, cy - h⟩, ⟨cx + h, cy + h⟩⟩ := by
  rw [boundingBox_three]
  simp only [Rectangle.mk.injEq, Point.mk.injEq]
  omega

/-- C26, for base sizes from 0 to 2^62 and centres with coordinates between
-2^62 and 2^62, where no coordinate of the glyph leaves the range of `int`: the
bounding box of the rectangles of a glyph, before clipping, reaches half the
base size (the integer quotient) from the centre on every side, except on the
side where the stem of a T glyph ends (below for T0, to the left for T90, above
for T180, to the right for T270), where it reaches the base size less that
half. So the box of the cross is centred on the centre in both axes; the box of
a T glyph is centred across its stem, and along its stem exactly when the base
size is even, reaching one pixel further on the side of the stem when it is
odd. -/
theorem C26_glyph_box_extents (cx cy b : Int) (variant : FigureVariant)
    (hv : variant = T0 ∨ variant = T90 ∨ variant = T180 ∨ variant = T270 ∨ variant = Cross)
    (hb0 : 0 ≤ b) (hb1 : b ≤ 2 ^ 62) (hx0 : -2 ^ 62 ≤ cx) (hx1 : cx ≤ 2 ^ 62)
    (hy0 : -2 ^ 62 ≤ cy) (hy1 : cy ≤ 2 ^ 62) :
    ∃ rects, figureRects cx cy variant b = some rects ∧
      cx - (boundingBox rects).Min.X = (if variant = T90 then b - Int.tdiv b 2 else Int.tdiv b 2) ∧
      (boundingBox rects).Max.X - cx = (if variant = T270 then b - Int.tdiv b 2 else Int.tdiv b 2) ∧
      cy - (boundingBox rects).Min.Y = (if variant = T180 then b - Int.tdiv b 2 else Int.tdiv b 2) ∧
      (boundingBox rects).Max.Y - cy = (if variant = T0 then b - Int.tdiv b 2 else Int.tdiv b 2) ∧
      (variant = Cross ∨ b % 2 = 0 →
        cx - (boundingBox rects).Min.X = (boundingBox rects).Max.X - cx ∧
        cy - (boundingBox rects).Min.Y = (boundingBox rects).Max.Y - cy) ∧
      (variant ≠ Cross → b % 2 = 1 →
        ¬(cx - (boundingBox rects).Min.X = (boundingBox rects).Max.X - cx ∧
          cy - (boundingBox rects).Min.Y = (boundingBox rects).Max.Y - cy)) := by
  obtain ⟨hh0, hh1, hh2⟩ := tdiv_bounds b 2 hb0 (by norm_num)
  obtain ⟨hq0, hq1, hq2⟩ := tdiv_bounds b 3 hb0 (by norm_num)
  obtain ⟨hs0, hs1, hs2⟩ := tdiv_bounds (Int.tdiv b 3) 2 hq0 (by norm_num)
  have hb1l : b ≤ 4611686018427387904 := by norm_num at hb1; exact hb1
  have hx0l : -4611686018427387904 ≤ cx := by norm_num at hx0; exact hx0
  have hx1l : cx ≤ 4611686018427387904 := by norm_num at hx1; exact hx1
  have hy0l : -4611686018427387904 ≤ cy := by norm_num at hy0; exact hy0
  have hy1l : cy ≤ 4611686018427387904 := by norm_num at hy1; exact hy1
  generalize hs : Int.tdiv (Int.tdiv b 3) 2 = s at hs0 hs1 hs2
  generalize hq : Int.tdiv b 3 = q at hq0 hq1 hq2 hs1 hs2 hs
  generalize hh : Int.tdiv b 2 = h at hh0 hh1 hh2
  have hsh : s ≤ h := by omega
  have hqb : q ≤ b := by omega
  clear hx0 hx1 hy0 hy1 hb1
  rcases hv with rfl | rfl | rfl | rfl | rfl
  · refine ⟨_, figureRects_T0 cx cy b h q s hh.symm hq.symm hs.symm hb0 hb1l hx0l hx1l hy0l hy1l,
      ?_⟩
    rw [glyphBox_T0 cx cy b h q s hsh hq0 hqb]
    have e0 : ((0 : Int) = 1) = False := by decide
    have e1 : ((0 : Int) = 2) = False := by decide
    have e2 : ((0 : Int) = 3) = False := by decide
    have e3 : ((0 : Int) = 4) = False := by decide
    simp only [T0, T90, T180, T270, Cross, e0, e1, e2, e3, if_true, if_false, ne_eq,
      not_false_eq_true, false_or, true_implies]
    clear e0 e1 e2 e3 hs hq hh hx0l hx1l hy0l hy1l hb1l
    omega
  · refine ⟨_, figureRects_T90 cx cy b h q s hh.symm hq.symm hs.symm hb0 hb1l hx0l hx1l hy0l hy1l,
      ?_⟩
    rw [glyphBox_T90 cx cy b h q s hsh hq0 hqb]
    have e0 : ((1 : Int) = 0) = False := by decide
    have e1 : ((1 : Int) = 2) = False := by decide
    have e2 : ((1 : Int) = 3) = False := by decide
    have e3 : ((1 : Int) = 4) = False := by decide
    simp only [T0, T90, T180, T270, Cross, e0, e1, e2, e3, if_true, if_false, ne_eq,
      not_false_eq_true, false_or, true_implies]
    clear e0 e1 e2 e3 hs hq hh hx0l hx1l hy0l hy1l hb1l
    omega
  · refine ⟨_, figureRects_T180 cx cy b h q s hh.symm hq.symm hs.symm hb0 hb1l hx0l hx1l hy0l hy1l,
      ?_⟩
    rw [glyphBox_T180 cx cy b h q s hsh hq0 hqb]
    have e0 : ((2 : Int) = 0) = False := by decide
    have e1 : ((2 : Int) = 1) = False := by decide
    have e2 : ((2 : Int) = 3) = False := by decide
    have e3 : ((2 : Int) = 4) = False := by decide
    simp only [T0, T90, T180, T270, Cross, e0, e1, e2, e3, if_true, if_false, ne_eq,
      not_false_eq_true, false_or, true_implies]
    clear e0 e1 e2 e3 hs hq hh hx0l hx1l hy0l hy1l hb1l
    omega
  · refine ⟨_, figureRects_T270 cx cy b h q s hh.symm hq.symm hs.symm hb0 hb1l hx0l hx1l hy0l hy1l,
      ?_⟩
    rw [glyphBox_T270 cx cy b h q s hsh hq0 hqb]
    have e0 : ((3 : Int) = 0) = False := by decide
    have e1 : ((3 : Int) = 1) = False := by decide
    have e2 : ((3 : Int) = 2) = False := by decide
    have e3 : ((3 : Int) = 4) = False := by decide
    simp only [T0, T90, T180, T270, Cross, e0, e1, e2, e3, if_true, if_false, ne_eq,
      not_false_eq_true, false_or, true_implies]
    clear e0 e1 e2 e3 hs hq hh hx0l hx1l hy0l hy1l hb1l
    omega
  · refine ⟨_, figureRects_Cross cx cy b h q s hh.symm hq.symm hs.symm hb0 hb1l hx0l hx1l hy0l hy1l,
      ?_⟩
    rw [glyphBox_Cross cx cy h s hs0 hsh]
    have e0 : ((4 : Int) = 0) = False := by decide
    have e1 : ((4 : Int) = 1) = False := by decide
    have e2 : ((4 : Int) = 2) = False := by decide
    have e3 : ((4 : Int) = 3) = False := by decide
    simp only [T0, T90, T180, T270, Cross, e0, e1, e2, e3, if_false, ne_eq, not_true_eq_false,
      true_or, true_implies, false_implies, and_true]
    clear e0 e1 e2 e3 hs hq hh hx0l hx1l hy0l hy1l hb1l
    omega

/-- Witness of C26: the glyph T180 of base size 240 at the centre of an
800 x 800 window has a box centred on (400, 400). -/
theorem C26_glyph_box_extents_witness :
    ∃ rects, figureRects 400 400 T180 240 = some rects ∧
      400 - (boundingBox rects).Min.X = (boundingBox rects).Max.X - 400 ∧
      400 - (boundingBox rects).Min.Y = (boundingBox rects).Max.Y - 400 := by
  obtain ⟨rects, h1, _, _, _, _, h6, _⟩ := C26_glyph_box_extents 400 400 240 T180
    (Or.inr (Or.inr (Or.inl rfl))) (by decide) (by norm_num) (by norm_num) (by norm_num)
    (by norm_num) (by norm_num)
  exact ⟨rects, h1, h6 (Or.inr (by decide))⟩

/-- For a window whose smaller side is at least 40 and below 2^53 the base
size is at most half that side. -/
theorem figureBaseSize_le_half (W H : Int) (h40 : 40 ≤ min W H) (h53 : min W H < 2 ^ 53) :
    figureBaseSize W H ≤ Int.tdiv (min W H) 2 := by
  unfold figureBaseSize
  generalize min W H = m at h40 h53 ⊢
  obtain ⟨_, ht1, ht2⟩ := tdiv_bounds m 2 (by omega) (by norm_num)
  have h : (F64.mul (F64.ofInt m) (F64.round false 3 10)).toInt ≤ Int.tdiv m 2 := by
    rw [F64.three_tenths]
    have hna : m.natAbs < 2 ^ 53 := by omega
    obtain ⟨mw, ew, hof, hmw, hew1, hew2, hval⟩ := F64.ofInt_exact m (by omega)
    have hd : decide (m < 0) = false := by simp; omega
    rw [hof, hd]
    have hmq : (m.natAbs : ℚ) = (m : ℚ) :=
      calc (m.natAbs : ℚ) = ((m.natAbs : Int) : ℚ) := (Int.cast_natCast _).symm
        _ = (m : ℚ) := by rw [Int.natAbs_of_nonneg (by omega)]
    by_cases hz : mw * 5404319552844595 = 0
    · rw [F64.mul_fin_zero _ _ _ _ _ _ hz]
      simp only [F64.toInt]
      norm_num
      omega
    · have hc : (5404319552844595 : ℚ) * (2 : ℚ) ^ (-54 : Int) ≤ 1 / 2 := by
        rw [zpow_neg]
        norm_num
      have hm0 : (0 : ℚ) ≤ (m.natAbs : ℚ) := by positivity
      have hprod : (mw : ℚ) * (5404319552844595 : Nat) * (2 : ℚ) ^ (ew + -54) ≤
          (m.natAbs : ℚ) * (2 : ℚ) ^ (-1 : Int) := by
        rw [F64.two_zpow_add]
        calc (mw : ℚ) * (5404319552844595 : Nat) * ((2 : ℚ) ^ ew * (2 : ℚ) ^ (-54 : Int))
            = ((mw : ℚ) * (2 : ℚ) ^ ew) * ((5404319552844595 : ℚ) * (2 : ℚ) ^ (-54 : Int)) := by
              push_cast; ring
          _ = (m.natAbs : ℚ) * ((5404319552844595 : ℚ) * (2 : ℚ) ^ (-54 : Int)) := by rw [hval]
          _ ≤ (m.natAbs : ℚ) * (1 / 2) := mul_le_mul_of_nonneg_left hc hm0
          _ = (m.natAbs : ℚ) * (2 : ℚ) ^ (-1 : Int) := by rw [zpow_neg]; norm_num
      obtain ⟨m1, e1, hmul, _, _, _, _, hhi1⟩ := F64.mul_fin_between false false mw
        5404319552844595 ew (-54) hz 0 m.natAbs 0 (-1) (by norm_num) hna (by norm_num)
        (by norm_num) (by norm_num) (by simp; positivity) hprod
      rw [hmul]
      have hval1 : (m1 : ℚ) * (2 : ℚ) ^ e1 ≤ (m : ℚ) / 2 := by
        rw [← hmq]
        have : (m.natAbs : ℚ) * (2 : ℚ) ^ (-1 : Int) = (m.natAbs : ℚ) / 2 := by
          rw [zpow_neg]; norm_num; ring
        rw [this] at hhi1
        exact hhi1
      have hm63 : (m : ℚ) < 2 ^ 53 := by exact_mod_cast h53
      simp only [Bool.xor_false]
      rw [F64.toInt_pos _ _ (by linarith [show (2 : ℚ) ^ 53 < 2 ^ 63 by norm_num])]
      apply Int.floor_le_iff.mpr
      have : (m : ℚ) < 2 * ((Int.tdiv m 2 : Int) : ℚ) + 2 := by exact_mod_cast ht2
      linarith
  dsimp only
  split_ifs <;> omega

set_option maxRecDepth 8000 in
/-- C25 fails on small windows. For a 30 x 30 window the product
`float64(30) * 0.3` gives 9, below the minimum, so the base size is 20; the
glyph T180 centred at (15, 15) is the bar `(5,19)-(25,25)` and the stem
`(12,5)-(18,19)`, both inside the surface and filled whole; their bounding box
`(5,5)-(25,25)` is 20 pixels wide and 20 high, more than half the window side,
15. -/
theorem C25_glyph_wider_than_half_window :
    figureBaseSize 30 30 = 20 ∧
    figureRects 15 15 T180 (figureBaseSize 30 30) =
      some [⟨⟨5, 19⟩, ⟨25, 25⟩⟩, ⟨⟨12, 5⟩, ⟨18, 19⟩⟩] ∧
    glyphFills ⟨30, 30⟩ 15 15 T180 Color.Yellow 30 30 =
      [(⟨⟨5, 19⟩, ⟨25, 25⟩⟩, Color.Yellow), (⟨⟨12, 5⟩, ⟨18, 19⟩⟩, Color.Yellow)] ∧
    boundingBox ((figureRects 15 15 T180 (figureBaseSize 30 30)).getD []) = ⟨⟨5, 5⟩, ⟨25, 25⟩⟩ ∧
    Int.tdiv (min 30 30) 2 = 15 ∧
    ¬ (boundingBox ((figureRects 15 15 T180 (figureBaseSize 30 30)).getD [])).Dx ≤
      Int.tdiv (min 30 30) 2 ∧
    ¬ (boundingBox ((figureRects 15 15 T180 (figureBaseSize 30 30)).getD [])).Dy ≤
      Int.tdiv (min 30 30) 2 := by
  refine ⟨by decide, by decide, by decide, by decide, by decide, by decide, by decide⟩

/-- Where the minimum base size does not take effect the glyph keeps within
half the window: for a window whose smaller side is at least 40 and below
2^53, and a centre with coordinates between -2^62 and 2^62, the bounding box
of the rectangles of a glyph is at most `min(W, H) / 2` wide and high. -/
theorem glyphBox_within_half (cx cy W H : Int) (variant : FigureVariant)
    (hv : variant = T0 ∨ variant = T90 ∨ variant = T180 ∨ variant = T270 ∨ variant = Cross)
    (h40 : 40 ≤ min W H) (h53 : min W H < 2 ^ 53) (hx0 : -2 ^ 62 ≤ cx) (hx1 : cx ≤ 2 ^ 62)
    (hy0 : -2 ^ 62 ≤ cy) (hy1 : cy ≤ 2 ^ 62) :
    ∃ rects, figureRects cx cy variant (figureBaseSize W H) = some rects ∧
      (boundingBox rects).Max.X - (boundingBox rects).Min.X ≤ Int.tdiv (min W H) 2 ∧
      (boundingBox rects).Max.Y - (boundingBox rects).Min.Y ≤ Int.tdiv (min W H) 2 := by
  have hhalf := figureBaseSize_le_half W H h40 h53
  have hb20 : 20 ≤ figureBaseSize W H := by
    unfold figureBaseSize
    dsimp only
    split_ifs <;> omega
  obtain ⟨_, ht1, _⟩ := tdiv_bounds (min W H) 2 (by omega) (by norm_num)
  generalize figureBaseSize W H = b at hhalf hb20 ⊢
  generalize Int.tdiv (min W H) 2 = half at hhalf ht1 ⊢
  have hb0 : 0 ≤ b := by omega
  have hb1l : b ≤ 4611686018427387904 := by omega
  have hx0l : -4611686018427387904 ≤ cx := by norm_num at hx0; exact hx0
  have hx1l : cx ≤ 4611686018427387904 := by norm_num at hx1; exact hx1
  have hy0l : -4611686018427387904 ≤ cy := by norm_num at hy0; exact hy0
  have hy1l : cy ≤ 4611686018427387904 := by norm_num at hy1; exact hy1
  obtain ⟨hh0, hh1, hh2⟩ := tdiv_bounds b 2 hb0 (by norm_num)
  obtain ⟨hq0, hq1, hq2⟩ := tdiv_bounds b 3 hb0 (by norm_num)
  obtain ⟨hs0, hs1, hs2⟩ := tdiv_bounds (Int.tdiv b 3) 2 hq0 (by norm_num)
  generalize hs : Int.tdiv (Int.tdiv b 3) 2 = s at hs0 hs1 hs2
  generalize hq : Int.tdiv b 3 = q at hq0 hq1 hq2 hs1 hs2 hs
  generalize hh : Int.tdiv b 2 = h at hh0 hh1 hh2
  have hsh : s ≤ h := by omega
  have hqb : q ≤ b := by omega
  clear hx0 hx1 hy0 hy1 h40 h53
  rcases hv with rfl | rfl | rfl | rfl | rfl
  · refine ⟨_, figureRects_T0 cx cy b h q s hh.symm hq.symm hs.symm hb0 hb1l hx0l hx1l hy0l hy1l,
      ?_⟩
    rw [glyphBox_T0 cx cy b h q s hsh hq0 hqb]
    dsimp only
    omega
  · refine ⟨_, figureRects_T90 cx cy b h q s hh.symm hq.symm hs.symm hb0 hb1l hx0l hx1l hy0l hy1l,
      ?_⟩
    rw [glyphBox_T90 cx cy b h q s hsh hq0 hqb]
    dsimp only
    omega
  · refine ⟨_, figureRects_T180 cx cy b h q s hh.symm hq.symm hs.symm hb0 hb1l hx0l hx1l hy0l hy1l,
      ?_⟩
    rw [glyphBox_T180 cx cy b h q s hsh hq0 hqb]
    dsimp only
    omega
  · refine ⟨_, figureRects_T270 cx cy b h q s hh.symm hq.symm hs.symm hb0 hb1l hx0l hx1l hy0l hy1l,
      ?_⟩
    rw [glyphBox_T270 cx cy b h q s hsh hq0 hqb]
    dsimp only
    omega
  · refine ⟨_, figureRects_Cross cx cy b h q s hh.symm hq.symm hs.symm hb0 hb1l hx0l hx1l hy0l
      hy1l, ?_⟩
    rw [glyphBox_Cross cx cy h s hs0 hsh]
    dsimp only
    omega

/-! ## Theorems: stored pixels and the surface -/

/-- The pixel `int(u * float64(W))` of a coordinate in [0,1], for a size from 0
to 2^53, which `float64(W)` holds exactly, lies between 0 and `W`. -/
theorem F64.pixel_within (u : F64) (W : Int) (h0 : F64.le F64.zero u = true)
    (h1 : F64.le u F64.one = true) (hW0 : 0 ≤ W) (hW1 : W ≤ 2 ^ 53) :
    0 ≤ (F64.mul u (F64.ofInt W)).toInt ∧ (F64.mul u (F64.ofInt W)).toInt ≤ W := by
  obtain ⟨n, m, e, rfl, hn, hu⟩ := F64.unit_cases u h0 h1
  obtain ⟨mw, ew, hof, hmw, hew1, hew2, hval⟩ := F64.ofInt_exact W (by omega)
  have hd : decide (W < 0) = false := by simp; omega
  have hWq : (W.natAbs : ℚ) = (W : ℚ) :=
    calc (W.natAbs : ℚ) = ((W.natAbs : Int) : ℚ) := (Int.cast_natCast _).symm
      _ = (W : ℚ) := by rw [Int.natAbs_of_nonneg hW0]
  rw [hof, hd]
  by_cases hz : m * mw = 0
  · rw [F64.mul_fin_zero _ _ _ _ _ _ hz]
    cases n <;> simp [F64.toInt, hW0]
  · have hm0 : m ≠ 0 := fun h => hz (by rw [h, Nat.zero_mul])
    have hnf : n = false := by
      rcases hn with h | h
      · exact h
      · exact absurd h hm0
    subst hnf
    have hprod : (m : ℚ) * mw * (2 : ℚ) ^ (e + ew) ≤ (mw : ℚ) * (2 : ℚ) ^ ew := by
      rw [F64.two_zpow_add]
      have hw0 : (0 : ℚ) ≤ (mw : ℚ) * (2 : ℚ) ^ ew := by positivity
      calc (m : ℚ) * mw * ((2 : ℚ) ^ e * (2 : ℚ) ^ ew)
          = ((m : ℚ) * (2 : ℚ) ^ e) * ((mw : ℚ) * (2 : ℚ) ^ ew) := by ring
        _ ≤ 1 * ((mw : ℚ) * (2 : ℚ) ^ ew) := mul_le_mul_of_nonneg_right hu hw0
        _ = (mw : ℚ) * (2 : ℚ) ^ ew := one_mul _
    obtain ⟨m1, e1, hmul, _, _, _, _, hhi⟩ := F64.mul_fin_between false false m mw e ew hz 0 mw 0
      ew (by norm_num) hmw (by norm_num) hew1 hew2 (by simp; positivity) hprod
    rw [hmul]
    have hle : (m1 : ℚ) * (2 : ℚ) ^ e1 ≤ (W : ℚ) := by
      rw [← hWq, ← hval]
      exact hhi
    have hW53 : (W : ℚ) ≤ 2 ^ 53 := by exact_mod_cast hW1
    have hlt : (m1 : ℚ) * (2 : ℚ) ^ e1 < 2 ^ 63 := by
      linarith [show (2 : ℚ) ^ 53 < 2 ^ 63 by norm_num]
    simp only [Bool.xor_false]
    rw [F64.toInt_pos _ _ hlt]
    constructor
    · exact Int.floor_nonneg.mpr (by positivity)
    · apply Int.floor_le_iff.mpr
      linarith

set_option maxRecDepth 8000 in
/-- C29 fails as stated: for the width `2^53 + 3` the conversion `float64(W)`
gives `2^53 + 4`, and the figure with coordinates (1, 1) is stored at
`2^53 + 4`, beyond the width. -/
theorem C29_figure_beyond_surface :
    F64.ofInt (2 ^ 53 + 3) = F64.fin false (2 ^ 52 + 2) 1 ∧
    (Figure.Do F64.one F64.one (NewLoop none (2 ^ 53 + 3) (2 ^ 53 + 3)).state
      ⟨⟨2 ^ 53 + 3, 2 ^ 53 + 3⟩, [], false⟩).2.1.Figures =
        [⟨2 ^ 53 + 4, 2 ^ 53 + 4, T180, Color.Yellow⟩] ∧
    ¬ ((2 : Int) ^ 53 + 4 ≤ 2 ^ 53 + 3) := by
  refine ⟨by decide, by decide, by decide⟩

/-- C29, for sizes up to 2^53: for a surface with `0 ≤ W, H ≤ 2^53` and
coordinates in [0,1], the centre of the figure that `Figure.Do` stores and the
four bounds that `BgRect.Do` stores lie within the surface, `0 ≤ x ≤ W` and
`0 ≤ y ≤ H`. -/
theorem C29_stored_pixels_within_surface (X Y X1 Y1 X2 Y2 : F64) (s : State) (t : Texture)
    (hX : F64.le F64.zero X = true ∧ F64.le X F64.one = true)
    (hY : F64.le F64.zero Y = true ∧ F64.le Y F64.one = true)
    (hX1 : F64.le F64.zero X1 = true ∧ F64.le X1 F64.one = true)
    (hY1 : F64.le F64.zero Y1 = true ∧ F64.le Y1 F64.one = true)
    (hX2 : F64.le F64.zero X2 = true ∧ F64.le X2 F64.one = true)
    (hY2 : F64.le F64.zero Y2 = true ∧ F64.le Y2 F64.one = true)
    (hW : 0 ≤ s.WindowWidth ∧ s.WindowWidth ≤ 2 ^ 53)
    (hH : 0 ≤ s.WindowHeight ∧ s.WindowHeight ≤ 2 ^ 53) :
    (∃ fig, (Figure.Do X Y s t).2.1.Figures = s.Figures ++ [fig] ∧
      0 ≤ fig.X ∧ fig.X ≤ s.WindowWidth ∧ 0 ≤ fig.Y ∧ fig.Y ≤ s.WindowHeight) ∧
    (∃ b, (BgRect.Do X1 Y1 X2 Y2 s t).2.1.BgRect = some b ∧
      0 ≤ b.X1 ∧ b.X1 ≤ s.WindowWidth ∧ 0 ≤ b.X2 ∧ b.X2 ≤ s.WindowWidth ∧
      0 ≤ b.Y1 ∧ b.Y1 ≤ s.WindowHeight ∧ 0 ≤ b.Y2 ∧ b.Y2 ≤ s.WindowHeight) := by
  have ex := F64.pixel_within X s.WindowWidth hX.1 hX.2 hW.1 hW.2
  have ey := F64.pixel_within Y s.WindowHeight hY.1 hY.2 hH.1 hH.2
  have ex1 := F64.pixel_within X1 s.WindowWidth hX1.1 hX1.2 hW.1 hW.2
  have ex2 := F64.pixel_within X2 s.WindowWidth hX2.1 hX2.2 hW.1 hW.2
  have ey1 := F64.pixel_within Y1 s.WindowHeight hY1.1 hY1.2 hH.1 hH.2
  have ey2 := F64.pixel_within Y2 s.WindowHeight hY2.1 hY2.2 hH.1 hH.2
  refine ⟨⟨_, rfl, ex.1, ex.2, ey.1, ey.2⟩, ⟨_, rfl, ?_, ?_, ?_, ?_, ?_, ?_, ?_, ?_⟩⟩ <;>
    (dsimp only; split <;> omega)

set_option maxRecDepth 8000 in
/-- Witness of C29: `figure 0.5 1` and `bgrect 0.1 0.2 0.8 0.9` on an 800 x 800
surface. -/
theorem C29_stored_pixels_within_surface_witness :
    (Figure.Do (F64.round false 5 10) F64.one (NewLoop none 800 800).state
      ⟨⟨800, 800⟩, [], false⟩).2.1.Figures = [⟨400, 800, T180, Color.Yellow⟩] ∧
    ∃ fig, (Figure.Do (F64.round false 5 10) F64.one (NewLoop none 800 800).state
        ⟨⟨800, 800⟩, [], false⟩).2.1.Figures = (NewLoop none 800 800).state.Figures ++ [fig] ∧
      0 ≤ fig.X ∧ fig.X ≤ 800 ∧ 0 ≤ fig.Y ∧ fig.Y ≤ 800 :=
  ⟨by decide,
    (C29_stored_pixels_within_surface (F64.round false 5 10) F64.one
      (F64.fin false 7205759403792794 (-56)) (F64.fin false 7205759403792794 (-55))
      (F64.fin false 7205759403792794 (-53)) (F64.fin false 8106479329266893 (-53))
      (NewLoop none 800 800).state ⟨⟨800, 800⟩, [], false⟩
      ⟨by decide, by decide⟩ ⟨by decide, by decide⟩ ⟨by decide, by decide⟩
      ⟨by decide, by decide⟩ ⟨by decide, by decide⟩ ⟨by decide, by decide⟩
      ⟨by decide, by decide⟩ ⟨by decide, by decide⟩).1⟩

/-! ## Theorems: stopping the loop -/

theorem Loop.wake_stopped (l : Loop) (tex : Texture) (next : Loop × Texture)
    (h : l.wake tex = some next) : next.1.stopped = l.stopped ∧ next.1.stop = l.stop := by
  unfold Loop.wake at h
  split at h
  · cases h
  · cases h
    exact ⟨(Loop.batchStep_state _ tex).2.2.2.2, (Loop.batchStep_state _ tex).2.2.2.1⟩

theorem Running.inv_of_start (l : Loop) (newTexture : Point → Option Texture) (r0 : Running)
    (hl : l.stopped = false) (h : Running.start l newTexture = some r0) : r0.Inv := by
  unfold Running.start Loop.Start at h
  split at h
  · cases h
  · rename_i started hs
    split at hs
    · cases hs
    · cases hs
      cases h
      refine ⟨fun h => (by cases h), fun h => ?_, fun h => ?_⟩
      · simp only [Loop.Post] at h
        rw [hl] at h
        cases h
      · rcases h with h | h <;> cases h

theorem Running.inv_of_step (r r1 : Running) (hinv : r.Inv) (hstep : Running.Step r r1) : r1.Inv := by
  obtain ⟨h1, h2, h3⟩ := hinv
  cases hstep with
  | post op => exact ⟨h1, h2, h3⟩
  | wake next hg hw =>
    obtain ⟨hs, _⟩ := Loop.wake_stopped _ _ _ hw
    refine ⟨fun h => ?_, fun h => ?_, fun h => ?_⟩
    · simp only at h ⊢
      rw [hs]
      exact h1 h
    · simp only at h ⊢
      rw [hs] at h
      exact h2 h
    · simp only at h
      rw [hg] at h
      rcases h with h | h <;> cases h
  | stopCase hg hs =>
    refine ⟨h1, fun h => ?_, fun h => ?_⟩
    · have := h2 h
      rw [hg] at this
      cases this
    · rcases h with h | h <;> cases h
  | release hg =>
    refine ⟨h1, fun h => ?_, fun _ => rfl⟩
    have := h2 h
    rw [hg] at this
    cases this
  | closeStopped hg =>
    exact ⟨fun _ => rfl, fun _ => rfl, fun _ => h3 (Or.inl hg)⟩
  | stopSignal hc =>
    refine ⟨fun h => (by cases h), h2, h3⟩
  | stopReturn hc hs =>
    exact ⟨fun _ => hs, h2, h3⟩

theorem Running.inv_of_run (r r1 : Running) (hinv : r.Inv) (hrun : Running.Run r r1) : r1.Inv := by
  induction hrun with
  | refl => exact hinv
  | tail r1 r2 _ hstep ih => exact Running.inv_of_step r1 r2 ih hstep

theorem Running.exited_step (r r1 : Running) (he : r.goroutine = .exited)
    (hstep : Running.Step r r1) :
    r1.goroutine = .exited ∧ r1.loop.Receiver = r.loop.Receiver ∧ r1.loop.state = r.loop.state ∧
    r1.texture = r.texture ∧ (r.stopCall = .returned → r1.stopCall = .returned) := by
  cases hstep with
  | post op => exact ⟨he, rfl, rfl, rfl, fun h => h⟩
  | wake next hg hw => rw [he] at hg; cases hg
  | stopCase hg hs => rw [he] at hg; cases hg
  | release hg => rw [he] at hg; cases hg
  | closeStopped hg => rw [he] at hg; cases hg
  | stopSignal hc => exact ⟨he, rfl, rfl, rfl, fun h => by rw [hc] at h; cases h⟩
  | stopReturn hc hs => exact ⟨he, rfl, rfl, rfl, fun _ => rfl⟩

theorem Running.exited_run (r r1 : Running) (he : r.goroutine = .exited)
    (hrun : Running.Run r r1) :
    r1.goroutine = .exited ∧ r1.loop.Receiver = r.loop.Receiver ∧ r1.loop.state = r.loop.state ∧
    r1.texture = r.texture ∧ (r.stopCall = .returned → r1.stopCall = .returned) := by
  induction hrun with
  | refl => exact ⟨he, rfl, rfl, rfl, fun h => h⟩
  | tail r1 r2 _ hstep ih =>
    obtain ⟨i1, i2, i3, i4, i5⟩ := ih
    obtain ⟨s1, s2, s3, s4, s5⟩ := Running.exited_step r1 r2 i1 hstep
    exact ⟨s1, s2.trans i2, s3.trans i3, s4.trans i4, fun h => s5 (i5 h)⟩

/-- C21: in every execution of a loop started from `NewLoop`, whatever
operations are posted and whenever, once `Stop` has returned the goroutine has
finished and `Texture.Release` has been called on its texture; and from then
on, in every continuation, the goroutine stays finished, and the receiver (no
`Update` call), the state (no operation applied) and the texture stay as they
are. -/
theorem C21_stop_returns_after_release (rcv : Option Receiver) (W H : Int)
    (newTexture : Point → Option Texture) (r0 r r2 : Running)
    (hstart : Running.start (NewLoop rcv W H) newTexture = some r0)
    (hrun : Running.Run r0 r) (hret : r.stopCall = .returned) (hlater : Running.Run r r2) :
    r.goroutine = .exited ∧ r.texture.released = true ∧
    r2.goroutine = .exited ∧ r2.stopCall = .returned ∧
    r2.loop.Receiver = r.loop.Receiver ∧ r2.loop.state = r.loop.state ∧
    r2.texture = r.texture ∧
    ∀ r3, Running.Step r2 r3 →
      r3.loop.Receiver = r2.loop.Receiver ∧ r3.loop.state = r2.loop.state ∧
      r3.texture = r2.texture := by
  have hinv : r.Inv :=
    Running.inv_of_run r0 r (Running.inv_of_start (NewLoop rcv W H) newTexture r0 rfl hstart) hrun
  obtain ⟨h1, h2, h3⟩ := hinv
  have hex : r.goroutine = .exited := h2 (h1 hret)
  obtain ⟨e1, e2, e3, e4, e5⟩ := Running.exited_run r r2 hex hlater
  refine ⟨hex, h3 (Or.inr hex), e1, e5 hret, e2, e3, e4, fun r3 hstep => ?_⟩
  obtain ⟨_, s2, s3, s4, _⟩ := Running.exited_step r2 r3 e1 hstep
  exact ⟨s2, s3, s4⟩

/-- Witness of C21: an 800 x 800 loop is started; `Stop` closes `stop`, the
goroutine takes the stop case, releases the texture and closes `stopped`, and
`Stop` returns; an `update` posted afterwards reaches the queue and is never
handled. -/
theorem C21_stop_returns_after_release_witness :
    ∃ r0 r r2 : Running,
      Running.start (NewLoop (some ⟨[]⟩) 800 800) (fun size => some ⟨size, [], false⟩) = some r0 ∧
      Running.Run r0 r ∧ r.stopCall = .returned ∧ Running.Run r r2 ∧
      r2.loop.Mq.ops = [.UpdateOp, .UpdateOp] ∧
      r.texture.released = true ∧ r2.loop.Receiver = some ⟨[]⟩ := by
  obtain ⟨r0, h0⟩ : ∃ r0, Running.start (NewLoop (some ⟨[]⟩) 800 800)
      (fun size => some ⟨size, [], false⟩) = some r0 := ⟨_, rfl⟩
  have hg0 : r0.goroutine = .waiting ∧ r0.stopCall = .idle ∧ r0.loop.Receiver = some ⟨[]⟩ ∧
      r0.loop.Mq.ops = [.UpdateOp] := by
    cases h0
    exact ⟨rfl, rfl, rfl, rfl⟩
  obtain ⟨L, T, g, c⟩ := r0
  obtain ⟨hg, hc, hR, hops⟩ := hg0
  simp only at hg hc hR hops
  subst hg hc
  have s1 : Running.Step ⟨L, T, .waiting, .idle⟩ ⟨{ L with stop := true }, T, .waiting, .signalled⟩ :=
    Running.Step.stopSignal _ rfl
  have s2 : Running.Step ⟨{ L with stop := true }, T, .waiting, .signalled⟩
      ⟨{ L with stop := true }, T, .returning, .signalled⟩ := Running.Step.stopCase _ rfl rfl
  have s3 : Running.Step ⟨{ L with stop := true }, T, .returning, .signalled⟩
      ⟨{ L with stop := true }, T.Release, .released, .signalled⟩ := Running.Step.release _ rfl
  have s4 : Running.Step ⟨{ L with stop := true }, T.Release, .released, .signalled⟩
      ⟨{ L with stop := true, stopped := true }, T.Release, .exited, .signalled⟩ :=
    Running.Step.closeStopped _ rfl
  have s5 : Running.Step ⟨{ L with stop := true, stopped := true }, T.Release, .exited, .signalled⟩
      ⟨{ L with stop := true, stopped := true }, T.Release, .exited, .returned⟩ :=
    Running.Step.stopReturn _ rfl rfl
  have s6 : Running.Step ⟨{ L with stop := true, stopped := true }, T.Release, .exited, .returned⟩
      ⟨({ L with stop := true, stopped := true } : Loop).Post .UpdateOp, T.Release, .exited,
        .returned⟩ := Running.Step.post _ .UpdateOp
  have hrun := Running.Run.tail _ _ _ (Running.Run.tail _ _ _ (Running.Run.tail _ _ _
    (Running.Run.tail _ _ _ (Running.Run.tail _ _ _ (Running.Run.refl _) s1) s2) s3) s4) s5
  have hlater := Running.Run.tail _ _ _ (Running.Run.refl _) s6
  have hthm := C21_stop_returns_after_release (some ⟨[]⟩) 800 800
    (fun size => some ⟨size, [], false⟩) _ _ _ h0 hrun rfl hlater
  refine ⟨_, _, _, h0, hrun, rfl, hlater, ?_, hthm.2.1, ?_⟩
  · show (({ L with stop := true, stopped := true } : Loop).Post .UpdateOp).Mq.ops = _
    simp only [Loop.Post, MessageQueue.Push, MessageQueue.signal, MessageQueue.append, hops]
    split <;> rfl
  · rw [hthm.2.2.2.2.1]
    exact hR

/-! ## Theorems: the frame of the background rectangle -/

theorem Point.In_Intersect (p : Point) (r s : Rectangle) :
    p.In (r.Intersect s) = true ↔ p.In r = true ∧ p.In s = true := by
  unfold Rectangle.Intersect
  simp only [Point.In, Rectangle.Empty, Bool.and_eq_true, decide_eq_true_eq, Bool.or_eq_true]
  split_ifs <;> simp only [] <;> omega

theorem Point.In_Rect (p : Point) (x0 y0 x1 y1 : Int) :
    p.In (Rect x0 y0 x1 y1) = true ↔
      ((x0 ≤ p.X ∧ p.X < x1) ∨ (x1 ≤ p.X ∧ p.X < x0)) ∧
      ((y0 ≤ p.Y ∧ p.Y < y1) ∨ (y1 ≤ p.Y ∧ p.Y < y0)) := by
  unfold Rect
  simp only [Point.In, Bool.and_eq_true, decide_eq_true_eq]
  split_ifs <;> omega

theorem colorAfter_append (fills later : List (Rectangle × Color)) (p : Point) :
    colorAfter (fills ++ later) p =
      match colorAfter later p with
      | some c => some c
      | none => colorAfter fills p := by
  induction fills with
  | nil =>
    simp only [List.nil_append, colorAfter]
    cases colorAfter later p <;> rfl
  | cons f fills ih =>
    obtain ⟨r, c⟩ := f
    rw [List.cons_append, colorAfter, ih, colorAfter]
    cases colorAfter later p <;> rfl

theorem colorAfter_one_colour (fills : List (Rectangle × Color)) (c : Color) (p : Point)
    (h : ∀ f ∈ fills, f.2 = c) :
    colorAfter fills p = if fills.any (fun f => p.In f.1) then some c else none := by
  induction fills with
  | nil => rfl
  | cons f fills ih =>
    obtain ⟨r, c1⟩ := f
    have hc : c1 = c := h (r, c1) (List.mem_cons_self _ _)
    have ih1 := ih fun f hf => h f (List.mem_cons_of_mem _ hf)
    simp only [colorAfter, ih1, List.any_cons, hc]
    cases hany : fills.any (fun f => p.In f.1) <;> cases hin : p.In r <;> simp

/-- What step 2 of `UpdateOp.Do` fills for a rectangle with positive width and
height whose coordinates lie between -2^62 and 2^62 - 1: the rectangle in black,
then green fills that cover, within the rectangle, the top row, the bottom row
and, for a width above 1 only, the left and the right column. -/
theorem drawBgRect_fills (b : BgRectOp) (t : Texture) (hx : b.X1 < b.X2) (hy : b.Y1 < b.Y2)
    (hx0 : -4611686018427387904 ≤ b.X1) (hx1 : b.X2 < 4611686018427387904)
    (hy0 : -4611686018427387904 ≤ b.Y1) (hy1 : b.Y2 < 4611686018427387904) :
    ∃ G : List (Rectangle × Color),
      (drawBgRect b t).fills = t.fills ++ (⟨⟨b.X1, b.Y1⟩, ⟨b.X2, b.Y2⟩⟩, Color.Black) :: G ∧
      (∀ g ∈ G, g.2 = Color.Green) ∧
      ∀ p : Point, G.any (fun g => p.In g.1) = true ↔
        (b.X1 ≤ p.X ∧ p.X < b.X2 ∧ b.Y1 ≤ p.Y ∧ p.Y < b.Y2) ∧
        (p.Y = b.Y1 ∨ p.Y = b.Y2 - 1 ∨ (1 < b.X2 - b.X1 ∧ (p.X = b.X1 ∨ p.X = b.X2 - 1))) := by
  obtain ⟨X1, Y1, X2, Y2⟩ := b
  simp only at hx hy hx0 hx1 hy0 hy1 ⊢
  have hrect : Rect X1 Y1 X2 Y2 = ⟨⟨X1, Y1⟩, ⟨X2, Y2⟩⟩ := Rect_of_le _ _ _ _ (by omega) (by omega)
  have e1 : wrap64 (X2 - X1) = X2 - X1 := wrap64_small _ (by omega) (by omega)
  have e2 : wrap64 (Y2 - Y1) = Y2 - Y1 := wrap64_small _ (by omega) (by omega)
  have e3 : wrap64 (Y1 + 1) = Y1 + 1 := wrap64_small _ (by omega) (by omega)
  have e4 : wrap64 (Y2 - 1) = Y2 - 1 := wrap64_small _ (by omega) (by omega)
  have e5 : wrap64 (X1 + 1) = X1 + 1 := wrap64_small _ (by omega) (by omega)
  have e6 : wrap64 (X2 - 1) = X2 - 1 := wrap64_small _ (by omega) (by omega)
  have hpos : X2 - X1 > 0 ∧ Y2 - Y1 > 0 := ⟨by omega, by omega⟩
  simp only [drawBgRect, hrect, Rectangle.Dx, Rectangle.Dy, sub64, add64, e1, e2, e3, e4, e5, e6,
    hpos, and_self, if_true, Texture.Fill]
  by_cases hh : Y2 - Y1 > 1 <;> by_cases hw : X2 - X1 > 1
  · simp only [hh, hw, if_true, List.append_assoc, List.singleton_append]
    refine ⟨_, rfl, ?_, ?_⟩
    · intro g hg
      simp only [List.append_eq, List.cons_append, List.nil_append, List.mem_cons,
        List.mem_singleton, List.not_mem_nil, or_false] at hg
      rcases hg with rfl | rfl | rfl | rfl <;> rfl
    · intro p
      simp only [List.append_eq, List.cons_append, List.nil_append, List.any_cons, List.any_nil,
        Bool.or_false, Bool.or_eq_true, Point.In_Intersect, Point.In_Rect]
      simp only [Point.In, Bool.and_eq_true, decide_eq_true_eq, true_and, false_and, or_false]
      constructor
      · rintro (h | h | h | h) <;> omega
      · rintro ⟨hin, hedge⟩
        by_cases ht : p.Y = Y1
        · left; omega
        · by_cases hb : p.Y = Y2 - 1
          · right; left; omega
          · by_cases hl : p.X = X1
            · right; right; left; omega
            · right; right; right; omega
  · simp only [hh, hw, if_true, if_false, List.append_assoc, List.singleton_append]
    refine ⟨_, rfl, ?_, ?_⟩
    · intro g hg
      simp only [List.append_eq, List.cons_append, List.nil_append, List.mem_cons,
        List.mem_singleton, List.not_mem_nil, or_false] at hg
      rcases hg with rfl | rfl <;> rfl
    · intro p
      simp only [List.append_eq, List.cons_append, List.nil_append, List.any_cons, List.any_nil,
        Bool.or_false, Bool.or_eq_true, Point.In_Intersect, Point.In_Rect]
      simp only [Point.In, Bool.and_eq_true, decide_eq_true_eq, true_and, false_and, or_false]
      constructor
      · rintro (h | h) <;> omega
      · rintro ⟨hin, hedge⟩
        by_cases ht : p.Y = Y1
        · left; omega
        · right; omega
  · simp only [hh, hw, if_true, if_false, List.append_assoc, List.singleton_append]
    refine ⟨_, rfl, ?_, ?_⟩
    · intro g hg
      simp only [List.append_eq, List.cons_append, List.nil_append, List.mem_cons,
        List.mem_singleton, List.not_mem_nil, or_false] at hg
      rcases hg with rfl | rfl | rfl <;> rfl
    · intro p
      simp only [List.append_eq, List.cons_append, List.nil_append, List.any_cons, List.any_nil,
        Bool.or_false, Bool.or_eq_true, Point.In_Intersect, Point.In_Rect]
      simp only [Point.In, Bool.and_eq_true, decide_eq_true_eq, true_and, false_and, or_false]
      constructor
      · rintro (h | h | h) <;> omega
      · rintro ⟨hin, hedge⟩
        left; omega
  · simp only [hh, hw, if_true, if_false, List.append_assoc, List.singleton_append]
    refine ⟨_, rfl, ?_, ?_⟩
    · intro g hg
      simp only [List.append_eq, List.cons_append, List.nil_append, List.mem_cons,
        List.mem_singleton, List.not_mem_nil, or_false] at hg
      rw [hg]
    · intro p
      simp only [List.append_eq, List.cons_append, List.nil_append, List.any_cons, List.any_nil,
        Bool.or_false, Bool.or_eq_true, Point.In_Intersect, Point.In_Rect]
      simp only [Point.In, Bool.and_eq_true, decide_eq_true_eq, true_and, false_and, or_false]
      constructor
      · intro h; omega
      · rintro ⟨hin, hedge⟩
        omega

/-- The colour of a pixel of the texture after steps 1 and 2 of `UpdateOp.Do`,
for a rectangle with positive width and height: inside the rectangle green on
the top row, on the bottom row and, for a width above 1 only, on the left and
the right column, and black elsewhere; outside the rectangle the background
colour. -/
theorem backgroundStep_colour (s : State) (t : Texture) (b : BgRectOp) (p : Point)
    (hb : s.BgRect = some b) (hx : b.X1 < b.X2) (hy : b.Y1 < b.Y2)
    (hx0 : -2 ^ 62 ≤ b.X1) (hx1 : b.X2 < 2 ^ 62) (hy0 : -2 ^ 62 ≤ b.Y1) (hy1 : b.Y2 < 2 ^ 62)
    (hp : p.In t.Bounds = true) :
    (backgroundStep s t).colorAt p = some
      (if b.X1 ≤ p.X ∧ p.X < b.X2 ∧ b.Y1 ≤ p.Y ∧ p.Y < b.Y2 then
        if p.Y = b.Y1 ∨ p.Y = b.Y2 - 1 ∨ (1 < b.X2 - b.X1 ∧ (p.X = b.X1 ∨ p.X = b.X2 - 1)) then
          Color.Green
        else Color.Black
      else s.BgColor) := by
  obtain ⟨G, hfills, hgreen, hany⟩ := drawBgRect_fills b (t.Fill t.Bounds s.BgColor) hx hy
    (by norm_num at hx0; exact hx0) (by norm_num at hx1; exact hx1)
    (by norm_num at hy0; exact hy0) (by norm_num at hy1; exact hy1)
  have hbounds : (drawBgRect b (t.Fill t.Bounds s.BgColor)).Bounds = t.Bounds := by
    simp only [Texture.Bounds, drawBgRect_size, Texture.Fill]
  have hstep : backgroundStep s t = drawBgRect b (t.Fill t.Bounds s.BgColor) := by
    simp only [backgroundStep, hb]
  rw [hstep, Texture.colorAt, hbounds, if_pos hp, hfills, colorAfter_append, colorAfter,
    colorAfter_one_colour G Color.Green p hgreen]
  have hbg : colorAfter (t.Fill t.Bounds s.BgColor).fills p = some s.BgColor := by
    simp only [Texture.Fill, colorAfter_append, colorAfter, hp, if_true]
  have hin : p.In ⟨⟨b.X1, b.Y1⟩, ⟨b.X2, b.Y2⟩⟩ = true ↔
      b.X1 ≤ p.X ∧ p.X < b.X2 ∧ b.Y1 ≤ p.Y ∧ p.Y < b.Y2 := by
    simp only [Point.In, Bool.and_eq_true, decide_eq_true_eq, and_assoc]
  by_cases hr : b.X1 ≤ p.X ∧ p.X < b.X2 ∧ b.Y1 ≤ p.Y ∧ p.Y < b.Y2
  · rw [if_pos hr]
    by_cases he : p.Y = b.Y1 ∨ p.Y = b.Y2 - 1 ∨ (1 < b.X2 - b.X1 ∧ (p.X = b.X1 ∨ p.X = b.X2 - 1))
    · rw [if_pos he, if_pos ((hany p).mpr ⟨hr, he⟩)]
    · have hno : ¬ G.any (fun g => p.In g.1) = true := fun h => he ((hany p).mp h).2
      rw [if_neg he, if_neg hno, if_pos (hin.mpr hr)]
  · have hno : ¬ G.any (fun g => p.In g.1) = true := fun h => hr ((hany p).mp h).1
    have hout : ¬ p.In ⟨⟨b.X1, b.Y1⟩, ⟨b.X2, b.Y2⟩⟩ = true := fun h => hr (hin.mp h)
    rw [if_neg hr, if_neg hno, if_neg hout, hbg]

set_option maxRecDepth 8000 in
/-- C24 fails for a rectangle one pixel wide and more than two pixels high. On
an 800 x 800 surface the command `bgrect 0.1 0.1 0.102 0.1045` stores the
rectangle `(80,80)-(81,83)`, the column 80 in the rows 80, 81 and 82. The
rectangle step fills it black, then draws the top line and the bottom line;
the left and the right line are drawn only for a width above 1. The pixel
(80, 81) lies on the left edge (and on the right edge) and stays black, also
at the end of `UpdateOp.Do`; the pixels above and below it are green. -/
theorem C24_narrow_rectangle_edge_left_black :
    Parse ParseFloat "bgrect 0.1 0.1 0.102 0.1045" =
      .ok (.BgRect (F64.fin false 7205759403792794 (-56)) (F64.fin false 7205759403792794 (-56))
        (F64.fin false 7349874591868649 (-56)) (F64.fin false 7530018576963469 (-56))) ∧
    (BgRect.Do (F64.fin false 7205759403792794 (-56)) (F64.fin false 7205759403792794 (-56))
      (F64.fin false 7349874591868649 (-56)) (F64.fin false 7530018576963469 (-56))
      (NewLoop none 800 800).state ⟨⟨800, 800⟩, [], false⟩).2.1 =
        { (NewLoop none 800 800).state with BgRect := some ⟨80, 80, 81, 83⟩ } ∧
    (backgroundStep { (NewLoop none 800 800).state with BgRect := some ⟨80, 80, 81, 83⟩ }
      ⟨⟨800, 800⟩, [], false⟩).fills =
        [(⟨⟨0, 0⟩, ⟨800, 800⟩⟩, Color.White), (⟨⟨80, 80⟩, ⟨81, 83⟩⟩, Color.Black),
          (⟨⟨80, 80⟩, ⟨81, 81⟩⟩, Color.Green), (⟨⟨80, 82⟩, ⟨81, 83⟩⟩, Color.Green)] ∧
    (backgroundStep { (NewLoop none 800 800).state with BgRect := some ⟨80, 80, 81, 83⟩ }
      ⟨⟨800, 800⟩, [], false⟩).colorAt ⟨80, 80⟩ = some Color.Green ∧
    (backgroundStep { (NewLoop none 800 800).state with BgRect := some ⟨80, 80, 81, 83⟩ }
      ⟨⟨800, 800⟩, [], false⟩).colorAt ⟨80, 81⟩ = some Color.Black ∧
    (backgroundStep { (NewLoop none 800 800).state with BgRect := some ⟨80, 80, 81, 83⟩ }
      ⟨⟨800, 800⟩, [], false⟩).colorAt ⟨80, 82⟩ = some Color.Green ∧
    (UpdateOp.Do { (NewLoop none 800 800).state with BgRect := some ⟨80, 80, 81, 83⟩ }
      ⟨⟨800, 800⟩, [], false⟩).2.2.colorAt ⟨80, 81⟩ = some Color.Black := by
  refine ⟨rfl, by decide, by decide, by decide, by decide, by decide, by decide⟩

end Painter
